import Mathlib

/-!
# Page index of the Parquet reader and writer

A shallow embedding of the page-skipping reader (`file_reader.cc`), of the
index-building column writer (`column_writer.cc`) and of the example driver
(`reader-with-index.cc`), followed by the properties established about them.

Conventions of the embedding.

* `int32_t` statistics are the integers that `*(int32_t*)min_values[i].c_str()`
  reads; where the source subtracts them the result is reduced with `wrap32`.
* `uint64_t` counters are naturals reduced modulo `2^64` at every update.
* `std::string` is a list of bytes (naturals below 256), `char` being signed as
  on x86, so that the byte `0xFF` is the `char` `-1`.
* An access outside a `std::vector` or a `std::string` is undefined behaviour
  in the source; the embedding stops there with `Outcome.outOfBounds`.
* Loops without a static bound run on fuel; one unit of fuel is one iteration.
-/

namespace Parquet

/-! ## Outcomes -/

/-- Result of running embedded code: a value, an access outside a container,
or an exhausted iteration budget. -/
inductive Outcome (α : Type) where
  | ok (a : α)
  | outOfBounds
  | outOfFuel
  deriving DecidableEq, Repr

/-- Sequencing of outcomes. -/
def Outcome.bind {α β : Type} (x : Outcome α) (f : α → Outcome β) : Outcome β :=
  match x with
  | .ok a => f a
  | .outOfBounds => .outOfBounds
  | .outOfFuel => .outOfFuel

/-- Element `i` of a vector indexed by a signed 64-bit integer, as `vec[i]`. -/
def vecAt {α : Type} (vec : List α) (i : Int) : Outcome α :=
  if i < 0 then .outOfBounds
  else
    match vec[i.toNat]? with
    | some a => .ok a
    | none => .outOfBounds

/-! ## Machine integers -/

/-- Modulus of `uint64_t`. -/
def U64 : Nat := 2 ^ 64

/-- Reduction of an integer to the `int32_t` range (two's complement). -/
def wrap32 (x : Int) : Int := (x + 2 ^ 31) % 2 ^ 32 - 2 ^ 31

/-- Reduction of an integer to the `int64_t` range (two's complement). -/
def wrap64 (x : Int) : Int := (x + 2 ^ 63) % 2 ^ 64 - 2 ^ 63

/-- The library call `abs` on an `int32_t`, result taken modulo `2^32`. -/
def abs32 (x : Int) : Int := wrap32 (if x < 0 then -x else x)

/-! ## Index structures (`parquet::format`) -/

/-- Thrift struct `PageLocation`. -/
structure PageLocation where
  offset : Int
  compressed_page_size : Int
  first_row_index : Int
  deriving DecidableEq, Repr

/-- Thrift struct `OffsetIndex`. -/
structure OffsetIndex where
  page_locations : List PageLocation
  page_bloom_filter_offsets : List Int
  deriving DecidableEq, Repr

/-- Thrift struct `ColumnIndex`.  The writer stores byte strings
(`ColumnIndex (List Nat)`); the INT32 reader works on `ColumnIndex Int`, the
integers it obtains from those strings through its pointer casts. -/
structure ColumnIndex (β : Type) where
  null_pages : List Bool
  min_values : List β
  max_values : List β
  null_counts : List Int
  deriving DecidableEq, Repr

/-! ## `SerializedRowGroup::isSorted` (INT32) -/

/-- The `for` loop of `isSorted`: `itemindex` runs to `page_locations.size()`
and is advanced only while the previous minimum is at most the current one. -/
def isSortedLoop (min_values : List Int) (size : Nat) :
    Nat → Nat → Int → Outcome Bool
  | 0, itemindex, _ => if itemindex < size then .outOfFuel else .ok true
  | fuel + 1, itemindex, page_min_prev =>
    if itemindex < size then
      match min_values[itemindex]? with
      | none => .outOfBounds
      | some page_min_curr =>
        if page_min_prev ≤ page_min_curr then
          isSortedLoop min_values size fuel (itemindex + 1) page_min_curr
        else .ok false
    else .ok true

/-- Case `Type::INT32` of `isSorted`. -/
def isSorted (col_index : ColumnIndex Int) (offset_index : OffsetIndex) : Outcome Bool :=
  match col_index.min_values[0]? with
  | none => .outOfBounds
  | some page_min_prev =>
    isSortedLoop col_index.min_values offset_index.page_locations.length
      offset_index.page_locations.length 1 page_min_prev

/-! ## `SerializedRowGroup::GetPageIndex`, sorted overload (INT32) -/

/-- Local variables of the binary search, with the running counter
`count_pages_scanned`. -/
structure SearchState where
  begin_index : Nat
  last_index : Nat
  itemindex : Nat
  count_pages_scanned : Int
  deriving DecidableEq, Repr

/-- One execution of the body of `while(begin_index <= last_index)`. -/
def binarySearchStep (min_values : List Int) (v : Int) (s : SearchState) :
    Outcome SearchState :=
  let itemindex := (s.begin_index + s.last_index) % U64 / 2
  match min_values[itemindex]? with
  | none => .outOfBounds
  | some page_min_curr =>
    if v < page_min_curr then
      .ok { s with
        itemindex := itemindex
        last_index := (s.last_index + U64 - 1) % U64
        count_pages_scanned := s.count_pages_scanned + 1 }
    else if itemindex < s.last_index then
      match min_values[itemindex + 1]? with
      | none => .outOfBounds
      | some page_min_next =>
        let s1 : SearchState :=
          if v > page_min_next then
            { s with
              itemindex := itemindex
              begin_index := (s.begin_index + 1) % U64
              count_pages_scanned := s.count_pages_scanned + 1 }
          else { s with itemindex := itemindex }
        let s2 : SearchState :=
          if v < page_min_next ∧ v > page_min_curr then
            { s1 with
              begin_index := (s1.last_index + 1) % U64
              count_pages_scanned := s1.count_pages_scanned + 1 }
          else s1
        .ok s2
    else
      .ok { s with
        itemindex := itemindex
        begin_index := (s.last_index + 1) % U64
        count_pages_scanned := s.count_pages_scanned + 1 }

/-- The loop `while(begin_index <= last_index)` of the binary search. -/
def binarySearchLoop (min_values : List Int) (v : Int) :
    Nat → SearchState → Outcome SearchState
  | fuel, s =>
    if s.begin_index ≤ s.last_index then
      match fuel with
      | 0 => .outOfFuel
      | fuel + 1 =>
        match binarySearchStep min_values v s with
        | .ok s1 => binarySearchLoop min_values v fuel s1
        | .outOfBounds => .outOfBounds
        | .outOfFuel => .outOfFuel
    else .ok s

/-- The `for` loop of the linear scan: the last page whose range holds `v`
becomes `min_index`, and `count_pages_scanned` is overwritten by every index
visited. -/
def linearScanLoop (col_index : ColumnIndex Int) (v : Int) (size : Nat) :
    Nat → Nat → Int → Int → Outcome (Int × Int)
  | 0, itemindex, min_index, count_pages_scanned =>
    if itemindex < size then .outOfFuel else .ok (min_index, count_pages_scanned)
  | fuel + 1, itemindex, min_index, count_pages_scanned =>
    if itemindex < size then
      match col_index.min_values[itemindex]?, col_index.max_values[itemindex]? with
      | some page_min, some page_max =>
        let min_index1 : Int :=
          if page_min ≤ v ∧ v ≤ page_max then (itemindex : Int) else min_index
        linearScanLoop col_index v size fuel (itemindex + 1) min_index1 (itemindex : Int)
      | _, _ => .outOfBounds
    else .ok (min_index, count_pages_scanned)

/-- Values of the reference parameters of `GetPageIndex` on return. -/
structure PageIndexResult where
  min_index : Int
  row_index : Int
  count_pages_scanned : Int
  deriving DecidableEq, Repr

/-- The scalar overload of `page_bloom_filter_has_value` for INT32:
`loadPageFilter off x` is the answer `FindHash(Hash(x))` of the filter
deserialized from file offset `off`. -/
def page_bloom_filter_has_value (loadPageFilter : Int → Int → Bool) (v : Int)
    (offset_index : OffsetIndex) (min_index : Int) : Outcome Int :=
  (vecAt offset_index.page_bloom_filter_offsets min_index).bind fun blf_offset =>
  (vecAt offset_index.page_locations min_index).bind fun loc =>
  .ok (if !loadPageFilter blf_offset v then -1 else loc.first_row_index)

/-- The statements of case `Type::INT32` of the sorted overload that follow the
chunk-filter test: the binary search when `sorted && with_binarysearch`, the
linear scan otherwise.  Returns `min_index` and `count_pages_scanned`. -/
def selectPage (fuel : Nat) (v : Int) (min_index : Int) (col_index : ColumnIndex Int)
    (offset_index : OffsetIndex) (sorted with_binarysearch : Bool)
    (count_pages_scanned : Int) : Outcome (Int × Int) :=
  if sorted && with_binarysearch then
    if col_index.min_values.length ≥ 2 then
      let last_index := col_index.min_values.length - 1
      (binarySearchLoop col_index.min_values v fuel
        { begin_index := 0, last_index := last_index,
          itemindex := (0 + last_index) / 2,
          count_pages_scanned := count_pages_scanned }).bind fun s =>
      .ok ((s.itemindex : Int), s.count_pages_scanned)
    else .ok (0, count_pages_scanned)
  else
    (linearScanLoop col_index v offset_index.page_locations.length
      offset_index.page_locations.length 0 min_index count_pages_scanned).bind
    fun (r : Int × Int) =>
      let size : Int := wrap32 offset_index.page_locations.length
      .ok (if r.2 = size - 1 ∧ r.1 = -1 then r.2 else r.1, r.2)

/-- Case `Type::INT32` of the sorted overload of `GetPageIndex`, followed by
the row resolution at the end of the function.  `blf x` is the answer
`blf.FindHash(blf.Hash(x))` of the chunk filter; `fuel` bounds the iterations
of the binary search.  The reference parameter `row_index` is only written,
so it appears in the result alone. -/
def GetPageIndex (fuel : Nat) (blf : Int → Bool) (loadPageFilter : Int → Int → Bool)
    (v : Int) (min_index : Int) (col_index : ColumnIndex Int)
    (offset_index : OffsetIndex) (sorted with_binarysearch : Bool)
    (count_pages_scanned : Int) (with_bloom_filter with_page_bf : Bool) :
    Outcome PageIndexResult :=
  if with_bloom_filter && !blf v then
    .ok { min_index := min_index, row_index := -1,
          count_pages_scanned := count_pages_scanned }
  else
    (selectPage fuel v min_index col_index offset_index sorted with_binarysearch
      count_pages_scanned).bind fun (r : Int × Int) =>
      if with_page_bf then
        (page_bloom_filter_has_value loadPageFilter v offset_index r.1).bind fun row =>
        .ok { min_index := r.1, row_index := row, count_pages_scanned := r.2 }
      else
        (vecAt offset_index.page_locations r.1).bind fun loc =>
        .ok { min_index := r.1, row_index := loc.first_row_index,
              count_pages_scanned := r.2 }

/-! ## `SerializedRowGroup::GetPageIndex`, vector overload (INT32) -/

/-- The `for` loop of the unsorted scan: a page is kept when
`*page_min <= v && max_diff >= abs(v - *page_min)`, the subtractions being
`int32_t` subtractions. -/
def unsortedScanLoop (col_index : ColumnIndex Int) (v : Int) (size : Nat) :
    Nat → Nat → List Int → Int → Outcome (List Int × Int)
  | 0, itemindex, unsorted_min_index, count_pages_scanned =>
    if itemindex < size then .outOfFuel
    else .ok (unsorted_min_index, count_pages_scanned)
  | fuel + 1, itemindex, unsorted_min_index, count_pages_scanned =>
    if itemindex < size then
      match col_index.min_values[itemindex]?, col_index.max_values[itemindex]? with
      | some page_min, some page_max =>
        let max_diff := wrap32 (page_max - page_min)
        if page_min ≤ v ∧ max_diff ≥ abs32 (wrap32 (v - page_min)) then
          unsortedScanLoop col_index v size fuel (itemindex + 1)
            (unsorted_min_index ++ [(itemindex : Int)]) (itemindex : Int)
        else
          unsortedScanLoop col_index v size fuel (itemindex + 1)
            unsorted_min_index count_pages_scanned
      | _, _ => .outOfBounds
    else .ok (unsorted_min_index, count_pages_scanned)

/-- The vector overload of `page_bloom_filter_has_value` for INT32: every
candidate pushes its first row, which is popped again when the page filter
rejects `v`. -/
def page_bloom_filter_has_value_vec (loadPageFilter : Int → Int → Bool) (v : Int)
    (offset_index : OffsetIndex) :
    List Int → List Int → Outcome (List Int)
  | [], unsorted_row_index => .ok unsorted_row_index
  | min_index :: rest, unsorted_row_index =>
    (vecAt offset_index.page_bloom_filter_offsets min_index).bind fun blf_offset =>
    (vecAt offset_index.page_locations min_index).bind fun loc =>
    let pushed := unsorted_row_index ++ [loc.first_row_index]
    page_bloom_filter_has_value_vec loadPageFilter v offset_index rest
      (if !loadPageFilter blf_offset v then pushed.dropLast else pushed)

/-- The row resolution of the vector overload without page filters. -/
def resolveRows (offset_index : OffsetIndex) :
    List Int → List Int → Outcome (List Int)
  | [], unsorted_row_index => .ok unsorted_row_index
  | min_index :: rest, unsorted_row_index =>
    (vecAt offset_index.page_locations min_index).bind fun loc =>
    resolveRows offset_index rest (unsorted_row_index ++ [loc.first_row_index])

/-- Values of the reference parameters of the vector overload on return. -/
structure UnsortedResult where
  unsorted_min_index : List Int
  unsorted_row_index : List Int
  count_pages_scanned : Int
  deriving DecidableEq, Repr

/-- Case `Type::INT32` of the vector overload of `GetPageIndex`, followed by
the row resolution at the end of the function. -/
def GetPageIndexUnsorted (blf : Int → Bool) (loadPageFilter : Int → Int → Bool)
    (v : Int) (unsorted_min_index unsorted_row_index : List Int)
    (col_index : ColumnIndex Int) (offset_index : OffsetIndex)
    (count_pages_scanned : Int) (with_bloom_filter with_page_bf : Bool) :
    Outcome UnsortedResult :=
  if with_bloom_filter && !blf v then
    .ok { unsorted_min_index := unsorted_min_index,
          unsorted_row_index := unsorted_row_index,
          count_pages_scanned := count_pages_scanned }
  else
    (unsortedScanLoop col_index v offset_index.page_locations.length
      offset_index.page_locations.length 0 unsorted_min_index
      count_pages_scanned).bind fun (r : List Int × Int) =>
    let rows : Outcome (List Int) :=
      if with_page_bf then
        page_bloom_filter_has_value_vec loadPageFilter v offset_index r.1
          unsorted_row_index
      else resolveRows offset_index r.1 unsorted_row_index
    rows.bind fun rs =>
    .ok { unsorted_min_index := r.1, unsorted_row_index := rs,
          count_pages_scanned := r.2 }

/-! ## The driver (`GetColumnPageReaderWithIndex`, `first_pass_for_predicate_only`) -/

/-- Values of the reference parameters of `GetColumnPageReaderWithIndex` on
return, for the predicate column of a chunk that has a page index. -/
structure IndexLookup where
  min_index : Int
  row_index : Int
  count_pages_scanned : Int
  total_num_pages : Int
  last_first_row : Int
  unsorted_min_index : List Int
  unsorted_row_index : List Int
  deriving DecidableEq, Repr

/-- The branch `has_page_index` and `predicate_col == column_index` of
`GetColumnPageReaderWithIndex` for an INT32 column. -/
def GetColumnPageReaderWithIndex (fuel : Nat) (blf : Int → Bool)
    (loadPageFilter : Int → Int → Bool) (v : Int) (min_index row_index : Int)
    (col_index : ColumnIndex Int) (offset_index : OffsetIndex)
    (with_binarysearch : Bool) (count_pages_scanned : Int)
    (with_bloom_filter with_page_bf : Bool)
    (unsorted_min_index unsorted_row_index : List Int) : Outcome IndexLookup :=
  let size := offset_index.page_locations.length
  match offset_index.page_locations[(size + U64 - 1) % U64]? with
  | none => .outOfBounds
  | some last =>
    (isSorted col_index offset_index).bind fun sorted =>
    if sorted then
      (GetPageIndex fuel blf loadPageFilter v min_index col_index offset_index
        sorted with_binarysearch count_pages_scanned with_bloom_filter
        with_page_bf).bind fun r =>
      .ok { min_index := r.min_index, row_index := r.row_index,
            count_pages_scanned := r.count_pages_scanned,
            total_num_pages := size, last_first_row := last.first_row_index,
            unsorted_min_index := unsorted_min_index,
            unsorted_row_index := unsorted_row_index }
    else
      (GetPageIndexUnsorted blf loadPageFilter v unsorted_min_index
        unsorted_row_index col_index offset_index count_pages_scanned
        with_bloom_filter with_page_bf).bind fun r =>
      .ok { min_index := min_index, row_index := row_index,
            count_pages_scanned := r.count_pages_scanned,
            total_num_pages := size, last_first_row := last.first_row_index,
            unsorted_min_index := r.unsorted_min_index,
            unsorted_row_index := r.unsorted_row_index }

/-- What `first_pass_for_predicate_only` does with the lookup: it announces a
non-member query, scans from one row, or scans from each candidate row. -/
inductive Report where
  | nonMember
  | scanFrom (row_index : Int)
  | scanCandidates (unsorted_row_index : List Int)
  deriving DecidableEq, Repr

/-- The part of `first_pass_for_predicate_only` with `with_index` set, up to
the choice between the scan and the message `non-member query`: the locals
start as `row_index = 0`, `count_pages_scanned = 0`, `page_index = -1` and two
empty vectors.  The comparator `equal_to` reaches `printVal` only. -/
def first_pass_for_predicate_only (fuel : Nat) (blf : Int → Bool)
    (loadPageFilter : Int → Int → Bool) (col_index : ColumnIndex Int)
    (offset_index : OffsetIndex) (v : Int) (binary_search : Bool)
    (with_bloom_filter with_page_bf : Bool) : Outcome Report :=
  (GetColumnPageReaderWithIndex fuel blf loadPageFilter v (-1) 0 col_index
    offset_index binary_search 0 with_bloom_filter with_page_bf [] []).bind fun r =>
  if r.unsorted_row_index.length = 0 then
    if r.row_index ≠ -1 then .ok (.scanFrom r.row_index) else .ok .nonMember
  else .ok (.scanCandidates r.unsorted_row_index)

/-- The status codes of `arrow::Status` these functions return. -/
inductive StatusCode where
  | OK
  | CapacityError
  deriving DecidableEq, Repr

/-- Constant `PAGE_INDEX_MAX_STRING_LENGTH`. -/
def PAGE_INDEX_MAX_STRING_LENGTH : Nat := 64

/-- Order of `std::string::compare`: lexicographic on unsigned bytes, a proper
initial segment being smaller. -/
def bytesLt : List Nat → List Nat → Bool
  | [], [] => false
  | [], _ :: _ => true
  | _ :: _, [] => false
  | a :: as, b :: bs => decide (a < b) || (decide (a = b) && bytesLt as bs)

/-- Non-strict version of `bytesLt`. -/
def bytesLe (a b : List Nat) : Bool := !bytesLt b a

/-- Function `TruncateDown`: `min.substr(0, std::min(static_cast<int32_t>(
min.length()), max_length))`.  The length is cast to `int32_t` before the
minimum is taken and `max_length` is an `int32_t`; the minimum is converted to
`size_t` for `substr`, so a negative one asks for `2^64` minus its magnitude
bytes and `substr` returns the whole string. -/
def TruncateDown (min : List Nat) (max_length : Nat) : StatusCode × List Nat :=
  let count : Int := Min.min (wrap32 min.length) (wrap32 max_length)
  (.OK, min.take (count % (U64 : Int)).toNat)

/-- The loop `while (i > 0 && (*result)[i] == -1) { (*result)[i] += 1; --i; }`
of `TruncateUp`, started at index `i`; it returns the string and the index it
stops at. -/
def truncateUpCarry (result : List Nat) : Nat → Outcome (List Nat × Nat)
  | 0 => .ok (result, 0)
  | i + 1 =>
    match result[i + 1]? with
    | none => .outOfBounds
    | some c =>
      if c = 255 then truncateUpCarry (result.set (i + 1) ((c + 1) % 256)) i
      else .ok (result, i + 1)

/-- Function `TruncateUp`.  The guard `max.length() <= max_length` assigns
`*result = max` and does not return, so the statements after it run for every
input and the assignment is overwritten by `max.substr(0, max_length)`.  On
`CapacityError` the second component is the string left in `*result`. -/
def TruncateUp (max : List Nat) (max_length : Nat) : Outcome (StatusCode × List Nat) :=
  let result : List Nat := max.take max_length
  match max_length with
  | 0 => .outOfBounds
  | n + 1 =>
    (truncateUpCarry result n).bind fun (r : List Nat × Nat) =>
    match r.1[r.2]? with
    | none => .outOfBounds
    | some c =>
      let uch := (c + 1) % 256
      let result1 := r.1.set r.2 uch
      if r.2 = 0 ∧ uch = 0 then .ok (.CapacityError, result1)
      else .ok (.OK, result1.take (r.2 + 1))

/-- Class `EncodedStatistics` as far as the index uses it; `is_set` is the
answer of its method `is_set()`. -/
structure EncodedStatistics where
  is_set : Bool
  min : List Nat
  max : List Nat
  null_count : Int
  deriving DecidableEq, Repr

/-- Function `AddPageStatsToColumnIndex`, returning the status and the column
index after the call. -/
def AddPageStatsToColumnIndex (column_index_ : ColumnIndex (List Nat))
    (page_stats : EncodedStatistics) :
    Outcome (StatusCode × ColumnIndex (List Nat)) :=
  let push (null_page : Bool) (min_val max_val : List Nat) : ColumnIndex (List Nat) :=
    { null_pages := column_index_.null_pages ++ [null_page]
      min_values := column_index_.min_values ++ [min_val]
      max_values := column_index_.max_values ++ [max_val]
      null_counts := column_index_.null_counts ++ [page_stats.null_count] }
  if page_stats.is_set then
    let s_min := TruncateDown page_stats.min PAGE_INDEX_MAX_STRING_LENGTH
    (TruncateUp page_stats.max PAGE_INDEX_MAX_STRING_LENGTH).bind
    fun (s_max : StatusCode × List Nat) =>
      if s_min.1 ≠ .OK then .ok (s_min.1, column_index_)
      else if s_max.1 ≠ .OK then .ok (s_max.1, column_index_)
      else .ok (.OK, push false s_min.2 s_max.2)
  else .ok (.OK, push true [] [])

/-! ## `SerializedPageWriter` -/

/-- Enumeration `Encoding`, the members the writer sets. -/
inductive Encoding where
  | PLAIN
  | PLAIN_DICTIONARY
  | RLE
  deriving DecidableEq, Repr

/-- Class `CompressedDataPage`: `size` is `buffer()->size()`. -/
structure CompressedDataPage where
  size : Int
  num_values : Int
  encoding : Encoding
  uncompressed_size : Int
  statistics : EncodedStatistics
  deriving DecidableEq, Repr

/-- Members of `SerializedPageWriter`; `sink_pos` is the position
`sink_->Tell` reports. -/
structure SerializedPageWriter where
  sink_pos : Int
  num_values_ : Int
  dictionary_page_offset_ : Int
  data_page_offset_ : Int
  total_uncompressed_size_ : Int
  total_compressed_size_ : Int
  current_page_row_set_index : Int
  deriving DecidableEq, Repr

/-- State after the constructor of `SerializedPageWriter`, on a sink standing
at `sink_pos`. -/
def SerializedPageWriter.new (sink_pos : Int) : SerializedPageWriter :=
  { sink_pos := sink_pos, num_values_ := 0, dictionary_page_offset_ := 0,
    data_page_offset_ := 0, total_uncompressed_size_ := 0,
    total_compressed_size_ := 0, current_page_row_set_index := 0 }

/-- Function `WriteDataPagesWithIndex`: `header_size` is the number of bytes
the Thrift serializer emits for the page header.  Returns the writer, the
filled `PageLocation` and the returned byte count. -/
def WriteDataPagesWithIndex (w : SerializedPageWriter) (page : CompressedDataPage)
    (header_size : Int) : SerializedPageWriter × PageLocation × Int :=
  let header_compressed_page_size := wrap32 page.size
  let header_num_values := page.num_values
  let start_pos := w.sink_pos
  let data_page_offset := if w.data_page_offset_ = 0 then start_pos else w.data_page_offset_
  let current_pos := start_pos + header_size + page.size
  let ploc : PageLocation :=
    { offset := start_pos
      first_row_index := w.current_page_row_set_index
      compressed_page_size := wrap32 (header_compressed_page_size + (current_pos - start_pos)) }
  ({ w with
      sink_pos := current_pos
      data_page_offset_ := data_page_offset
      total_uncompressed_size_ := w.total_uncompressed_size_ + (page.uncompressed_size + header_size)
      total_compressed_size_ := w.total_compressed_size_ + (page.size + header_size)
      num_values_ := w.num_values_ + page.num_values
      current_page_row_set_index := wrap64 (w.current_page_row_set_index + header_num_values) },
   ploc, current_pos - start_pos)

/-- A run of `WriteDataPagesWithIndex`, one call per page, collecting the
page locations in call order. -/
def writePagesWithIndex (headerSize : CompressedDataPage → Int) :
    SerializedPageWriter → List CompressedDataPage → SerializedPageWriter × List PageLocation
  | w, [] => (w, [])
  | w, page :: rest =>
    let r := WriteDataPagesWithIndex w page (headerSize page)
    let rs := writePagesWithIndex headerSize r.1 rest
    (rs.1, r.2.1 :: rs.2)

/-- Function `WriteDictionaryPage` of `SerializedPageWriter`, for a dictionary
page of `size` compressed and `uncompressed_size` plain bytes whose header
takes `header_size` bytes.  Returns the writer and the returned byte count. -/
def SerializedPageWriter.WriteDictionaryPage (w : SerializedPageWriter)
    (size uncompressed_size header_size : Int) : SerializedPageWriter × Int :=
  let start_pos := w.sink_pos
  let final_pos := start_pos + header_size + size
  ({ w with
      sink_pos := final_pos
      dictionary_page_offset_ :=
        if w.dictionary_page_offset_ = 0 then start_pos else w.dictionary_page_offset_
      total_uncompressed_size_ := w.total_uncompressed_size_ + (uncompressed_size + header_size)
      total_compressed_size_ := w.total_compressed_size_ + (size + header_size) },
   final_pos - start_pos)

/-! ## `ColumnWriterImpl` with index -/

/-- What the value encoder, the level encoders, the statistics collector and
the codec deliver when a page is cut: the size of the compressed buffer, the
size before compression, and the page statistics after `ApplyStatSizeLimits`. -/
structure PageBuild where
  compressed_size : Int
  uncompressed_size : Int
  page_stats : EncodedStatistics
  deriving DecidableEq, Repr

/-- The collaborators of the column writer that lie outside `column_writer.cc`:
the content of the `k`-th page cut from the buffers, the header size the Thrift
serializer produces for a page, and the three sizes of the dictionary page. -/
structure WriterEnv where
  build : Nat → PageBuild
  headerSize : CompressedDataPage → Int
  dict_size : Int
  dict_uncompressed_size : Int
  dict_header_size : Int

/-- Members of `ColumnWriterImpl` that take part in building the index.
`pages_cut` is a ghost counter of the data pages cut so far. -/
structure ColumnWriterImpl where
  pager_ : SerializedPageWriter
  has_dictionary_ : Bool
  encoding_ : Encoding
  num_buffered_values_ : Int
  num_buffered_encoded_values_ : Int
  rows_written_ : Int
  total_bytes_written_ : Int
  closed_ : Bool
  fallback_ : Bool
  data_pages_ : List CompressedDataPage
  offset_index_ : OffsetIndex
  column_index_ : ColumnIndex (List Nat)
  pages_cut : Nat
  deriving DecidableEq, Repr

/-- State after the constructor of `ColumnWriterImpl` over a fresh pager. -/
def ColumnWriterImpl.new (sink_pos : Int) (use_dictionary : Bool) (encoding : Encoding) :
    ColumnWriterImpl :=
  { pager_ := SerializedPageWriter.new sink_pos
    has_dictionary_ := use_dictionary
    encoding_ := encoding
    num_buffered_values_ := 0
    num_buffered_encoded_values_ := 0
    rows_written_ := 0
    total_bytes_written_ := 0
    closed_ := false
    fallback_ := false
    data_pages_ := []
    offset_index_ := { page_locations := [], page_bloom_filter_offsets := [] }
    column_index_ := { null_pages := [], min_values := [], max_values := [], null_counts := [] }
    pages_cut := 0 }

/-- Function `WriteDataPageWithIndex` followed by `AddLocationToOffsetIndex`,
the pair of calls made for every page that reaches the pager. -/
def ColumnWriterImpl.writeAndLocate (env : WriterEnv) (w : ColumnWriterImpl)
    (page : CompressedDataPage) : ColumnWriterImpl :=
  let r := WriteDataPagesWithIndex w.pager_ page (env.headerSize page)
  { w with
    pager_ := r.1
    total_bytes_written_ := w.total_bytes_written_ + r.2.2
    offset_index_ :=
      { w.offset_index_ with
        page_locations := w.offset_index_.page_locations ++ [r.2.1] } }

/-- Function `AddDataPageWithIndex`.  The status returned by
`AddPageStatsToColumnIndex` is dropped, as in the source. -/
def ColumnWriterImpl.AddDataPageWithIndex (env : WriterEnv) (w : ColumnWriterImpl) :
    Outcome ColumnWriterImpl :=
  let b := env.build w.pages_cut
  (AddPageStatsToColumnIndex w.column_index_ b.page_stats).bind
  fun (st : StatusCode × ColumnIndex (List Nat)) =>
    let w1 := { w with column_index_ := st.2, pages_cut := w.pages_cut + 1 }
    let page : CompressedDataPage :=
      { size := b.compressed_size
        num_values := wrap32 w.num_buffered_values_
        encoding := w.encoding_
        uncompressed_size := b.uncompressed_size
        statistics := b.page_stats }
    let w2 :=
      if w1.has_dictionary_ && !w1.fallback_ then
        { w1 with data_pages_ := w1.data_pages_ ++ [page] }
      else w1.writeAndLocate env page
    .ok { w2 with num_buffered_values_ := 0, num_buffered_encoded_values_ := 0 }

/-- Function `FlushBufferedDataPagesWithIndex`. -/
def ColumnWriterImpl.FlushBufferedDataPagesWithIndex (env : WriterEnv)
    (w : ColumnWriterImpl) : Outcome ColumnWriterImpl :=
  let cut : Outcome ColumnWriterImpl :=
    if w.num_buffered_values_ > 0 then w.AddDataPageWithIndex env else .ok w
  cut.bind fun w1 =>
    let w2 := w1.data_pages_.foldl (fun acc page => acc.writeAndLocate env page) w1
    .ok { w2 with data_pages_ := [] }

/-- Function `WriteDictionaryPage` of the column writer. -/
def ColumnWriterImpl.WriteDictionaryPage (env : WriterEnv) (w : ColumnWriterImpl) :
    ColumnWriterImpl :=
  let r := w.pager_.WriteDictionaryPage env.dict_size env.dict_uncompressed_size
    env.dict_header_size
  { w with pager_ := r.1, total_bytes_written_ := w.total_bytes_written_ + r.2 }

/-- Function `CheckDictionarySizeLimit` with `with_index` set; `dict_full` is
the test `dict_encoded_size() >= dictionary_pagesize_limit()`. -/
def ColumnWriterImpl.CheckDictionarySizeLimit (env : WriterEnv) (w : ColumnWriterImpl)
    (dict_full : Bool) : Outcome ColumnWriterImpl :=
  if dict_full then
    ((w.WriteDictionaryPage env).FlushBufferedDataPagesWithIndex env).bind fun w1 =>
    .ok { w1 with fallback_ := true, encoding_ := .PLAIN }
  else .ok w

/-- One call of `WriteMiniBatch` as the index sees it: the number of levels,
the number of values among them, the number of rows they start, and the two
size tests made after the values are buffered. -/
structure MiniBatch where
  num_values : Int
  values_to_write : Int
  rows : Int
  page_full : Bool
  dict_full : Bool
  deriving DecidableEq, Repr

/-- Function `WriteMiniBatch` with `with_index` set, after the levels and
values have gone to their encoders. -/
def ColumnWriterImpl.WriteMiniBatch (env : WriterEnv) (w : ColumnWriterImpl)
    (b : MiniBatch) : Outcome ColumnWriterImpl :=
  let w1 := { w with
    rows_written_ := w.rows_written_ + b.rows
    num_buffered_values_ := w.num_buffered_values_ + b.num_values
    num_buffered_encoded_values_ := w.num_buffered_encoded_values_ + b.values_to_write }
  let cut : Outcome ColumnWriterImpl :=
    if b.page_full then w1.AddDataPageWithIndex env else .ok w1
  cut.bind fun w2 =>
    if w2.has_dictionary_ && !w2.fallback_ then w2.CheckDictionarySizeLimit env b.dict_full
    else .ok w2

/-- Function `CloseWithIndex`, up to the call of `pager_->Close`. -/
def ColumnWriterImpl.CloseWithIndex (env : WriterEnv) (w : ColumnWriterImpl) :
    Outcome ColumnWriterImpl :=
  if !w.closed_ then
    let w1 := { w with closed_ := true }
    let w2 := if w1.has_dictionary_ && !w1.fallback_ then w1.WriteDictionaryPage env else w1
    w2.FlushBufferedDataPagesWithIndex env
  else .ok w

/-- A writer session: the mini-batches of all `WriteBatch` calls in order,
then `CloseWithIndex`. -/
def ColumnWriterImpl.session (env : WriterEnv) :
    ColumnWriterImpl → List MiniBatch → Outcome ColumnWriterImpl
  | w, [] => w.CloseWithIndex env
  | w, b :: rest => (w.WriteMiniBatch env b).bind fun w1 => w1.session env rest

/-- Offset index of `exValuesA`. -/
def exOffA : OffsetIndex :=
  { page_locations := [{ offset := 4, compressed_page_size := 40, first_row_index := 0 }]
    page_bloom_filter_offsets := [100] }

/-- Column index of `exValuesB`. -/
def exColB : ColumnIndex Int :=
  { null_pages := [false, false], min_values := [1, 5], max_values := [10, 12],
    null_counts := [0, 0] }

/-- Offset index of `exValuesB`. -/
def exOffB : OffsetIndex :=
  { page_locations :=
      [{ offset := 4, compressed_page_size := 40, first_row_index := 0 },
       { offset := 44, compressed_page_size := 40, first_row_index := 2 }]
    page_bloom_filter_offsets := [100, 200] }

/-- Column index of `exPagesC`: ascending, disjoint page ranges `[1,3]`,
`[5,7]`, `[10,12]`. -/
def exColC : ColumnIndex Int :=
  { null_pages := [false, false, false], min_values := [1, 5, 10],
    max_values := [3, 7, 12], null_counts := [0, 0, 0] }

/-- Offset index of `exColC`, three rows to a page. -/
def exOffC : OffsetIndex :=
  { page_locations :=
      [{ offset := 4, compressed_page_size := 40, first_row_index := 0 },
       { offset := 44, compressed_page_size := 40, first_row_index := 3 },
       { offset := 84, compressed_page_size := 40, first_row_index := 6 }]
    page_bloom_filter_offsets := [100, 200, 300] }

/-- Three data pages of 5, 7 and 1 values. -/
def exPages : List CompressedDataPage :=
  [{ size := 100, num_values := 5, encoding := .PLAIN, uncompressed_size := 100,
     statistics := { is_set := false, min := [], max := [], null_count := 0 } },
   { size := 100, num_values := 7, encoding := .PLAIN, uncompressed_size := 100,
     statistics := { is_set := false, min := [], max := [], null_count := 0 } },
   { size := 100, num_values := 1, encoding := .PLAIN, uncompressed_size := 100,
     statistics := { is_set := false, min := [], max := [], null_count := 0 } }]

/-- A string of 65 bytes `a`. -/
def exLong : List Nat := List.replicate 65 97

/-- Page statistics whose maximum is 64 bytes `0xFF`. -/
def exStatsFF : EncodedStatistics :=
  { is_set := true, min := List.replicate 64 255, max := List.replicate 64 255,
    null_count := 3 }

/-- A column index that already holds one page. -/
def exWriterCol : ColumnIndex (List Nat) :=
  { null_pages := [false], min_values := [[1]], max_values := [[2]], null_counts := [0] }

/-- Collaborators that cut every page with the statistics `exStatsFF`. -/
def exEnvFF : WriterEnv :=
  { build := fun _ => { compressed_size := 70, uncompressed_size := 70, page_stats := exStatsFF }
    headerSize := fun _ => 20
    dict_size := 0
    dict_uncompressed_size := 0
    dict_header_size := 0 }

/-- A two-page column index with descending minima; page 1 spans
`[-1, 2147483647]`. -/
def exColD : ColumnIndex Int :=
  { null_pages := [false, false], min_values := [5, -1], max_values := [9, 2147483647],
    null_counts := [0, 0] }

/-! ## `SerializedFile::ParseMetaData` -/

/-- Constant `kFooterSize`, a `uint32_t`. -/
def kFooterSize : Nat := 8

/-- Constant `kDefaultFooterReadSize`, an `int64_t`. -/
def kDefaultFooterReadSize : Int := 64 * 1024

/-- Constant `kParquetMagic`, the bytes of `PAR1`. -/
def kParquetMagic : List Nat := [80, 65, 82, 49]

/-- Modulus of `uint32_t`. -/
def U32 : Nat := 2 ^ 32

/-- The exceptions `ParseMetaData` throws, one per message. -/
inductive ParquetException where
  | sizeZero
  | smallerThanFooter
  | corruptFooter
  | lessThanMetadataSize
  | couldNotReadMetadata
  | readFailed
  deriving DecidableEq, Repr

/-- How `ParseMetaData` ends: it hands a buffer to `FileMetaData::Make`, throws,
or builds a buffer outside the bytes it has read. -/
inductive ParseOutcome where
  | metadata (metadata_buffer : List Nat)
  | exception (e : ParquetException)
  | outOfBounds
  deriving DecidableEq, Repr

/-- Method `ReadAt` of the input file: up to `nbytes` bytes from `position`,
fewer at the end of the file, none (a failed status) for a position outside the
file. -/
def ReadAt (file : List Nat) (position nbytes : Int) : Option (List Nat) :=
  if position < 0 ∨ (file.length : Int) < position then none
  else some ((file.drop position.toNat).take nbytes.toNat)

/-- Function `SafeLoadAs<uint32_t>` on a little-endian host: the four bytes at
`offset` of the buffer. -/
def loadU32 (buffer : List Nat) (offset : Nat) : Nat :=
  buffer.getD offset 0 + 256 * buffer.getD (offset + 1) 0 +
    65536 * buffer.getD (offset + 2) 0 + 16777216 * buffer.getD (offset + 3) 0

/-- Function `SliceBuffer`: the view of `length` bytes at `offset`, which lies
outside the parent buffer when the range does. -/
def SliceBuffer (buffer : List Nat) (offset length : Int) : ParseOutcome :=
  if 0 ≤ offset ∧ 0 ≤ length ∧ offset + length ≤ buffer.length then
    .metadata ((buffer.drop offset.toNat).take length.toNat)
  else .outOfBounds

/-- Function `ParseMetaData` up to the call of `FileMetaData::Make`; the sums
`kFooterSize + metadata_len` are `uint32_t` sums. -/
def ParseMetaData (file : List Nat) : ParseOutcome :=
  let file_size : Int := file.length
  if file_size = 0 then .exception .sizeZero
  else if file_size < (kFooterSize : Int) then .exception .smallerThanFooter
  else
    let footer_read_size : Int := min file_size kDefaultFooterReadSize
    match ReadAt file (file_size - footer_read_size) footer_read_size with
    | none => .exception .readFailed
    | some footer_buffer =>
      if (footer_buffer.length : Int) ≠ footer_read_size ∨
          (footer_buffer.drop (footer_read_size - 4).toNat).take 4 ≠ kParquetMagic then
        .exception .corruptFooter
      else
        let metadata_len : Nat := loadU32 footer_buffer (footer_read_size - kFooterSize).toNat
        let metadata_start : Int := file_size - kFooterSize - metadata_len
        if (((kFooterSize + metadata_len) % U32 : Nat) : Int) > file_size then
          .exception .lessThanMetadataSize
        else if footer_read_size ≥ (((metadata_len + kFooterSize) % U32 : Nat) : Int) then
          SliceBuffer footer_buffer (footer_read_size - metadata_len - kFooterSize) metadata_len
        else
          match ReadAt file metadata_start metadata_len with
          | none => .exception .readFailed
          | some metadata_buffer =>
            if metadata_buffer.length ≠ metadata_len then .exception .couldNotReadMetadata
            else .metadata metadata_buffer

/-! ## `TypedColumnWriterImpl::WriteBatch` -/

/-- Arguments of one call of `WriteMiniBatch` made by `WriteBatch`: the number
of levels, the offset of `def_levels` and `rep_levels`, and the offset of
`values`. -/
structure MiniBatchCall where
  num_values : Int
  level_offset : Int
  value_offset : Int
  deriving DecidableEq, Repr

/-- The `for` loop of `WriteBatch` from `round` on, with `fuel` rounds to go;
`written offset n` is the value `WriteMiniBatch` returns for the `n` levels at
`offset`.  Returns the calls made and the final `value_offset`. -/
def writeBatchLoop (write_batch_size : Int) (written : Int → Int → Int) :
    Nat → Int → Int → List MiniBatchCall × Int
  | 0, _, value_offset => ([], value_offset)
  | fuel + 1, round, value_offset =>
    let offset := round * write_batch_size
    let num_values := written offset write_batch_size
    let r := writeBatchLoop write_batch_size written fuel (round + 1)
      (value_offset + num_values)
    ({ num_values := write_batch_size, level_offset := offset,
       value_offset := value_offset } :: r.1, r.2)

/-- Function `WriteBatch`, as the list of `WriteMiniBatch` calls it makes;
`num_batches` is an `int`, the quotient being cast with `static_cast<int>`. -/
def WriteBatch (write_batch_size num_values : Int) (written : Int → Int → Int) :
    List MiniBatchCall :=
  let num_batches := wrap32 (Int.tdiv num_values write_batch_size)
  let num_remaining := Int.tmod num_values write_batch_size
  let r := writeBatchLoop write_batch_size written num_batches.toNat 0 0
  let offset := num_batches * write_batch_size
  r.1 ++ [{ num_values := num_remaining, level_offset := offset, value_offset := r.2 }]

/-! ## `ColumnWriterImpl` without index, and the dictionary fallback -/

/-- Function `WriteDataPage` of `SerializedPageWriter`.  Returns the writer and
the returned byte count. -/
def SerializedPageWriter.WriteDataPage (w : SerializedPageWriter)
    (page : CompressedDataPage) (header_size : Int) : SerializedPageWriter × Int :=
  let start_pos := w.sink_pos
  let data_page_offset := if w.data_page_offset_ = 0 then start_pos else w.data_page_offset_
  let current_pos := start_pos + header_size + page.size
  ({ w with
      sink_pos := current_pos
      data_page_offset_ := data_page_offset
      total_uncompressed_size_ := w.total_uncompressed_size_ + (page.uncompressed_size + header_size)
      total_compressed_size_ := w.total_compressed_size_ + (page.size + header_size)
      num_values_ := w.num_values_ + page.num_values },
   current_pos - start_pos)

/-- A run of `WriteDataPage` of the pager, one call per page. -/
def writePages (headerSize : CompressedDataPage → Int) :
    SerializedPageWriter → List CompressedDataPage → SerializedPageWriter
  | w, [] => w
  | w, page :: rest => writePages headerSize (w.WriteDataPage page (headerSize page)).1 rest

/-- The pager after the pages of a list have been handed to it in order,
through `WriteDataPagesWithIndex` or through `WriteDataPage`. -/
def pagerAfter (with_index : Bool) (headerSize : CompressedDataPage → Int)
    (w : SerializedPageWriter) (pages : List CompressedDataPage) : SerializedPageWriter :=
  if with_index then (writePagesWithIndex headerSize w pages).1
  else writePages headerSize w pages

/-- Function `WriteDataPage` of the column writer. -/
def ColumnWriterImpl.WriteDataPage (env : WriterEnv) (w : ColumnWriterImpl)
    (page : CompressedDataPage) : ColumnWriterImpl :=
  let r := w.pager_.WriteDataPage page (env.headerSize page)
  { w with pager_ := r.1, total_bytes_written_ := w.total_bytes_written_ + r.2 }

/-- Function `AddDataPage`. -/
def ColumnWriterImpl.AddDataPage (env : WriterEnv) (w : ColumnWriterImpl) :
    ColumnWriterImpl :=
  let b := env.build w.pages_cut
  let w1 := { w with pages_cut := w.pages_cut + 1 }
  let page : CompressedDataPage :=
    { size := b.compressed_size
      num_values := wrap32 w.num_buffered_values_
      encoding := w.encoding_
      uncompressed_size := b.uncompressed_size
      statistics := b.page_stats }
  let w2 :=
    if w1.has_dictionary_ && !w1.fallback_ then
      { w1 with data_pages_ := w1.data_pages_ ++ [page] }
    else w1.WriteDataPage env page
  { w2 with num_buffered_values_ := 0, num_buffered_encoded_values_ := 0 }

/-- Function `FlushBufferedDataPages`. -/
def ColumnWriterImpl.FlushBufferedDataPages (env : WriterEnv) (w : ColumnWriterImpl) :
    ColumnWriterImpl :=
  let w1 := if w.num_buffered_values_ > 0 then w.AddDataPage env else w
  let w2 := w1.data_pages_.foldl (fun acc page => acc.WriteDataPage env page) w1
  { w2 with data_pages_ := [] }

/-- Function `CheckDictionarySizeLimit` with its flag `with_index` as a
parameter; `dict_full` is the test
`dict_encoded_size() >= dictionary_pagesize_limit()`. -/
def ColumnWriterImpl.CheckDictionarySizeLimitOf (env : WriterEnv) (w : ColumnWriterImpl)
    (with_index dict_full : Bool) : Outcome ColumnWriterImpl :=
  if dict_full then
    let w0 := w.WriteDictionaryPage env
    let flushed : Outcome ColumnWriterImpl :=
      if !with_index then .ok (w0.FlushBufferedDataPages env)
      else w0.FlushBufferedDataPagesWithIndex env
    flushed.bind fun w1 => .ok { w1 with fallback_ := true, encoding_ := .PLAIN }
  else .ok w

/-- Function `WriteMiniBatch` with its flag `with_index` as a parameter, after
the levels and values have gone to their encoders. -/
def ColumnWriterImpl.WriteMiniBatchOf (env : WriterEnv) (w : ColumnWriterImpl)
    (with_index : Bool) (b : MiniBatch) : Outcome ColumnWriterImpl :=
  let w1 := { w with
    rows_written_ := w.rows_written_ + b.rows
    num_buffered_values_ := w.num_buffered_values_ + b.num_values
    num_buffered_encoded_values_ := w.num_buffered_encoded_values_ + b.values_to_write }
  let cut : Outcome ColumnWriterImpl :=
    if b.page_full then
      if !with_index then .ok (w1.AddDataPage env) else w1.AddDataPageWithIndex env
    else .ok w1
  cut.bind fun w2 =>
    if w2.has_dictionary_ && !w2.fallback_ then
      w2.CheckDictionarySizeLimitOf env with_index b.dict_full
    else .ok w2

/-- A run of `WriteMiniBatch` calls on one column writer. -/
def ColumnWriterImpl.writeMiniBatches (env : WriterEnv) (with_index : Bool) :
    ColumnWriterImpl → List MiniBatch → Outcome ColumnWriterImpl
  | w, [] => .ok w
  | w, b :: rest =>
    (w.WriteMiniBatchOf env with_index b).bind fun w1 =>
    w1.writeMiniBatches env with_index rest

/-- The data page `AddDataPage` and `AddDataPageWithIndex` build from the
buffers of `w`. -/
def ColumnWriterImpl.builtPage (env : WriterEnv) (w : ColumnWriterImpl) :
    CompressedDataPage :=
  { size := (env.build w.pages_cut).compressed_size
    num_values := wrap32 w.num_buffered_values_
    encoding := w.encoding_
    uncompressed_size := (env.build w.pages_cut).uncompressed_size
    statistics := (env.build w.pages_cut).page_stats }

/-! ## `SerializedRowGroup::isSorted` over the stored bytes (INT32, INT64) -/

/-- The members of `Type::type` whose case of `isSorted` compares the minima
as signed integers. -/
inductive PhysicalType where
  | INT32
  | INT64
  deriving DecidableEq, Repr

/-- Size in bytes of the C++ type a minimum is read as: `int32_t` or
`int64_t`. -/
def PhysicalType.width : PhysicalType → Nat
  | .INT32 => 4
  | .INT64 => 8

/-- The unsigned number a little-endian machine assembles from the bytes of a
word, lowest address first. -/
def loadLE : List Nat → Nat
  | [] => 0
  | b :: rest => b + 256 * loadLE rest

/-- The read `*(int32_t*)s.c_str()`, or `*(int64_t*)s.c_str()`, on a
little-endian machine.  The array behind `c_str()` is the bytes of the string
and a terminating zero; a read past it is out of bounds. -/
def derefInt (type_num : PhysicalType) (s : List Nat) : Outcome Int :=
  let mem := s ++ [0]
  if mem.length < type_num.width then .outOfBounds
  else
    let word : Int := loadLE (mem.take type_num.width)
    match type_num with
    | .INT32 => .ok (wrap32 word)
    | .INT64 => .ok (wrap64 word)

/-- The `for` loop of `isSorted` over the stored bytes: both pointers are
read at every comparison. -/
def isSortedTypedLoop (type_num : PhysicalType) (min_values : List (List Nat)) (size : Nat) :
    Nat → Nat → List Nat → Outcome Bool
  | 0, itemindex, _ => if itemindex < size then .outOfFuel else .ok true
  | fuel + 1, itemindex, page_min_prev =>
    if itemindex < size then
      match min_values[itemindex]? with
      | none => .outOfBounds
      | some page_min_curr =>
        (derefInt type_num page_min_prev).bind fun prev =>
        (derefInt type_num page_min_curr).bind fun curr =>
        if prev ≤ curr then
          isSortedTypedLoop type_num min_values size fuel (itemindex + 1) page_min_curr
        else .ok false
    else .ok true

/-- Cases `Type::INT32` and `Type::INT64` of `isSorted`, over the strings the
column index stores. -/
def isSortedTyped (type_num : PhysicalType) (col_index : ColumnIndex (List Nat))
    (offset_index : OffsetIndex) : Outcome Bool :=
  match col_index.min_values[0]? with
  | none => .outOfBounds
  | some page_min_prev =>
    isSortedTypedLoop type_num col_index.min_values offset_index.page_locations.length
      offset_index.page_locations.length 1 page_min_prev

/-- The specification's decoding of a stored minimum: the first `width` bytes
as a little-endian two's complement integer. -/
def littleEndianSigned (width : Nat) (s : List Nat) : Int :=
  let u : Nat := ((List.range width).map fun k => s.getD k 0 * 256 ^ k).sum
  if u < 2 ^ (8 * width - 1) then (u : Int) else (u : Int) - 2 ^ (8 * width)

/-! ## The scan of `first_pass_for_predicate_only` (INT32) -/

/-- Function `printVal`, case `Type::INT32`, as a function of the value
`callReadBatch` stored in `val` (`none` when it stored nothing).  It returns
true only in the branch of `equal_to == 0`; the branches of `val < predicate`
and `val > predicate` are empty and fall through to `return false`.  The
local `val` is read whenever `checkpredicate` holds and `equal_to` is `0`,
`-1` or `1`; reading it unset is out of bounds. -/
def printVal (equal_to : Int) (checkpredicate : Bool) (val : Option Int)
    (predicate : Int) : Outcome Bool :=
  if checkpredicate = true ∧ (equal_to = 0 ∨ equal_to = -1 ∨ equal_to = 1) then
    match val with
    | none => .outOfBounds
    | some x => .ok (decide (equal_to = 0 ∧ x = predicate))
  else .ok false

/-- What a scan leaves behind: the row positions it decoded, in order; the
line `with predicate row number: <row_counter> <val>` when `printVal` printed
it; the local `ind`; and the position of the reader. -/
structure ScanResult where
  examined : List Nat
  printed : Option (Int × Int)
  ind : Int
  pos : Nat
  deriving DecidableEq, Repr

/-- Modelled from the spec: the methods `Skip` and `HasNext` of the column
reader and `callReadBatch(1, ..)` are not among the sources; for a required
column the reader is a position in the rows of the chunk, `Skip(n)` moves it
`n` rows ahead (at most to the end), a read decodes the row at the position
and moves past it, and `HasNext` tells whether a row is left.  This is
`Skip`. -/
def readerSkip (rows : List Int) (pos : Nat) (n : Int) : Nat :=
  min (pos + n.toNat) rows.length

/-- The loop `do { ind++; if (printVal(..)) break; } while (HasNext())` over
the reader at `pos`; `ind` is an `int`. -/
def scanLoop (rows : List Int) (equal_to predicate : Int) :
    Nat → Nat → Int → List Nat → Outcome ScanResult
  | 0, _, _, _ => .outOfFuel
  | fuel + 1, pos, ind, examined =>
    let ind1 := wrap32 (ind + 1)
    let val := rows[pos]?
    let pos1 := if pos < rows.length then pos + 1 else pos
    let examined1 := if pos < rows.length then examined ++ [pos] else examined
    (printVal equal_to true val predicate).bind fun hit =>
    if hit then
      .ok { examined := examined1, printed := val.map fun x => (ind1, x), ind := ind1,
            pos := pos1 }
    else if pos1 < rows.length then
      scanLoop rows equal_to predicate fuel pos1 ind1 examined1
    else .ok { examined := examined1, printed := none, ind := ind1, pos := pos1 }

/-- The loop `for (int64_t row_index : unsorted_row_index)` of the scan over
the candidates: every `Skip` starts where the reader stands, and the first
match ends the loop. -/
def scanCandidatesLoop (rows : List Int) (equal_to predicate : Int) :
    List Int → Nat → Int → List Nat → Outcome ScanResult
  | [], pos, ind, examined =>
    .ok { examined := examined, printed := none, ind := ind, pos := pos }
  | row_index :: rest, pos, ind, examined =>
    (scanLoop rows equal_to predicate (rows.length + 1) (readerSkip rows pos row_index)
      ind examined).bind fun r =>
    if r.printed.isSome then .ok r
    else scanCandidatesLoop rows equal_to predicate rest r.pos r.ind r.examined

/-- How `first_pass_for_predicate_only` ends: with the message
`non-member query` and no row decoded, or with a scan. -/
inductive ScanReport where
  | nonMember
  | scanned (r : ScanResult)
  deriving DecidableEq, Repr

/-- Function `first_pass_for_predicate_only` with `with_index` set, over a
required INT32 column whose rows are `rows`: the lookup, then the scan.  The
reader opens at the start of the chunk.  With one page selected the scan sets
`ind = row_index`, skips `row_index` rows and reads to the first match or the
end; with candidates it scans from each in turn. -/
def first_pass_scan (fuel : Nat) (blf : Int → Bool)
    (loadPageFilter : Int → Int → Bool) (col_index : ColumnIndex Int)
    (offset_index : OffsetIndex) (rows : List Int) (v : Int) (equal_to : Int)
    (binary_search : Bool) (with_bloom_filter with_page_bf : Bool) : Outcome ScanReport :=
  (first_pass_for_predicate_only fuel blf loadPageFilter col_index offset_index v
    binary_search with_bloom_filter with_page_bf).bind fun report =>
  match report with
  | .nonMember => .ok .nonMember
  | .scanFrom row_index =>
    (scanLoop rows equal_to v (rows.length + 1) (readerSkip rows 0 row_index)
      (wrap32 row_index) []).bind fun r => .ok (.scanned r)
  | .scanCandidates unsorted_row_index =>
    (scanCandidatesLoop rows equal_to v unsorted_row_index 0 0 []).bind fun r =>
    .ok (.scanned r)

/-- The rows of a required INT32 column that holds the value `i` in row `i`,
for `i` in `[0, n)`. -/
def rowNumberColumn (n : Nat) : List Int := List.map Int.ofNat (List.range n)

/-- A file of 12 bytes: four bytes of payload, the length field
`FC FF FF FF` (4294967292) and the magic `PAR1`. -/
def exFileWrap : List Nat := [0, 0, 0, 0, 252, 255, 255, 255, 80, 65, 82, 49]

/-- A two-page column index with descending minima whose ranges `[5, 9]` and
`[1, 8]` both hold 6. -/
def exColE : ColumnIndex Int :=
  { null_pages := [false, false], min_values := [5, 1], max_values := [9, 8],
    null_counts := [0, 0] }

/-- The column index `exColC` with the lists `null_pages` and `null_counts`
left empty. -/
def exColShortNulls : ColumnIndex Int :=
  { null_pages := [], min_values := [1, 5, 10], max_values := [3, 7, 12], null_counts := [] }

/-- The column index `exColC` with `max_values` cut to one entry. -/
def exColShortMax : ColumnIndex Int :=
  { null_pages := [false, false, false], min_values := [1, 5, 10], max_values := [3],
    null_counts := [0, 0, 0] }


/-- Collaborators of a dictionary-encoded column: every page takes 70 bytes
and carries no statistics, page headers take 20 bytes, and the dictionary page
takes 30 bytes after a header of 10. -/
def exEnvDict : WriterEnv :=
  { build := fun _ =>
      { compressed_size := 70, uncompressed_size := 70
        page_stats := { is_set := false, min := [], max := [], null_count := 0 } }
    headerSize := fun _ => 20
    dict_size := 30
    dict_uncompressed_size := 30
    dict_header_size := 10 }

/-- A column writer in dictionary mode that holds one buffered page of three
values and two more buffered values. -/
def exWriterDict : ColumnWriterImpl :=
  { ColumnWriterImpl.new 4 true .PLAIN_DICTIONARY with
    num_buffered_values_ := 2
    num_buffered_encoded_values_ := 2
    rows_written_ := 5
    data_pages_ :=
      [{ size := 70, num_values := 3, encoding := .PLAIN_DICTIONARY, uncompressed_size := 70
         statistics := { is_set := false, min := [], max := [], null_count := 0 } }]
    pages_cut := 1 }

/-- The INT32 minima `-2`, `3`, `3` and `1000` as stored strings. -/
def exMinsLE : ColumnIndex (List Nat) :=
  { null_pages := [false, false, false, false]
    min_values := [[254, 255, 255, 255], [3, 0, 0, 0], [3, 0, 0, 0], [232, 3, 0, 0]]
    max_values := [[2, 0, 0, 0], [3, 0, 0, 0], [9, 0, 0, 0], [255, 255, 0, 0]]
    null_counts := [0, 0, 0, 0] }

/-- Four page locations, three rows to a page. -/
def exOffLE : OffsetIndex :=
  { page_locations :=
      [{ offset := 100, compressed_page_size := 50, first_row_index := 0 },
       { offset := 150, compressed_page_size := 50, first_row_index := 3 },
       { offset := 200, compressed_page_size := 50, first_row_index := 6 },
       { offset := 250, compressed_page_size := 50, first_row_index := 9 }]
    page_bloom_filter_offsets := [] }

/-- The rows of the three pages `exPagesC` in row order. -/
def exRowsC : List Int := [1, 3, 3, 5, 7, 7, 10, 12, 12]

/-- The column index of 20 rows `c = i` written as one page. -/
def exCol20 : ColumnIndex Int :=
  { null_pages := [false], min_values := [0], max_values := [19], null_counts := [0] }

/-- The offset index of 20 rows written as one page. -/
def exOff20 : OffsetIndex :=
  { page_locations := [{ offset := 4, compressed_page_size := 100, first_row_index := 0 }]
    page_bloom_filter_offsets := [] }

/-! ## `SerializedRowGroup::GetPageIndex`, cases INT32 and INT64 -/

/-- Cases `Type::INT32` and `Type::INT64` of the sorted overload of
`GetPageIndex`.  The two cases consist of the same statements; `v`, the page
minima and the page maxima are read as `int32_t` in the one and as `int64_t`
in the other. -/
def GetPageIndexTyped (type_num : PhysicalType) (fuel : Nat) (blf : Int → Bool)
    (loadPageFilter : Int → Int → Bool) (v : Int) (min_index : Int)
    (col_index : ColumnIndex Int) (offset_index : OffsetIndex)
    (sorted with_binarysearch : Bool) (count_pages_scanned : Int)
    (with_bloom_filter with_page_bf : Bool) : Outcome PageIndexResult :=
  match type_num with
  | .INT32 =>
    GetPageIndex fuel blf loadPageFilter v min_index col_index offset_index sorted
      with_binarysearch count_pages_scanned with_bloom_filter with_page_bf
  | .INT64 =>
    GetPageIndex fuel blf loadPageFilter v min_index col_index offset_index sorted
      with_binarysearch count_pages_scanned with_bloom_filter with_page_bf

/-! ## `SerializedRowGroup::HasPageIndex` -/

/-- Function `HasPageIndex` on the four `int64_t` fields of the column chunk
metadata.  The sums are `int64_t` sums; `ci_start` and `oi_start` are written
and never read. -/
def HasPageIndex (column_index_offset offset_index_offset column_index_length
    offset_index_length : Int) : Bool :=
  let ci_end : Int :=
    if column_index_offset ≠ 0 ∧ column_index_length ≠ 0 then
      max (-1) (wrap64 (column_index_offset + column_index_length))
    else -1
  let oi_end : Int :=
    if offset_index_offset ≠ 0 ∧ offset_index_length ≠ 0 then
      max (-1) (wrap64 (offset_index_offset + offset_index_length))
    else -1
  decide (oi_end ≠ -1) && decide (ci_end ≠ -1)

/-! ## `TypedColumnWriterImpl::WriteMiniBatch`, levels and values -/

/-- The loop `while (p[checkzero] == '0') checkzero++` and the step
`p = p + checkzero`: the predicate from its first byte other than `'0'` on.
The predicate is a C string, given by the bytes before its terminator. -/
def stripLeadingZeros : List Nat → List Nat
  | [] => []
  | c :: rest => if c = 48 then stripLeadingZeros rest else c :: rest

/-- The string `test` of case `Type::BYTE_ARRAY` of the sorted overload of
`GetPageIndex`, the key of every `test.compare(..)` against a page minimum or
maximum: the two `for` loops fill `dest[0 .. FIXED_LENGTH)` with `'0'` up to
index `FIXED_LENGTH - strlen(p)` and with the bytes of `p` from there on.
`FIXED_LENGTH` is a constant of the library whose definition is not among the
sources (the example header sets a constant of this name to 10); it is a
parameter here.  For `strlen(p) > FIXED_LENGTH` the unsigned difference wraps
and the first loop leaves the array.  The terminator is stored at
`dest[FIXED_LENGTH]`, one past `char dest[FIXED_LENGTH]`; `test` is taken to
end there. -/
def byteArrayKey (FIXED_LENGTH : Nat) (predicate : List Nat) : Outcome (List Nat) :=
  let p := stripLeadingZeros predicate
  if FIXED_LENGTH < p.length then .outOfBounds
  else
    let pad := FIXED_LENGTH - p.length
    .ok ((List.range FIXED_LENGTH).map fun i => if i < pad then 48 else p.getD (i - pad) 0)

/-- The loop `for (int ci = 0; ci < FIXED_LENGTH; ci++)` of the example writer
`writecolswithindex`, which stores the decimal digits of `startnumber` from the
right end of `hello`; `fuel` is the number of iterations left. -/
def helloDigits : Nat → Nat → List Nat → List Nat
  | 0, _, hello => hello
  | fuel + 1, startnumber, hello =>
    helloDigits fuel (startnumber / 10) ((startnumber % 10 + 48) :: hello)

/-- The ByteArray value the example writer `writecolswithindex` stores in row
`i`: `FIXED_LENGTH` characters, the digits of `i * FIXED_LENGTH`.  Here
`FIXED_LENGTH` is the parameter of the writer, for which `main` passes 124. -/
def hello (FIXED_LENGTH : Nat) (i : Nat) : List Nat :=
  helloDigits FIXED_LENGTH (i * FIXED_LENGTH) []


/-- Column index of a sorted chunk of eight pages with the ranges `[10, 19]`,
`[20, 29]`, up to `[80, 89]`. -/
def exCol8 : ColumnIndex Int :=
  { null_pages := List.replicate 8 false
    min_values := [10, 20, 30, 40, 50, 60, 70, 80]
    max_values := [19, 29, 39, 49, 59, 69, 79, 89]
    null_counts := List.replicate 8 0 }

/-- Offset index of `exCol8`, ten rows to a page. -/
def exOff8 : OffsetIndex :=
  { page_locations :=
      [{ offset := 4, compressed_page_size := 60, first_row_index := 0 },
       { offset := 64, compressed_page_size := 60, first_row_index := 10 },
       { offset := 124, compressed_page_size := 60, first_row_index := 20 },
       { offset := 184, compressed_page_size := 60, first_row_index := 30 },
       { offset := 244, compressed_page_size := 60, first_row_index := 40 },
       { offset := 304, compressed_page_size := 60, first_row_index := 50 },
       { offset := 364, compressed_page_size := 60, first_row_index := 60 },
       { offset := 424, compressed_page_size := 60, first_row_index := 70 }]
    page_bloom_filter_offsets := [] }

/-- Two data pages of 100 and 50 payload bytes with 5 and 7 values. -/
def exPagesTwo : List CompressedDataPage :=
  [{ size := 100, num_values := 5, encoding := .PLAIN, uncompressed_size := 100,
     statistics := { is_set := false, min := [], max := [], null_count := 0 } },
   { size := 50, num_values := 7, encoding := .PLAIN, uncompressed_size := 50,
     statistics := { is_set := false, min := [], max := [], null_count := 0 } }]

/-- The predicate `017` as bytes. -/
def exPredicate017 : List Nat := [48, 49, 55]

/-! # Properties -/

/-! ## Outcomes and vectors -/

theorem Outcome.bind_eq_ok {α β : Type} (x : Outcome α) (f : α → Outcome β) (b : β) :
    x.bind f = .ok b ↔ ∃ a, x = .ok a ∧ f a = .ok b := by
  cases x <;> simp [Outcome.bind]

theorem vecAt_eq_ok {α : Type} (vec : List α) (i : Int) (a : α) :
    vecAt vec i = .ok a ↔ 0 ≤ i ∧ vec[i.toNat]? = some a := by
  unfold vecAt
  by_cases h : i < 0
  · simp [h]
  · cases hget : vec[i.toNat]? <;> simp [h, hget]
    omega

theorem vecAt_mem {α : Type} (vec : List α) (i : Int) (a : α)
    (h : vecAt vec i = .ok a) : a ∈ vec := by
  rw [vecAt_eq_ok] at h
  exact List.getElem?_mem h.2

theorem vecAt_natCast {α : Type} (vec : List α) (i : Nat) :
    vecAt vec (i : Int) = match vec[i]? with
      | some a => .ok a
      | none => .outOfBounds := by
  unfold vecAt
  simp

/-! ## The binary search of the sorted overload (C2) -/

theorem pairwise_le_getElem_opt (l : List Int) (h : l.Pairwise (fun a b => a ≤ b))
    (i j : Nat) (a b : Int) (hij : i ≤ j) (hi : l[i]? = some a) (hj : l[j]? = some b) :
    a ≤ b := by
  rcases Nat.eq_or_lt_of_le hij with heq | hlt
  · subst heq
    rw [hi] at hj
    simp only [Option.some.injEq] at hj
    omega
  · rw [List.getElem?_eq_some_iff] at hi hj
    obtain ⟨hi', rfl⟩ := hi
    obtain ⟨hj', rfl⟩ := hj
    exact (List.pairwise_iff_getElem.mp h) i j hi' hj' hlt

theorem binarySearchLoop_exit (min_values : List Int) (v : Int) (fuel : Nat)
    (s : SearchState) (h : ¬ s.begin_index ≤ s.last_index) :
    binarySearchLoop min_values v fuel s = .ok s := by
  unfold binarySearchLoop
  simp [h]

/-- On ascending minima none of which equals `v`, started in a state whose
window `[begin_index, last_index]` has a minimum below `v` at its left end and
only minima above `v` to its right, the loop ends within
`last_index - begin_index + 1` iterations on the largest index whose minimum
is below `v`. -/
theorem binarySearchLoop_spec (min_values : List Int) (v : Int)
    (hlen : min_values.length < 2 ^ 63)
    (hsorted : min_values.Pairwise (fun a b => a ≤ b))
    (hne : ∀ m ∈ min_values, m ≠ v) :
    ∀ (fuel : Nat) (s : SearchState), s.begin_index ≤ s.last_index →
      s.last_index < min_values.length →
      (∀ m, min_values[s.begin_index]? = some m → m < v) →
      (∀ j m, s.last_index < j → min_values[j]? = some m → v < m) →
      s.last_index - s.begin_index < fuel →
      ∃ s1, binarySearchLoop min_values v fuel s = .ok s1 ∧
        s1.itemindex < min_values.length ∧
        (∀ m, min_values[s1.itemindex]? = some m → m < v) ∧
        (∀ j m, s1.itemindex < j → min_values[j]? = some m → v < m) := by
  intro fuel
  induction fuel with
  | zero => intro s _ _ _ _ hf; omega
  | succ fuel ih =>
    intro s hbl hl hb hr hf
    have hmid : (s.begin_index + s.last_index) % U64 / 2 = (s.begin_index + s.last_index) / 2 := by
      unfold U64
      rw [Nat.mod_eq_of_lt]
      omega
    have hitem_lo : s.begin_index ≤ (s.begin_index + s.last_index) / 2 := by omega
    have hitem_hi : (s.begin_index + s.last_index) / 2 ≤ s.last_index := by omega
    obtain ⟨cur, hcur⟩ : ∃ cur, min_values[(s.begin_index + s.last_index) / 2]? = some cur :=
      ⟨_, List.getElem?_eq_getElem (by omega)⟩
    have hcur_ne : cur ≠ v := hne cur (List.getElem?_mem hcur)
    unfold binarySearchLoop
    simp only [hbl, if_true]
    unfold binarySearchStep
    simp only [hmid, hcur]
    by_cases hvc : v < cur
    · -- the window shrinks from the right
      simp only [hvc, if_true]
      have hlt : s.begin_index < s.last_index := by
        by_contra hcon
        have heq : (s.begin_index + s.last_index) / 2 = s.begin_index := by omega
        rw [heq] at hcur
        have := hb cur hcur
        omega
      have hlast : (s.last_index + U64 - 1) % U64 = s.last_index - 1 := by
        unfold U64
        have : s.last_index + 2 ^ 64 - 1 = (s.last_index - 1) + 2 ^ 64 := by omega
        rw [this, Nat.add_mod_right, Nat.mod_eq_of_lt]
        omega
      rw [hlast]
      apply ih
      · show s.begin_index ≤ s.last_index - 1
        omega
      · show s.last_index - 1 < min_values.length
        omega
      · exact hb
      · intro j m hj hm
        have hj' : s.last_index - 1 < j := hj
        have := pairwise_le_getElem_opt min_values hsorted _ j cur m (by omega) hcur hm
        omega
      · show s.last_index - 1 - s.begin_index < fuel
        omega
    · have hcv : cur < v := by omega
      simp only [hvc, if_false]
      by_cases hil : (s.begin_index + s.last_index) / 2 < s.last_index
      · simp only [hil, if_true]
        obtain ⟨next, hnext⟩ :
            ∃ next, min_values[(s.begin_index + s.last_index) / 2 + 1]? = some next :=
          ⟨_, List.getElem?_eq_getElem (by omega)⟩
        have hnext_ne : next ≠ v := hne next (List.getElem?_mem hnext)
        simp only [hnext]
        by_cases hvn : v > next
        · -- the window shrinks from the left
          have hnot : ¬ (v < next ∧ v > cur) := by omega
          simp only [hvn, if_true, hnot, if_false]
          have hbegin : (s.begin_index + 1) % U64 = s.begin_index + 1 := by
            unfold U64
            rw [Nat.mod_eq_of_lt]
            omega
          rw [hbegin]
          apply ih
          · show s.begin_index + 1 ≤ s.last_index
            omega
          · exact hl
          · intro m hm
            have hm' : min_values[s.begin_index + 1]? = some m := hm
            have := pairwise_le_getElem_opt min_values hsorted _ _ m next (by omega) hm' hnext
            omega
          · exact hr
          · show s.last_index - (s.begin_index + 1) < fuel
            omega
        · -- `v` lies strictly between two neighbouring minima
          have hyes : v < next ∧ v > cur := by omega
          simp only [hvn, if_false, hyes, and_self, if_true]
          rw [binarySearchLoop_exit]
          · refine ⟨_, rfl, ?_, ?_, ?_⟩
            · show (s.begin_index + s.last_index) / 2 < min_values.length
              omega
            · intro m hm
              have hm' : min_values[(s.begin_index + s.last_index) / 2]? = some m := hm
              rw [hcur] at hm'
              simp only [Option.some.injEq] at hm'
              omega
            · intro j m hj hm
              have hj' : (s.begin_index + s.last_index) / 2 < j := hj
              have := pairwise_le_getElem_opt min_values hsorted _ j next m (by omega) hnext hm
              omega
          · show ¬ (s.last_index + 1) % U64 ≤ s.last_index
            unfold U64
            rw [Nat.mod_eq_of_lt]
            · omega
            · omega
      · -- the probe is the right end of the window
        simp only [hil, if_false]
        have hitem : (s.begin_index + s.last_index) / 2 = s.last_index := by omega
        rw [binarySearchLoop_exit]
        · refine ⟨_, rfl, ?_, ?_, ?_⟩
          · show (s.begin_index + s.last_index) / 2 < min_values.length
            omega
          · intro m hm
            have hm' : min_values[(s.begin_index + s.last_index) / 2]? = some m := hm
            rw [hcur] at hm'
            simp only [Option.some.injEq] at hm'
            omega
          · intro j m hj hm
            have hj' : (s.begin_index + s.last_index) / 2 < j := hj
            exact hr j m (by omega) hm
        · show ¬ (s.last_index + 1) % U64 ≤ s.last_index
          unfold U64
          rw [Nat.mod_eq_of_lt]
          · omega
          · omega

/-- Whatever `v` is, if the loop returns from a state whose window lies inside
the list, has only minima above `v` to its right and, unless it starts at 0, a
minimum below `v` at its left end, then it returns the largest index whose
minimum is at most `v`. -/
theorem binarySearchLoop_partial (min_values : List Int) (v : Int)
    (hlen : min_values.length < 2 ^ 63)
    (hsorted : min_values.Pairwise (fun a b => a ≤ b)) :
    ∀ (fuel : Nat) (s s1 : SearchState), s.begin_index ≤ s.last_index →
      s.last_index < min_values.length →
      (s.begin_index = 0 ∨ ∀ m, min_values[s.begin_index]? = some m → m < v) →
      (∀ j m, s.last_index < j → min_values[j]? = some m → v < m) →
      binarySearchLoop min_values v fuel s = .ok s1 →
      s1.itemindex < min_values.length ∧
        (∀ m, min_values[s1.itemindex]? = some m → m ≤ v) ∧
        (∀ j m, s1.itemindex < j → min_values[j]? = some m → v < m) := by
  intro fuel
  induction fuel with
  | zero =>
    intro s s1 hbl _ _ _ h
    unfold binarySearchLoop at h
    simp [hbl] at h
  | succ fuel ih =>
    intro s s1 hbl hl hb hr h
    have hmid : (s.begin_index + s.last_index) % U64 / 2 = (s.begin_index + s.last_index) / 2 := by
      unfold U64
      rw [Nat.mod_eq_of_lt]
      omega
    have hitem_lo : s.begin_index ≤ (s.begin_index + s.last_index) / 2 := by omega
    have hitem_hi : (s.begin_index + s.last_index) / 2 ≤ s.last_index := by omega
    obtain ⟨cur, hcur⟩ : ∃ cur, min_values[(s.begin_index + s.last_index) / 2]? = some cur :=
      ⟨_, List.getElem?_eq_getElem (by omega)⟩
    unfold binarySearchLoop at h
    simp only [hbl, if_true] at h
    unfold binarySearchStep at h
    simp only [hmid, hcur] at h
    by_cases hvc : v < cur
    · simp only [hvc, if_true] at h
      by_cases hl0 : s.last_index = 0
      · -- `last_index` wraps to `2^64 - 1` and the next probe leaves the list
        exfalso
        have hb0 : s.begin_index = 0 := by omega
        have hlast : (s.last_index + U64 - 1) % U64 = 2 ^ 64 - 1 := by
          rw [hl0]
          unfold U64
          decide
        rw [hlast, hb0] at h
        unfold binarySearchLoop at h
        simp only [Nat.zero_le, if_true] at h
        cases fuel with
        | zero => simp at h
        | succ fuel =>
          have hprobe : (0 + (2 ^ 64 - 1)) % U64 / 2 = 2 ^ 63 - 1 := by
            unfold U64
            decide
          have hnone : min_values[2 ^ 63 - 1]? = none :=
            List.getElem?_eq_none (by omega)
          unfold binarySearchStep at h
          simp only [hprobe, hnone] at h
          simp at h
      · have hlt : s.begin_index < s.last_index := by
          by_contra hcon
          have heq : (s.begin_index + s.last_index) / 2 = s.begin_index := by omega
          rw [heq] at hcur
          rcases hb with hb0 | hbm
          · omega
          · have := hbm cur hcur
            omega
        have hlast : (s.last_index + U64 - 1) % U64 = s.last_index - 1 := by
          unfold U64
          have : s.last_index + 2 ^ 64 - 1 = (s.last_index - 1) + 2 ^ 64 := by omega
          rw [this, Nat.add_mod_right, Nat.mod_eq_of_lt]
          omega
        rw [hlast] at h
        refine ih _ s1 ?_ ?_ ?_ ?_ h
        · show s.begin_index ≤ s.last_index - 1
          omega
        · show s.last_index - 1 < min_values.length
          omega
        · exact hb
        · intro j m hj hm
          have hj1 : s.last_index - 1 < j := hj
          have := pairwise_le_getElem_opt min_values hsorted _ j cur m (by omega) hcur hm
          omega
    · have hcv : cur ≤ v := by omega
      simp only [hvc, if_false] at h
      by_cases hil : (s.begin_index + s.last_index) / 2 < s.last_index
      · simp only [hil, if_true] at h
        obtain ⟨next, hnext⟩ :
            ∃ next, min_values[(s.begin_index + s.last_index) / 2 + 1]? = some next :=
          ⟨_, List.getElem?_eq_getElem (by omega)⟩
        simp only [hnext] at h
        by_cases hvn : v > next
        · have hnot : ¬ (v < next ∧ v > cur) := by omega
          simp only [hvn, if_true, hnot, if_false] at h
          have hbegin : (s.begin_index + 1) % U64 = s.begin_index + 1 := by
            unfold U64
            rw [Nat.mod_eq_of_lt]
            omega
          rw [hbegin] at h
          refine ih _ s1 ?_ ?_ ?_ ?_ h
          · show s.begin_index + 1 ≤ s.last_index
            omega
          · exact hl
          · right
            intro m hm
            have hm1 : min_values[s.begin_index + 1]? = some m := hm
            have := pairwise_le_getElem_opt min_values hsorted _ _ m next (by omega) hm1 hnext
            omega
          · exact hr
        · by_cases hyes : v < next ∧ v > cur
          · simp only [hvn, if_false, hyes, and_self, if_true] at h
            rw [binarySearchLoop_exit] at h
            · simp only [Outcome.ok.injEq] at h
              subst h
              refine ⟨?_, ?_, ?_⟩
              · show (s.begin_index + s.last_index) / 2 < min_values.length
                omega
              · intro m hm
                have hm1 : min_values[(s.begin_index + s.last_index) / 2]? = some m := hm
                rw [hcur] at hm1
                simp only [Option.some.injEq] at hm1
                omega
              · intro j m hj hm
                have hj1 : (s.begin_index + s.last_index) / 2 < j := hj
                have := pairwise_le_getElem_opt min_values hsorted _ j next m (by omega) hnext hm
                omega
            · show ¬ (s.last_index + 1) % U64 ≤ s.last_index
              unfold U64
              rw [Nat.mod_eq_of_lt]
              · omega
              · omega
          · -- `v` equals a probed minimum: the state is left as it was
            simp only [hvn, if_false, hyes] at h
            refine ih _ s1 ?_ ?_ ?_ ?_ h
            · exact hbl
            · exact hl
            · exact hb
            · exact hr
      · simp only [hil, if_false] at h
        rw [binarySearchLoop_exit] at h
        · simp only [Outcome.ok.injEq] at h
          subst h
          refine ⟨?_, ?_, ?_⟩
          · show (s.begin_index + s.last_index) / 2 < min_values.length
            omega
          · intro m hm
            have hm1 : min_values[(s.begin_index + s.last_index) / 2]? = some m := hm
            rw [hcur] at hm1
            simp only [Option.some.injEq] at hm1
            omega
          · intro j m hj hm
            have hj1 : (s.begin_index + s.last_index) / 2 < j := hj
            exact hr j m (by omega) hm
        · show ¬ (s.last_index + 1) % U64 ≤ s.last_index
          unfold U64
          rw [Nat.mod_eq_of_lt]
          · omega
          · omega

/-- C2 as stated fails: on the pages `[1,3]`, `[5,7]`, `[10,12]` the binary
search for `v = 8` selects page 1 and returns its first row, although 8 lies
in the range of no page. -/
theorem binary_search_ignores_max_counterexample :
    GetPageIndex 8 (fun _ => true) (fun _ _ => true) 8 (-1) exColC exOffC true true 0
        false false
      = .ok { min_index := 1, row_index := 3, count_pages_scanned := 1 } ∧
    ∀ p ∈ exColC.min_values.zip exColC.max_values, ¬ (p.1 ≤ 8 ∧ 8 ≤ p.2) := by
  decide

/-- What the binary-search branch of `GetPageIndex` returns on ascending minima
when `v` is above the first minimum and equal to none. -/
theorem GetPageIndex_binary_spec (fuel : Nat) (blf : Int → Bool)
    (loadPageFilter : Int → Int → Bool) (v min_index : Int) (col_index : ColumnIndex Int)
    (offset_index : OffsetIndex) (count_pages_scanned : Int)
    (hsorted : col_index.min_values.Pairwise (fun a b => a ≤ b))
    (h2 : 2 ≤ col_index.min_values.length)
    (hlen : col_index.min_values.length < 2 ^ 63)
    (hloc : offset_index.page_locations.length = col_index.min_values.length)
    (hfirst : ∀ m, col_index.min_values[0]? = some m → m < v)
    (hne : ∀ m ∈ col_index.min_values, m ≠ v)
    (hfuel : col_index.min_values.length ≤ fuel) :
    ∃ (i : Nat) (loc : PageLocation) (m : Int) (c : Int),
      GetPageIndex fuel blf loadPageFilter v min_index col_index offset_index true true
          count_pages_scanned false false
        = .ok { min_index := i, row_index := loc.first_row_index, count_pages_scanned := c } ∧
      offset_index.page_locations[i]? = some loc ∧
      col_index.min_values[i]? = some m ∧ m ≤ v ∧
      ∀ j m1, i < j → col_index.min_values[j]? = some m1 → v < m1 := by
  obtain ⟨s1, hs1, hi, hlo, hhi⟩ :=
    binarySearchLoop_spec col_index.min_values v hlen hsorted hne fuel
      { begin_index := 0, last_index := col_index.min_values.length - 1,
        itemindex := (0 + (col_index.min_values.length - 1)) / 2,
        count_pages_scanned := count_pages_scanned }
      (Nat.zero_le _) (by show col_index.min_values.length - 1 < _; omega) hfirst
      (by
        intro j m hj hm
        have hj' : col_index.min_values.length - 1 < j := hj
        rw [List.getElem?_eq_none (by omega)] at hm
        exact Option.noConfusion hm)
      (by show col_index.min_values.length - 1 - 0 < fuel; omega)
  obtain ⟨loc, hlocget⟩ : ∃ loc, offset_index.page_locations[s1.itemindex]? = some loc :=
    ⟨_, List.getElem?_eq_getElem (by omega)⟩
  obtain ⟨m, hm⟩ : ∃ m, col_index.min_values[s1.itemindex]? = some m :=
    ⟨_, List.getElem?_eq_getElem hi⟩
  refine ⟨s1.itemindex, loc, m, s1.count_pages_scanned, ?_, hlocget, hm, ?_, hhi⟩
  · unfold GetPageIndex selectPage
    have hge : col_index.min_values.length ≥ 2 := h2
    simp only [Bool.false_and, Bool.false_eq_true, if_false, Bool.and_self, if_true, hge, hs1,
      Outcome.bind, vecAt_natCast, hlocget]
  · have := hlo m hm
    omega

/-- Whenever the binary-search branch of `GetPageIndex` returns on ascending
minima, it returns the largest index whose minimum is at most `v`. -/
theorem GetPageIndex_binary_partial (fuel : Nat) (blf : Int → Bool)
    (loadPageFilter : Int → Int → Bool) (v min_index : Int) (col_index : ColumnIndex Int)
    (offset_index : OffsetIndex) (count_pages_scanned : Int)
    (hsorted : col_index.min_values.Pairwise (fun a b => a ≤ b))
    (h2 : 2 ≤ col_index.min_values.length)
    (hlen : col_index.min_values.length < 2 ^ 63)
    (r : PageIndexResult)
    (h : GetPageIndex fuel blf loadPageFilter v min_index col_index offset_index true true
      count_pages_scanned false false = .ok r) :
    ∃ (i : Nat) (loc : PageLocation) (m : Int),
      r.min_index = i ∧ r.row_index = loc.first_row_index ∧
      offset_index.page_locations[i]? = some loc ∧
      col_index.min_values[i]? = some m ∧ m ≤ v ∧
      ∀ j m1, i < j → col_index.min_values[j]? = some m1 → v < m1 := by
  have hge : col_index.min_values.length ≥ 2 := h2
  unfold GetPageIndex selectPage at h
  simp only [Bool.false_and, Bool.false_eq_true, if_false, Bool.and_self, if_true, hge,
    Outcome.bind_eq_ok] at h
  obtain ⟨sel, ⟨s1, hloop, hsel⟩, loc, hloc, hr⟩ := h
  simp only [Outcome.ok.injEq] at hsel hr
  subst hsel
  subst hr
  obtain ⟨hi, hlo, hhi⟩ :=
    binarySearchLoop_partial col_index.min_values v hlen hsorted fuel _ s1
      (Nat.zero_le _) (by show col_index.min_values.length - 1 < _; omega) (Or.inl rfl)
      (by
        intro j m hj hm
        have hj1 : col_index.min_values.length - 1 < j := hj
        rw [List.getElem?_eq_none (by omega)] at hm
        exact Option.noConfusion hm)
      hloop
  obtain ⟨m, hm⟩ : ∃ m, col_index.min_values[s1.itemindex]? = some m :=
    ⟨_, List.getElem?_eq_getElem hi⟩
  rw [vecAt_eq_ok] at hloc
  refine ⟨s1.itemindex, loc, m, rfl, rfl, ?_, hm, hlo m hm, hhi⟩
  simpa using hloc.2

/-- C2, amended: on a column index with at least two pages whose minima ascend,
`GetPageIndex` with binary search (filter stages off) selects, whenever it
returns, the largest index `i` with `min_values[i] <= v` and returns that
page's first row; and it does return, within one iteration per page, for every
`v` above the first minimum and equal to no minimum.  `max_values` is not
consulted: the statement holds for every `max_values`. -/
theorem GetPageIndex_binary_search_selects (fuel : Nat) (blf : Int → Bool)
    (loadPageFilter : Int → Int → Bool) (v min_index : Int) (col_index : ColumnIndex Int)
    (offset_index : OffsetIndex) (count_pages_scanned : Int)
    (hsorted : col_index.min_values.Pairwise (fun a b => a ≤ b))
    (h2 : 2 ≤ col_index.min_values.length)
    (hlen : col_index.min_values.length < 2 ^ 63)
    (hloc : offset_index.page_locations.length = col_index.min_values.length) :
    (∀ r, GetPageIndex fuel blf loadPageFilter v min_index col_index offset_index true true
        count_pages_scanned false false = .ok r →
      ∃ (i : Nat) (loc : PageLocation) (m : Int),
        r.min_index = i ∧ r.row_index = loc.first_row_index ∧
        offset_index.page_locations[i]? = some loc ∧
        col_index.min_values[i]? = some m ∧ m ≤ v ∧
        ∀ j m1, i < j → col_index.min_values[j]? = some m1 → v < m1) ∧
    ((∀ m, col_index.min_values[0]? = some m → m < v) →
      (∀ m ∈ col_index.min_values, m ≠ v) →
      col_index.min_values.length ≤ fuel →
      ∃ r, GetPageIndex fuel blf loadPageFilter v min_index col_index offset_index true true
        count_pages_scanned false false = .ok r) := by
  refine ⟨fun r h => GetPageIndex_binary_partial fuel blf loadPageFilter v min_index
    col_index offset_index count_pages_scanned hsorted h2 hlen r h, ?_⟩
  intro hfirst hne hfuel
  obtain ⟨i, loc, m, c, hrun, -⟩ :=
    GetPageIndex_binary_spec fuel blf loadPageFilter v min_index col_index offset_index
      count_pages_scanned hsorted h2 hlen hloc hfirst hne hfuel
  exact ⟨_, hrun⟩

/-- Witness of `GetPageIndex_binary_search_selects`: `v = 8` on the pages
`[1,3]`, `[5,7]`, `[10,12]`, where the search returns page 1. -/
theorem GetPageIndex_binary_search_selects_witness :
    (∃ r, GetPageIndex 3 (fun _ => true) (fun _ _ => true) 8 (-1) exColC exOffC true true 0
        false false = .ok r) ∧
    ∃ (i : Nat) (loc : PageLocation) (m : Int),
      (1 : Int) = i ∧ (3 : Int) = loc.first_row_index ∧
      exOffC.page_locations[i]? = some loc ∧
      exColC.min_values[i]? = some m ∧ m ≤ 8 ∧
      ∀ j m1, i < j → exColC.min_values[j]? = some m1 → 8 < m1 :=
  ⟨(GetPageIndex_binary_search_selects 3 (fun _ => true) (fun _ _ => true) 8 (-1) exColC
    exOffC 0 (by decide) (by decide) (by decide) (by decide)).2
    (by decide) (by decide) (by decide),
   (GetPageIndex_binary_search_selects 3 (fun _ => true) (fun _ _ => true) 8 (-1) exColC
    exOffC 0 (by decide) (by decide) (by decide) (by decide)).1
    { min_index := 1, row_index := 3, count_pages_scanned := 1 } (by decide)⟩

/-! ## The linear scan of the sorted overload (C3, C4) -/

/-- The linear scan visits every page, leaves `count_pages_scanned` at the last
index, and returns the last page whose range holds `v`, or the `min_index` it
was given when there is none. -/
theorem linearScanLoop_spec (col_index : ColumnIndex Int) (v : Int) (size : Nat)
    (hmin : size ≤ col_index.min_values.length)
    (hmax : size ≤ col_index.max_values.length) :
    ∀ (fuel itemindex : Nat) (min_index count_pages_scanned : Int),
      itemindex + fuel = size →
      ∃ mi : Int,
        linearScanLoop col_index v size fuel itemindex min_index count_pages_scanned
          = .ok (mi, if itemindex < size then (size : Int) - 1 else count_pages_scanned) ∧
        ((mi = min_index ∧
            ∀ j a b, itemindex ≤ j → j < size → col_index.min_values[j]? = some a →
              col_index.max_values[j]? = some b → ¬ (a ≤ v ∧ v ≤ b)) ∨
          ∃ j a b, itemindex ≤ j ∧ j < size ∧ mi = (j : Int) ∧
            col_index.min_values[j]? = some a ∧ col_index.max_values[j]? = some b ∧
            a ≤ v ∧ v ≤ b ∧
            ∀ k a1 b1, j < k → k < size → col_index.min_values[k]? = some a1 →
              col_index.max_values[k]? = some b1 → ¬ (a1 ≤ v ∧ v ≤ b1)) := by
  intro fuel
  induction fuel with
  | zero =>
    intro itemindex min_index count_pages_scanned hsum
    have hnot : ¬ itemindex < size := by omega
    refine ⟨min_index, ?_, Or.inl ⟨rfl, ?_⟩⟩
    · simp [linearScanLoop, hnot]
    · intro j a b h1 h2
      omega
  | succ fuel ih =>
    intro itemindex min_index count_pages_scanned hsum
    have hlt : itemindex < size := by omega
    obtain ⟨a, ha⟩ : ∃ a, col_index.min_values[itemindex]? = some a :=
      ⟨_, List.getElem?_eq_getElem (by omega)⟩
    obtain ⟨b, hb⟩ : ∃ b, col_index.max_values[itemindex]? = some b :=
      ⟨_, List.getElem?_eq_getElem (by omega)⟩
    obtain ⟨mi, hrun, hcases⟩ :=
      ih (itemindex + 1) (if a ≤ v ∧ v ≤ b then (itemindex : Int) else min_index)
        (itemindex : Int) (by omega)
    refine ⟨mi, ?_, ?_⟩
    · unfold linearScanLoop
      simp only [hlt, if_true, ha, hb]
      rw [hrun]
      congr 2
      split <;> omega
    · rcases hcases with ⟨hmi, hno⟩ | ⟨j, a1, b1, hj1, hj2, hmi, hja, hjb, h1, h2, hlast⟩
      · by_cases hm : a ≤ v ∧ v ≤ b
        · right
          rw [if_pos hm] at hmi
          refine ⟨itemindex, a, b, Nat.le_refl _, hlt, hmi, ha, hb, hm.1, hm.2, ?_⟩
          intro k a1 b1 hk1 hk2
          exact hno k a1 b1 (by omega) hk2
        · left
          rw [if_neg hm] at hmi
          refine ⟨hmi, ?_⟩
          intro j a1 b1 hj1 hj2 hja hjb
          rcases Nat.eq_or_lt_of_le hj1 with heq | hjlt
          · subst heq
            rw [ha] at hja
            rw [hb] at hjb
            simp only [Option.some.injEq] at hja hjb
            subst hja
            subst hjb
            exact hm
          · exact hno j a1 b1 (by omega) hj2 hja hjb
      · right
        exact ⟨j, a1, b1, by omega, hj2, hmi, hja, hjb, h1, h2, hlast⟩

/-- C4 as stated fails: on the pages `[1,3]`, `[5,7]`, `[10,12]` the value 4
lies in no page range, yet the linear scan returns the first row of the last
page instead of `-1`. -/
theorem linear_scan_no_match_counterexample :
    (∀ p ∈ exColC.min_values.zip exColC.max_values, ¬ (p.1 ≤ 4 ∧ 4 ≤ p.2)) ∧
    GetPageIndex 0 (fun _ => true) (fun _ _ => true) 4 (-1) exColC exOffC true false 0
        false false
      = .ok { min_index := 2, row_index := 6, count_pages_scanned := 2 } := by
  decide

/-- C4, amended: with both filter stages off and the caller's `min_index` at
`-1`, if the chunk has at least one page (and fewer than `2^31`) and no page
range holds `v`, the linear scan of `GetPageIndex` selects the last page and
returns that page's `first_row_index`. -/
theorem GetPageIndex_linear_no_match (fuel : Nat) (blf : Int → Bool)
    (loadPageFilter : Int → Int → Bool) (v : Int) (col_index : ColumnIndex Int)
    (offset_index : OffsetIndex) (sorted : Bool) (count_pages_scanned : Int)
    (hpos : 1 ≤ offset_index.page_locations.length)
    (hsmall : offset_index.page_locations.length < 2 ^ 31)
    (hmin : offset_index.page_locations.length ≤ col_index.min_values.length)
    (hmax : offset_index.page_locations.length ≤ col_index.max_values.length)
    (hnone : ∀ j a b, j < offset_index.page_locations.length →
      col_index.min_values[j]? = some a → col_index.max_values[j]? = some b →
      ¬ (a ≤ v ∧ v ≤ b)) :
    ∃ loc, offset_index.page_locations[offset_index.page_locations.length - 1]? = some loc ∧
      GetPageIndex fuel blf loadPageFilter v (-1) col_index offset_index sorted false
          count_pages_scanned false false
        = .ok { min_index := (offset_index.page_locations.length : Int) - 1,
                row_index := loc.first_row_index,
                count_pages_scanned := (offset_index.page_locations.length : Int) - 1 } := by
  obtain ⟨loc, hloc⟩ :
      ∃ loc, offset_index.page_locations[offset_index.page_locations.length - 1]? = some loc :=
    ⟨_, List.getElem?_eq_getElem (by omega)⟩
  refine ⟨loc, hloc, ?_⟩
  obtain ⟨mi, hrun, hcases⟩ :=
    linearScanLoop_spec col_index v offset_index.page_locations.length hmin hmax
      offset_index.page_locations.length 0 (-1) count_pages_scanned (by omega)
  have hmi : mi = -1 := by
    rcases hcases with ⟨hmi, -⟩ | ⟨j, a, b, -, hj, -, hja, hjb, h1, h2, -⟩
    · exact hmi
    · exact absurd ⟨h1, h2⟩ (hnone j a b hj hja hjb)
  subst hmi
  have hp : 0 < offset_index.page_locations.length := by omega
  have hcast : ((offset_index.page_locations.length : Int) - 1)
      = ((offset_index.page_locations.length - 1 : Nat) : Int) := by omega
  have hwrap : wrap32 (offset_index.page_locations.length : Int)
      = (offset_index.page_locations.length : Int) := by
    unfold wrap32
    omega
  unfold GetPageIndex selectPage
  simp only [Bool.false_and, Bool.and_false, Bool.false_eq_true, if_false, hrun, hp, if_true,
    Outcome.bind, hwrap, and_self]
  rw [hcast, vecAt_natCast, hloc]

/-- Witness of `GetPageIndex_linear_no_match`: `v = 4` on the pages `[1,3]`,
`[5,7]`, `[10,12]`. -/
theorem GetPageIndex_linear_no_match_witness :
    ∃ loc, exOffC.page_locations[exOffC.page_locations.length - 1]? = some loc ∧
      GetPageIndex 0 (fun _ => true) (fun _ _ => true) 4 (-1) exColC exOffC true false 0
          false false
        = .ok { min_index := (exOffC.page_locations.length : Int) - 1,
                row_index := loc.first_row_index,
                count_pages_scanned := (exOffC.page_locations.length : Int) - 1 } :=
  GetPageIndex_linear_no_match 0 (fun _ => true) (fun _ _ => true) 4 exColC exOffC true 0
    (by decide) (by decide) (by decide) (by decide)
    (by
      intro j a b hj ha hb
      have hj3 : j < 3 := hj
      interval_cases j <;> simp [exColC] at ha hb <;> omega)

/-! ## Binary search against linear scan (C3) -/

/-- What the linear-scan branch of `GetPageIndex` returns when page `i` is the
last page whose range holds `v`. -/
theorem GetPageIndex_linear_spec (fuel : Nat) (blf : Int → Bool)
    (loadPageFilter : Int → Int → Bool) (v min_index : Int) (col_index : ColumnIndex Int)
    (offset_index : OffsetIndex) (sorted : Bool) (count_pages_scanned : Int)
    (i : Nat) (a b : Int) (loc : PageLocation)
    (hmin : offset_index.page_locations.length ≤ col_index.min_values.length)
    (hmax : offset_index.page_locations.length ≤ col_index.max_values.length)
    (hloc : offset_index.page_locations[i]? = some loc)
    (hia : col_index.min_values[i]? = some a) (hib : col_index.max_values[i]? = some b)
    (ha : a ≤ v) (hb : v ≤ b)
    (hlast : ∀ k a1 b1, i < k → col_index.min_values[k]? = some a1 →
      col_index.max_values[k]? = some b1 → ¬ (a1 ≤ v ∧ v ≤ b1)) :
    GetPageIndex fuel blf loadPageFilter v min_index col_index offset_index sorted false
        count_pages_scanned false false
      = .ok { min_index := i, row_index := loc.first_row_index,
              count_pages_scanned := (offset_index.page_locations.length : Int) - 1 } := by
  have hi : i < offset_index.page_locations.length := by
    rw [List.getElem?_eq_some_iff] at hloc
    exact hloc.1
  obtain ⟨mi, hrun, hcases⟩ :=
    linearScanLoop_spec col_index v offset_index.page_locations.length hmin hmax
      offset_index.page_locations.length 0 min_index count_pages_scanned (by omega)
  have hmi : mi = (i : Int) := by
    rcases hcases with ⟨-, hno⟩ | ⟨j, a1, b1, -, hj, hmi, hja, hjb, h1, h2, hnolater⟩
    · exact absurd ⟨ha, hb⟩ (hno i a b (Nat.zero_le _) hi hia hib)
    · have hij : i ≤ j := by
        by_contra hcon
        exact hnolater i a b (by omega) hi hia hib ⟨ha, hb⟩
      have hji : j ≤ i := by
        by_contra hcon
        exact hlast j a1 b1 (by omega) hja hjb ⟨h1, h2⟩
      have : j = i := by omega
      rw [hmi, this]
  subst hmi
  have hp : 0 < offset_index.page_locations.length := by omega
  have hnot : ¬ ((i : Int) = -1) := by omega
  unfold GetPageIndex selectPage
  simp only [Bool.false_and, Bool.and_false, Bool.false_eq_true, if_false, hrun, hp, if_true,
    Outcome.bind, and_false, hnot, vecAt_natCast, hloc]

/-- C3 as stated fails: on the sorted pages `[1,3]`, `[5,7]`, `[10,12]` and the
value 8 the binary search selects page 1 and the linear scan selects page 2. -/
theorem binary_vs_linear_counterexample :
    exColC.min_values.Pairwise (fun a b => a ≤ b) ∧
    GetPageIndex 8 (fun _ => true) (fun _ _ => true) 8 (-1) exColC exOffC true true 0
        false false
      = .ok { min_index := 1, row_index := 3, count_pages_scanned := 1 } ∧
    GetPageIndex 8 (fun _ => true) (fun _ _ => true) 8 (-1) exColC exOffC true false 0
        false false
      = .ok { min_index := 2, row_index := 6, count_pages_scanned := 2 } := by
  decide

/-- C3, amended: on a column index whose minima ascend, if page `i` has
`min_values[i] < v <= max_values[i]` and every later page has a minimum above
`v`, then `GetPageIndex` selects page `i` and returns its first row both with
and without binary search (filter stages off). -/
theorem binary_search_eq_linear_scan (fuel : Nat) (blf : Int → Bool)
    (loadPageFilter : Int → Int → Bool) (v min_index : Int) (col_index : ColumnIndex Int)
    (offset_index : OffsetIndex) (count_pages_scanned : Int) (i : Nat) (a b : Int)
    (hsorted : col_index.min_values.Pairwise (fun a b => a ≤ b))
    (hlen : col_index.min_values.length < 2 ^ 63)
    (hmins : offset_index.page_locations.length = col_index.min_values.length)
    (hmaxs : offset_index.page_locations.length = col_index.max_values.length)
    (hia : col_index.min_values[i]? = some a) (hib : col_index.max_values[i]? = some b)
    (ha : a < v) (hb : v ≤ b)
    (hnext : ∀ j m, i < j → col_index.min_values[j]? = some m → v < m)
    (hfuel : col_index.min_values.length ≤ fuel) :
    ∃ (loc : PageLocation) (c1 c2 : Int),
      offset_index.page_locations[i]? = some loc ∧
      GetPageIndex fuel blf loadPageFilter v min_index col_index offset_index true true
          count_pages_scanned false false
        = .ok { min_index := i, row_index := loc.first_row_index, count_pages_scanned := c1 } ∧
      GetPageIndex fuel blf loadPageFilter v min_index col_index offset_index true false
          count_pages_scanned false false
        = .ok { min_index := i, row_index := loc.first_row_index, count_pages_scanned := c2 } := by
  have hi : i < col_index.min_values.length := by
    rw [List.getElem?_eq_some_iff] at hia
    exact hia.1
  obtain ⟨loc, hloc⟩ : ∃ loc, offset_index.page_locations[i]? = some loc :=
    ⟨_, List.getElem?_eq_getElem (by omega)⟩
  have hlin := GetPageIndex_linear_spec fuel blf loadPageFilter v min_index col_index
    offset_index true count_pages_scanned i a b loc (by omega) (by omega) hloc hia hib
    (by omega) hb
    (by
      intro k a1 b1 hk hka _ hcon
      have := hnext k a1 hk hka
      omega)
  by_cases h2 : 2 ≤ col_index.min_values.length
  · have hfirst : ∀ m, col_index.min_values[0]? = some m → m < v := by
      intro m hm
      have := pairwise_le_getElem_opt col_index.min_values hsorted 0 i m a (Nat.zero_le _) hm hia
      omega
    have hne : ∀ m ∈ col_index.min_values, m ≠ v := by
      intro m hm
      obtain ⟨j, hj⟩ := List.mem_iff_getElem?.mp hm
      by_cases hji : j ≤ i
      · have := pairwise_le_getElem_opt col_index.min_values hsorted j i m a hji hj hia
        omega
      · have := hnext j m (by omega) hj
        omega
    obtain ⟨i1, loc1, m1, c1, hrun, hloc1, hm1, hle, hup⟩ :=
      GetPageIndex_binary_spec fuel blf loadPageFilter v min_index col_index offset_index
        count_pages_scanned hsorted h2 hlen hmins hfirst hne hfuel
    have hii : i1 = i := by
      have h1 : ¬ i < i1 := by
        intro hcon
        have := hnext i1 m1 hcon hm1
        omega
      have h2 : ¬ i1 < i := by
        intro hcon
        have := hup i a hcon hia
        omega
      omega
    subst hii
    rw [hloc] at hloc1
    simp only [Option.some.injEq] at hloc1
    subst hloc1
    exact ⟨loc, c1, _, hloc, hrun, hlin⟩
  · have hi0 : i = 0 := by omega
    subst hi0
    refine ⟨loc, count_pages_scanned, _, hloc, ?_, hlin⟩
    have hge : ¬ col_index.min_values.length ≥ 2 := h2
    have hzero : ((0 : Nat) : Int) = 0 := rfl
    have hv := vecAt_natCast offset_index.page_locations 0
    rw [hloc] at hv
    unfold GetPageIndex selectPage
    simp only [Bool.false_and, Bool.false_eq_true, if_false, Bool.and_self, if_true, hge,
      Outcome.bind, hzero]
    simp only [Nat.cast_zero] at hv
    rw [hv]

/-- Witness of `binary_search_eq_linear_scan`: `v = 6` on the pages `[1,3]`,
`[5,7]`, `[10,12]` selects page 1 either way. -/
theorem binary_search_eq_linear_scan_witness :
    ∃ (loc : PageLocation) (c1 c2 : Int),
      exOffC.page_locations[1]? = some loc ∧
      GetPageIndex 3 (fun _ => true) (fun _ _ => true) 6 (-1) exColC exOffC true true 0
          false false
        = .ok { min_index := (1 : Nat), row_index := loc.first_row_index,
                count_pages_scanned := c1 } ∧
      GetPageIndex 3 (fun _ => true) (fun _ _ => true) 6 (-1) exColC exOffC true false 0
          false false
        = .ok { min_index := (1 : Nat), row_index := loc.first_row_index,
                count_pages_scanned := c2 } :=
  binary_search_eq_linear_scan 3 (fun _ => true) (fun _ _ => true) 6 (-1) exColC exOffC 0
    1 5 7 (by decide) (by decide) (by decide) (by decide) (by decide) (by decide)
    (by decide) (by decide)
    (by
      intro j m hj hm
      have hj3 : j < 3 := by
        rw [List.getElem?_eq_some_iff] at hm
        exact hm.1
      have hj2 : j = 2 := by omega
      subst hj2
      simp [exColC] at hm
      omega)
    (by decide)

/-! ## First row indices of the pages written (C6) -/

theorem wrap64_of_range (x : Int) (h0 : 0 ≤ x) (h1 : x < 2 ^ 63) : wrap64 x = x := by
  unfold wrap64
  omega

/-- Starting from a writer whose row counter is `c >= 0`, the pages written get
the first rows `c`, `c + n0`, `c + n0 + n1`, ... as long as the counter stays
below `2^63`. -/
theorem writePagesWithIndex_spec (headerSize : CompressedDataPage → Int) :
    ∀ (pages : List CompressedDataPage) (w : SerializedPageWriter),
      0 ≤ w.current_page_row_set_index →
      (∀ p ∈ pages, 1 ≤ p.num_values) →
      w.current_page_row_set_index + (pages.map (fun p => p.num_values)).sum < 2 ^ 63 →
      (writePagesWithIndex headerSize w pages).2.length = pages.length ∧
      (∀ k loc, (writePagesWithIndex headerSize w pages).2[k]? = some loc →
        loc.first_row_index
          = w.current_page_row_set_index + ((pages.take k).map (fun p => p.num_values)).sum) ∧
      (∀ loc ∈ (writePagesWithIndex headerSize w pages).2,
        w.current_page_row_set_index ≤ loc.first_row_index) ∧
      (writePagesWithIndex headerSize w pages).2.Pairwise
        (fun a b => a.first_row_index < b.first_row_index) := by
  intro pages
  induction pages with
  | nil =>
    intro w _ _ _
    simp [writePagesWithIndex]
  | cons p rest ih =>
    intro w h0 hpos hsum
    have hp : 1 ≤ p.num_values := hpos p (List.mem_cons_self _ _)
    have hrest : ∀ q ∈ rest, 1 ≤ q.num_values := fun q hq => hpos q (List.mem_cons_of_mem _ hq)
    have hnonneg : 0 ≤ (rest.map (fun p => p.num_values)).sum := by
      apply List.sum_nonneg
      intro x hx
      obtain ⟨q, hq, rfl⟩ := List.mem_map.mp hx
      have := hrest q hq
      omega
    simp only [List.map_cons, List.sum_cons] at hsum
    have hcur : (WriteDataPagesWithIndex w p (headerSize p)).1.current_page_row_set_index
        = w.current_page_row_set_index + p.num_values := by
      show wrap64 (w.current_page_row_set_index + p.num_values) = _
      exact wrap64_of_range _ (by omega) (by omega)
    have hfirst : (WriteDataPagesWithIndex w p (headerSize p)).2.1.first_row_index
        = w.current_page_row_set_index := rfl
    obtain ⟨ihlen, ihsum, ihlow, ihpair⟩ :=
      ih (WriteDataPagesWithIndex w p (headerSize p)).1 (by rw [hcur]; omega) hrest
        (by rw [hcur]; omega)
    rw [hcur] at ihsum ihlow
    refine ⟨?_, ?_, ?_, ?_⟩
    · simp [writePagesWithIndex, ihlen]
    · intro k loc hk
      cases k with
      | zero =>
        simp only [writePagesWithIndex, List.getElem?_cons_zero, Option.some.injEq] at hk
        subst hk
        simp [hfirst]
      | succ k =>
        simp only [writePagesWithIndex, List.getElem?_cons_succ] at hk
        have := ihsum k loc hk
        simp only [List.take_succ_cons, List.map_cons, List.sum_cons]
        omega
    · intro loc hloc
      simp only [writePagesWithIndex, List.mem_cons] at hloc
      rcases hloc with rfl | hmem
      · simp [hfirst]
      · have := ihlow loc hmem
        omega
    · simp only [writePagesWithIndex, List.pairwise_cons]
      refine ⟨?_, ihpair⟩
      intro loc hmem
      have := ihlow loc hmem
      rw [hfirst]
      omega

/-- C6: on a fresh page writer, if every page written through
`WriteDataPagesWithIndex` holds at least one value (the 64-bit row counter not
overflowing, that is, the total number of values staying below `2^63`), one
location is recorded per page, page 0 gets `first_row_index = 0`, page `k` gets
the sum of `num_values` of the pages before it, and `first_row_index` is
strictly increasing along the chunk. -/
theorem first_row_index_prefix_sums (headerSize : CompressedDataPage → Int) (sink_pos : Int)
    (pages : List CompressedDataPage)
    (hpos : ∀ p ∈ pages, 1 ≤ p.num_values)
    (hsum : (pages.map (fun p => p.num_values)).sum < 2 ^ 63) :
    (writePagesWithIndex headerSize (SerializedPageWriter.new sink_pos) pages).2.length
      = pages.length ∧
    (∀ loc, (writePagesWithIndex headerSize (SerializedPageWriter.new sink_pos) pages).2[0]?
      = some loc → loc.first_row_index = 0) ∧
    (∀ k loc, (writePagesWithIndex headerSize (SerializedPageWriter.new sink_pos) pages).2[k]?
      = some loc →
      loc.first_row_index = ((pages.take k).map (fun p => p.num_values)).sum) ∧
    (writePagesWithIndex headerSize (SerializedPageWriter.new sink_pos) pages).2.Pairwise
      (fun a b => a.first_row_index < b.first_row_index) := by
  obtain ⟨hlen, hk, -, hpair⟩ :=
    writePagesWithIndex_spec headerSize pages (SerializedPageWriter.new sink_pos)
      (by simp [SerializedPageWriter.new]) hpos (by simpa [SerializedPageWriter.new] using hsum)
  refine ⟨hlen, ?_, ?_, hpair⟩
  · intro loc h0
    have := hk 0 loc h0
    simpa [SerializedPageWriter.new] using this
  · intro k loc hloc
    have := hk k loc hloc
    simpa [SerializedPageWriter.new] using this

/-- Witness of `first_row_index_prefix_sums`: pages of 5, 7 and 1 values get
the first rows 0, 5 and 12. -/
theorem first_row_index_prefix_sums_witness :
    ((writePagesWithIndex (fun _ => 20) (SerializedPageWriter.new 4) exPages).2.map
      (fun loc => loc.first_row_index) = [0, 5, 12]) ∧
    (writePagesWithIndex (fun _ => 20) (SerializedPageWriter.new 4) exPages).2.Pairwise
      (fun a b => a.first_row_index < b.first_row_index) :=
  ⟨by decide,
   (first_row_index_prefix_sums (fun _ => 20) 4 exPages (by decide) (by decide)).2.2.2⟩

/-! ## Truncation of statistics (C7, C8) -/

theorem bytesLt_take (s : List Nat) : ∀ n : Nat, bytesLt s (s.take n) = false := by
  induction s with
  | nil => intro n; simp [bytesLt]
  | cons a t ih =>
    intro n
    cases n with
    | zero => simp [bytesLt]
    | succ n => simp [bytesLt, ih n]

theorem bytesLt_take_succ : ∀ (s : List Nat) (j c : Nat), s[j]? = some c →
    bytesLt s (s.take j ++ [c + 1]) = true := by
  intro s
  induction s with
  | nil => intro j c h; simp at h
  | cons a t ih =>
    intro j c h
    cases j with
    | zero =>
      simp only [List.getElem?_cons_zero, Option.some.injEq] at h
      subst h
      simp [bytesLt]
    | succ j =>
      simp only [List.getElem?_cons_succ] at h
      simp [bytesLt, ih j c h]

/-- If `c < a` then every `b` is above `c` or below `a`. -/
theorem bytesLt_cotrans : ∀ (c a b : List Nat), bytesLt c a = true →
    bytesLt b a = true ∨ bytesLt c b = true := by
  intro c
  induction c with
  | nil =>
    intro a b h
    cases b with
    | nil => left; exact h
    | cons hb tb => right; simp [bytesLt]
  | cons hc tc ih =>
    intro a b h
    cases a with
    | nil => simp [bytesLt] at h
    | cons ha ta =>
      cases b with
      | nil => left; simp [bytesLt]
      | cons hb tb =>
        simp only [bytesLt, Bool.or_eq_true, Bool.and_eq_true, decide_eq_true_eq] at h ⊢
        rcases h with h | ⟨h1, h2⟩
        · by_cases hba : hb < ha
          · exact Or.inl (Or.inl hba)
          · exact Or.inr (Or.inl (by omega))
        · rcases Nat.lt_trichotomy hb ha with hlt | heq | hgt
          · exact Or.inl (Or.inl hlt)
          · rcases ih ta tb h2 with h3 | h3
            · exact Or.inl (Or.inr ⟨heq, h3⟩)
            · exact Or.inr (Or.inr ⟨by omega, h3⟩)
          · exact Or.inr (Or.inl (by omega))

theorem bytesLe_trans (a b c : List Nat) (hab : bytesLe a b = true) (hbc : bytesLe b c = true) :
    bytesLe a c = true := by
  unfold bytesLe at *
  simp only [Bool.not_eq_true'] at *
  cases hca : bytesLt c a with
  | false => rfl
  | true =>
    rcases bytesLt_cotrans c a b hca with h | h
    · rw [hab] at h; exact Bool.noConfusion h
    · rw [hbc] at h; exact Bool.noConfusion h

theorem bytesLt_of_le_of_lt (a b c : List Nat) (hab : bytesLe a b = true)
    (hbc : bytesLt b c = true) : bytesLt a c = true := by
  unfold bytesLe at hab
  simp only [Bool.not_eq_true'] at hab
  rcases bytesLt_cotrans b c a hbc with h | h
  · exact h
  · rw [hab] at h; exact Bool.noConfusion h

theorem bytesLt_asymm : ∀ (a b : List Nat), bytesLt a b = true → bytesLt b a = false := by
  intro a
  induction a with
  | nil =>
    intro b _
    cases b <;> simp [bytesLt]
  | cons ha ta ih =>
    intro b h
    cases b with
    | nil => simp [bytesLt] at h
    | cons hb tb =>
      simp only [bytesLt, Bool.or_eq_true, Bool.and_eq_true, decide_eq_true_eq] at h
      simp only [bytesLt, Bool.or_eq_false_iff, Bool.and_eq_false_imp, decide_eq_false_iff_not,
        decide_eq_true_eq]
      rcases h with h | ⟨h1, h2⟩
      · exact ⟨by omega, fun hcon => by omega⟩
      · exact ⟨by omega, fun _ => ih tb h2⟩

theorem bytesLe_of_lt (a b : List Nat) (h : bytesLt a b = true) : bytesLe a b = true := by
  unfold bytesLe
  rw [bytesLt_asymm a b h]
  rfl

theorem take_set_of_le {α : Type} (l : List α) (a : α) (m n : Nat) (h : m ≤ n) :
    (l.set n a).take m = l.take m := by
  rw [List.set_take]
  exact List.set_eq_of_length_le (by have := List.length_take_le m l; omega)

/-- The carry loop started at an index inside the string stops at some `j`,
having met only `0xFF` above `j`, leaving the bytes up to `j` as they were, and
`j` is `0` or holds a byte other than `0xFF`. -/
theorem truncateUpCarry_spec : ∀ (i : Nat) (l : List Nat), i < l.length →
    ∃ l1 j, truncateUpCarry l i = .ok (l1, j) ∧ j ≤ i ∧ l1.length = l.length ∧
      l1.take (j + 1) = l.take (j + 1) ∧ (0 < j → l[j]? ≠ some 255) ∧
      ∀ k, j < k → k ≤ i → l[k]? = some 255 := by
  intro i
  induction i with
  | zero =>
    intro l _
    refine ⟨l, 0, rfl, Nat.le_refl _, rfl, rfl, ?_, ?_⟩
    · intro h; omega
    · intro k h1 h2; omega
  | succ i ih =>
    intro l hl
    obtain ⟨c, hc⟩ : ∃ c, l[i + 1]? = some c := ⟨_, List.getElem?_eq_getElem hl⟩
    by_cases h255 : c = 255
    · subst h255
      obtain ⟨l1, j, hrun, hji, hlen, htake, hstop, hall⟩ :=
        ih (l.set (i + 1) ((255 + 1) % 256)) (by rw [List.length_set]; omega)
      refine ⟨l1, j, ?_, by omega, ?_, ?_, ?_, ?_⟩
      · unfold truncateUpCarry
        simp only [hc, if_true]
        exact hrun
      · simpa using hlen
      · rw [htake]
        exact take_set_of_le _ _ _ _ (by omega)
      · intro hj
        have := hstop hj
        rwa [List.getElem?_set_ne (by omega)] at this
      · intro k hk1 hk2
        rcases Nat.eq_or_lt_of_le hk2 with heq | hlt
        · rw [heq]; exact hc
        · have := hall k hk1 (by omega)
          rwa [List.getElem?_set_ne (by omega)] at this
    · refine ⟨l, i + 1, ?_, Nat.le_refl _, rfl, rfl, ?_, ?_⟩
      · unfold truncateUpCarry
        simp only [hc, h255, if_false]
      · intro _ hcon
        rw [hc] at hcon
        simp only [Option.some.injEq] at hcon
        exact h255 hcon
      · intro k h1 h2; omega

/-- On a string of at least `n + 1` bytes, `TruncateUp` with `max_length = n + 1`
stops at some index `j <= n` below a run of `0xFF` bytes; it reports
`CapacityError` when `j = 0` holds `0xFF`, and otherwise returns the first `j`
bytes followed by byte `j` plus one. -/
theorem TruncateUp_spec (s : List Nat) (n : Nat) (hbytes : ∀ b ∈ s, b < 256)
    (hlen : n + 1 ≤ s.length) :
    ∃ j c, j ≤ n ∧ s[j]? = some c ∧ (∀ k, j < k → k ≤ n → s[k]? = some 255) ∧
      ((j = 0 ∧ c = 255 ∧ ∃ r, TruncateUp s (n + 1) = .ok (.CapacityError, r)) ∨
       (c < 255 ∧ TruncateUp s (n + 1) = .ok (.OK, s.take j ++ [c + 1]))) := by
  have hplen : (s.take (n + 1)).length = n + 1 := List.length_take_of_le hlen
  obtain ⟨l1, j, hrun, hjn, hl1len, htake, hstop, hall⟩ :=
    truncateUpCarry_spec n (s.take (n + 1)) (by omega)
  have hget : ∀ k, k ≤ n → (s.take (n + 1))[k]? = s[k]? := fun k hk =>
    List.getElem?_take_of_lt (by omega)
  obtain ⟨c, hc⟩ : ∃ c, s[j]? = some c := ⟨_, List.getElem?_eq_getElem (by omega)⟩
  have hc256 : c < 256 := hbytes c (List.getElem?_mem hc)
  have hl1j : l1[j]? = some c := by
    have h1 : (l1.take (j + 1))[j]? = l1[j]? := List.getElem?_take_of_succ
    have h2 : ((s.take (n + 1)).take (j + 1))[j]? = (s.take (n + 1))[j]? :=
      List.getElem?_take_of_succ
    rw [← h1, htake, h2, hget j hjn, hc]
  have hl1take : l1.take j = s.take j := by
    have h1 : (l1.take (j + 1)).take j = l1.take j := by
      rw [List.take_take]; congr 1; omega
    have h2 : ((s.take (n + 1)).take (j + 1)).take j = s.take j := by
      rw [List.take_take, List.take_take]; congr 1; omega
    rw [← h1, htake, h2]
  refine ⟨j, c, hjn, hc, ?_, ?_⟩
  · intro k hk1 hk2
    rw [← hget k hk2]
    exact hall k hk1 hk2
  · unfold TruncateUp
    simp only [hrun, Outcome.bind, hl1j]
    by_cases hcap : j = 0 ∧ (c + 1) % 256 = 0
    · left
      exact ⟨hcap.1, by omega, l1.set j ((c + 1) % 256), if_pos hcap⟩
    · right
      have hc255 : c < 255 := by
        by_cases hj0 : j = 0
        · have : (c + 1) % 256 ≠ 0 := fun h => hcap ⟨hj0, h⟩
          omega
        · have hne := hstop (by omega)
          rw [hget j hjn, hc] at hne
          have : c ≠ 255 := fun h => hne (by rw [h])
          omega
      refine ⟨hc255, ?_⟩
      rw [if_neg hcap]
      have hu : (c + 1) % 256 = c + 1 := by omega
      rw [hu, List.take_succ, take_set_of_le _ _ _ _ (Nat.le_refl j), hl1take,
        List.getElem?_set_self (by omega)]
      rfl

/-- C7, the code at failing inputs: a maximum of exactly 64 bytes `a` comes back
with its last byte raised to `b`, and for a 4-byte value the function indexes
the string at position 63, outside it. -/
theorem TruncateUp_alters_fitting_values :
    TruncateUp (List.replicate 64 97) 64 = .ok (.OK, List.replicate 63 97 ++ [98]) ∧
    TruncateUp (List.replicate 64 97) 64 ≠ .ok (.OK, List.replicate 64 97) ∧
    TruncateUp [7, 0, 0, 0] 64 = .outOfBounds := by
  decide

/-- Function `TruncateDown` returns an initial segment of its argument, which is
`<=` the argument. -/
theorem TruncateDown_le (t : List Nat) (max_length : Nat) :
    bytesLe (TruncateDown t max_length).2 t = true := by
  unfold bytesLe TruncateDown
  simp only [bytesLt_take, Bool.not_false]

/-- The number of bytes `TruncateDown` asks `substr` for, with `max_length` at
64: the length when it is at most 64, 64 when the length is below `2^31`, and
no less than the length when its cast is negative. -/
theorem TruncateDown_count (n : Nat) :
    ∃ k : Nat, (Min.min (wrap32 (n : Int)) (wrap32 ((64 : Nat) : Int)) % (U64 : Int)).toNat = k ∧
      (n < 2 ^ 31 → k ≤ 64) ∧ (2 ^ 31 ≤ n → n < 2 ^ 32 → n ≤ k) := by
  refine ⟨_, rfl, ?_, ?_⟩
  · intro h
    unfold wrap32 U64
    omega
  · intro h1 h2
    unfold wrap32 U64
    omega

/-- For a string whose length fits `int32_t`, `TruncateDown` with 64 keeps at
most 64 bytes. -/
theorem TruncateDown_length_le (s : List Nat) (hshort : s.length < 2 ^ 31) :
    (TruncateDown s 64).2.length ≤ 64 := by
  obtain ⟨k, hk, hle, -⟩ := TruncateDown_count s.length
  unfold TruncateDown
  simp only []
  rw [hk, List.length_take]
  have := hle hshort
  omega

/-- For a string of `2^31` to `2^32 - 1` bytes the cast of the length is
negative and `TruncateDown` returns the whole string. -/
theorem TruncateDown_negative_cast (s : List Nat) (h1 : 2 ^ 31 ≤ s.length)
    (h2 : s.length < 2 ^ 32) : (TruncateDown s 64).2 = s := by
  obtain ⟨k, hk, -, hge⟩ := TruncateDown_count s.length
  unfold TruncateDown
  simp only []
  rw [hk]
  exact List.take_of_length_le (hge h1 h2)

/-- C8 as stated fails: for the string of `2^31` bytes `a` the cast
`static_cast<int32_t>(min.length())` is `-2^31`, the minimum with 64 is
negative, and `TruncateDown` returns all `2^31` bytes, more than 64. -/
theorem TruncateDown_long_string_counterexample :
    64 < (List.replicate 2147483648 97).length ∧
    (TruncateDown (List.replicate 2147483648 97) 64).2 = List.replicate 2147483648 97 ∧
    ¬ (TruncateDown (List.replicate 2147483648 97) 64).2.length ≤ 64 := by
  have hlen : (List.replicate 2147483648 97).length = 2147483648 := List.length_replicate _ _
  have h := TruncateDown_negative_cast (List.replicate 2147483648 97)
    (by rw [hlen]; norm_num) (by rw [hlen]; norm_num)
  refine ⟨by rw [hlen]; norm_num, h, ?_⟩
  rw [h, hlen]
  norm_num

/-- C8, amended: for a byte string `s` longer than 64 bytes and shorter than
`2^31` bytes, `TruncateDown s 64` has at most 64 bytes and is `<= s`;
`TruncateUp s 64` returns a status, and when the status is OK its result has at
most 64 bytes and is `> s`; hence for every `lo` and `x` with `lo <= x <= s`
the truncated pair still bounds `x`. -/
theorem truncated_bounds (s : List Nat) (hbytes : ∀ b ∈ s, b < 256) (hlong : 64 < s.length)
    (hshort : s.length < 2 ^ 31) :
    (TruncateDown s 64).1 = .OK ∧ (TruncateDown s 64).2.length ≤ 64 ∧
    bytesLe (TruncateDown s 64).2 s = true ∧
    (∃ st r, TruncateUp s 64 = .ok (st, r)) ∧
    ∀ r, TruncateUp s 64 = .ok (.OK, r) →
      r.length ≤ 64 ∧ bytesLt s r = true ∧
      ∀ lo x, bytesLe lo x = true → bytesLe x s = true →
        bytesLe (TruncateDown lo 64).2 x = true ∧ bytesLe x r = true := by
  obtain ⟨j, c, hj, hc, -, hcase⟩ := TruncateUp_spec s 63 hbytes (by omega)
  refine ⟨rfl, TruncateDown_length_le s hshort, TruncateDown_le s 64, ?_, ?_⟩
  · rcases hcase with ⟨-, -, r, hr⟩ | ⟨-, hr⟩
    · exact ⟨_, _, hr⟩
    · exact ⟨_, _, hr⟩
  · intro r hr
    rcases hcase with ⟨-, -, r1, hr1⟩ | ⟨-, hr1⟩
    · rw [hr1] at hr
      simp at hr
    · rw [hr1] at hr
      simp only [Outcome.ok.injEq, Prod.mk.injEq, true_and] at hr
      subst hr
      have hlt : bytesLt s (s.take j ++ [c + 1]) = true := bytesLt_take_succ s j c hc
      refine ⟨?_, hlt, ?_⟩
      · simp only [List.length_append, List.length_take, List.length_singleton]
        omega
      · intro lo x hlo hx
        exact ⟨bytesLe_trans _ _ _ (TruncateDown_le lo 64) hlo,
          bytesLe_of_lt _ _ (bytesLt_of_le_of_lt _ _ _ hx hlt)⟩

/-- Witness of `truncated_bounds`: 65 bytes `a`. -/
theorem truncated_bounds_witness :
    TruncateUp exLong 64 = .ok (.OK, List.replicate 63 97 ++ [98]) ∧
    (TruncateDown exLong 64).2 = List.replicate 64 97 ∧
    ((TruncateDown exLong 64).1 = .OK ∧ (TruncateDown exLong 64).2.length ≤ 64 ∧
    bytesLe (TruncateDown exLong 64).2 exLong = true ∧
    (∃ st r, TruncateUp exLong 64 = .ok (st, r)) ∧
    ∀ r, TruncateUp exLong 64 = .ok (.OK, r) →
      r.length ≤ 64 ∧ bytesLt exLong r = true ∧
      ∀ lo x, bytesLe lo x = true → bytesLe x exLong = true →
        bytesLe (TruncateDown lo 64).2 x = true ∧ bytesLe x r = true) :=
  ⟨by decide, by decide, truncated_bounds exLong (by decide) (by decide) (by decide)⟩

/-! ## Index entries of a page whose maximum cannot be raised (C5, C9) -/

/-- C9, the code at a failing input: for set statistics whose maximum is 64 bytes
`0xFF`, `TruncateUp` reports `CapacityError` and `AddPageStatsToColumnIndex`
returns that status with the column index unchanged, so no entry is appended to
`null_pages`, `min_values`, `max_values` or `null_counts`; `AddDataPageWithIndex`
then writes the page and records its location all the same. -/
theorem AddPageStatsToColumnIndex_capacity_error :
    (∃ r, TruncateUp exStatsFF.max PAGE_INDEX_MAX_STRING_LENGTH = .ok (.CapacityError, r)) ∧
    AddPageStatsToColumnIndex exWriterCol exStatsFF = .ok (.CapacityError, exWriterCol) ∧
    ∃ w, ({ ColumnWriterImpl.new 4 false .PLAIN with
              column_index_ := exWriterCol, num_buffered_values_ := 5 }
            ).AddDataPageWithIndex exEnvFF = .ok w ∧
      w.column_index_ = exWriterCol ∧ w.offset_index_.page_locations.length = 1 := by
  refine ⟨⟨List.replicate 64 0, by decide⟩, by decide, ?_⟩
  refine ⟨_, rfl, by decide, by decide⟩

/-- C5, the code at a failing input: one mini-batch that fills a page whose
maximum is 64 bytes `0xFF`, then `CloseWithIndex`.  One data page is cut and one
page location is recorded, while the four lists of the column index stay
empty. -/
theorem session_index_length_mismatch :
    ∃ w, (ColumnWriterImpl.new 4 false .PLAIN).session exEnvFF
        [{ num_values := 5, values_to_write := 5, rows := 5, page_full := true,
           dict_full := false }] = .ok w ∧
      w.pages_cut = 1 ∧ w.offset_index_.page_locations.length = 1 ∧
      w.column_index_.min_values.length = 0 ∧ w.column_index_.max_values.length = 0 ∧
      w.column_index_.null_pages.length = 0 ∧ w.column_index_.null_counts.length = 0 := by
  refine ⟨_, rfl, by decide, by decide, by decide, by decide, by decide, by decide⟩

/-! ## The range test of the vector overload (C10) -/

/-- C10, the code at a failing input: on the unsorted pages `[5, 9]` and
`[-1, 2147483647]` the value 0 lies in the range of page 1, but
`max - min` wraps to `-2147483648`, the test `max_diff >= abs(v - min)` fails,
and `unsorted_min_index` stays empty. -/
theorem unsorted_range_test_overflow :
    isSorted exColD exOffB = .ok false ∧
    (∃ p ∈ exColD.min_values.zip exColD.max_values, p.1 ≤ 0 ∧ 0 ≤ p.2) ∧
    GetPageIndexUnsorted (fun _ => true) (fun _ _ => true) 0 [] [] exColD exOffB 0 false
        false
      = .ok { unsorted_min_index := [], unsorted_row_index := [], count_pages_scanned := 0 } := by
  decide

/-! ## Page-skip soundness (C1) -/

/-- The sorted evaluator yields `row_index = -1` only from a negative chunk
filter or, with the page-filter stage on, from a negative filter of the page it
selected; otherwise the row is the first row of a page of the offset index. -/
theorem GetPageIndex_row_index (fuel : Nat) (blf : Int → Bool)
    (loadPageFilter : Int → Int → Bool) (v min_index : Int) (col_index : ColumnIndex Int)
    (offset_index : OffsetIndex) (sorted with_binarysearch : Bool)
    (count_pages_scanned : Int) (with_bloom_filter with_page_bf : Bool)
    (r : PageIndexResult)
    (h : GetPageIndex fuel blf loadPageFilter v min_index col_index offset_index sorted
      with_binarysearch count_pages_scanned with_bloom_filter with_page_bf = .ok r) :
    (r.row_index = -1 ∧ with_bloom_filter = true ∧ blf v = false) ∨
    (∃ sel blf_offset,
      selectPage fuel v min_index col_index offset_index sorted with_binarysearch
        count_pages_scanned = .ok sel ∧
      with_page_bf = true ∧ 0 ≤ sel.1 ∧
      offset_index.page_bloom_filter_offsets[sel.1.toNat]? = some blf_offset ∧
      loadPageFilter blf_offset v = false) ∨
    ∃ loc ∈ offset_index.page_locations, r.row_index = loc.first_row_index := by
  unfold GetPageIndex at h
  split at h
  · rename_i hb
    left
    simp only [Bool.and_eq_true, Bool.not_eq_true'] at hb
    simp only [Outcome.ok.injEq] at h
    subst h
    exact ⟨rfl, hb.1, hb.2⟩
  · right
    simp only [Outcome.bind_eq_ok] at h
    obtain ⟨sel, hselect, hsel⟩ := h
    cases with_page_bf with
    | false =>
      right
      simp only [Bool.false_eq_true, if_false, Outcome.bind_eq_ok] at hsel
      obtain ⟨loc, hloc, hr⟩ := hsel
      simp only [Outcome.ok.injEq] at hr
      subst hr
      exact ⟨loc, vecAt_mem _ _ _ hloc, rfl⟩
    | true =>
      simp only [if_true, Outcome.bind_eq_ok] at hsel
      obtain ⟨row, hrow, hr⟩ := hsel
      simp only [Outcome.ok.injEq] at hr
      subst hr
      unfold page_bloom_filter_has_value at hrow
      simp only [Outcome.bind_eq_ok] at hrow
      obtain ⟨blf_offset, hoff, loc, hloc, hval⟩ := hrow
      simp only [Outcome.ok.injEq] at hval
      subst hval
      cases hf : loadPageFilter blf_offset v with
      | false =>
        left
        rw [vecAt_eq_ok] at hoff
        exact ⟨sel, blf_offset, hselect, rfl, hoff.1, hoff.2, hf⟩
      | true =>
        right
        refine ⟨loc, vecAt_mem _ _ _ hloc, ?_⟩
        simp

/-- C19: for a byte string of at least `max_length >= 1` bytes, `TruncateUp`
returns `CapacityError` exactly when each of the first `max_length` bytes is
`0xFF`, and returns OK in every other case. -/
theorem TruncateUp_capacity_error_iff (max : List Nat) (max_length : Nat)
    (hbytes : ∀ b ∈ max, b < 256) (h1 : 1 ≤ max_length) (hlen : max_length ≤ max.length) :
    ((∃ r, TruncateUp max max_length = .ok (.CapacityError, r)) ↔
      ∀ k, k < max_length → max[k]? = some 255) ∧
    ((¬ ∀ k, k < max_length → max[k]? = some 255) →
      ∃ r, TruncateUp max max_length = .ok (.OK, r)) := by
  obtain ⟨n, rfl⟩ : ∃ n, max_length = n + 1 := ⟨max_length - 1, by omega⟩
  obtain ⟨j, c, hj, hc, hall, hcase⟩ := TruncateUp_spec max n hbytes hlen
  rcases hcase with ⟨hj0, hc255, r, hr⟩ | ⟨hc255, hr⟩
  · have hff : ∀ k, k < n + 1 → max[k]? = some 255 := by
      intro k hk
      by_cases hk0 : k = 0
      · rw [hk0, ← hj0, hc, hc255]
      · exact hall k (by omega) (by omega)
    exact ⟨⟨fun _ => hff, fun _ => ⟨r, hr⟩⟩, fun hnot => absurd hff hnot⟩
  · have hnot : ¬ ∀ k, k < n + 1 → max[k]? = some 255 := by
      intro hff
      have := hff j (by omega)
      rw [hc] at this
      simp only [Option.some.injEq] at this
      omega
    refine ⟨⟨?_, fun hff => absurd hff hnot⟩, fun _ => ⟨_, hr⟩⟩
    rintro ⟨r, hr1⟩
    rw [hr] at hr1
    simp at hr1

/-- Witness of `TruncateUp_capacity_error_iff`: 64 bytes `0xFF` followed by one
byte `a`. -/
theorem TruncateUp_capacity_error_iff_witness :
    (∃ r, TruncateUp (List.replicate 64 255 ++ [97]) 64 = .ok (.CapacityError, r)) ∧
    ∀ k, k < 64 → (List.replicate 64 255 ++ [97])[k]? = some 255 :=
  ⟨⟨List.replicate 64 0, by decide⟩,
   (TruncateUp_capacity_error_iff (List.replicate 64 255 ++ [97]) 64 (by decide) (by decide)
    (by decide)).1.mp ⟨List.replicate 64 0, by decide⟩⟩

/-! ## Candidate lists of the vector overload (C12) -/

/-- C12, the code at a failing input: on the unsorted pages `[5, 9]` and
`[1, 8]` both pages are candidates for `v = 6`; the filter of page 0 rejects 6
and the filter of page 1 accepts it.  The first row of page 0 is pushed and
popped again, but page 0 stays in `unsorted_min_index`: the lists end with
lengths 2 and 1, and the row at position 0 is the first row of page 1. -/
theorem page_filter_drops_row_only :
    isSorted exColE exOffB = .ok false ∧
    GetPageIndexUnsorted (fun _ => true) (fun off _ => decide (off = 200)) 6 [] [] exColE
        exOffB 0 false true
      = .ok { unsorted_min_index := [0, 1], unsorted_row_index := [2],
              count_pages_scanned := 1 } ∧
    (exOffB.page_locations.map (fun loc => loc.first_row_index)) = [0, 2] := by
  decide

/-! ## All-null pages (C13) -/

theorem linearScanLoop_null_pages (col_index : ColumnIndex Int) (null_pages : List Bool)
    (v : Int) (size : Nat) :
    ∀ (fuel itemindex : Nat) (min_index count_pages_scanned : Int),
      linearScanLoop { col_index with null_pages := null_pages } v size fuel itemindex
          min_index count_pages_scanned
        = linearScanLoop col_index v size fuel itemindex min_index count_pages_scanned := by
  intro fuel
  induction fuel with
  | zero => intro itemindex min_index count_pages_scanned; rfl
  | succ fuel ih =>
    intro itemindex min_index count_pages_scanned
    unfold linearScanLoop
    simp only [ih]

theorem unsortedScanLoop_null_pages (col_index : ColumnIndex Int) (null_pages : List Bool)
    (v : Int) (size : Nat) :
    ∀ (fuel itemindex : Nat) (unsorted_min_index : List Int) (count_pages_scanned : Int),
      unsortedScanLoop { col_index with null_pages := null_pages } v size fuel itemindex
          unsorted_min_index count_pages_scanned
        = unsortedScanLoop col_index v size fuel itemindex unsorted_min_index
            count_pages_scanned := by
  intro fuel
  induction fuel with
  | zero => intro itemindex unsorted_min_index count_pages_scanned; rfl
  | succ fuel ih =>
    intro itemindex unsorted_min_index count_pages_scanned
    unfold unsortedScanLoop
    simp only [ih]

/-- C13 as stated fails: in a chunk whose single page is all null
(`null_pages = [true]`, zero in its `min_values` and `max_values` entries),
`GetPageIndex` for `v = 7` selects page 0 and returns its first row, with
binary search and with the linear scan. -/
theorem null_page_selected_counterexample :
    GetPageIndex 0 (fun _ => true) (fun _ _ => true) 7 (-1)
        { null_pages := [true], min_values := [0], max_values := [0], null_counts := [3] }
        exOffA true true 0 false false
      = .ok { min_index := 0, row_index := 0, count_pages_scanned := 0 } ∧
    GetPageIndex 0 (fun _ => true) (fun _ _ => true) 7 (-1)
        { null_pages := [true], min_values := [0], max_values := [0], null_counts := [3] }
        exOffA true false 0 false false
      = .ok { min_index := 0, row_index := 0, count_pages_scanned := 0 } := by
  decide

/-- C13, amended: `GetPageIndex` never reads `null_pages`.  Replacing
`null_pages` by any other list changes neither the result of the sorted
overload (`min_index`, `row_index`) nor that of the vector overload
(`unsorted_min_index`, `unsorted_row_index`): whether a page is selected depends
on its `min_values` and `max_values` entries alone. -/
theorem GetPageIndex_ignores_null_pages (fuel : Nat) (blf : Int → Bool)
    (loadPageFilter : Int → Int → Bool) (v min_index : Int) (col_index : ColumnIndex Int)
    (offset_index : OffsetIndex) (sorted with_binarysearch : Bool)
    (count_pages_scanned : Int) (with_bloom_filter with_page_bf : Bool)
    (unsorted_min_index unsorted_row_index : List Int) (null_pages : List Bool) :
    GetPageIndex fuel blf loadPageFilter v min_index
        { col_index with null_pages := null_pages } offset_index sorted with_binarysearch
        count_pages_scanned with_bloom_filter with_page_bf
      = GetPageIndex fuel blf loadPageFilter v min_index col_index offset_index sorted
          with_binarysearch count_pages_scanned with_bloom_filter with_page_bf ∧
    GetPageIndexUnsorted blf loadPageFilter v unsorted_min_index unsorted_row_index
        { col_index with null_pages := null_pages } offset_index count_pages_scanned
        with_bloom_filter with_page_bf
      = GetPageIndexUnsorted blf loadPageFilter v unsorted_min_index unsorted_row_index
          col_index offset_index count_pages_scanned with_bloom_filter with_page_bf := by
  constructor
  · unfold GetPageIndex selectPage
    simp only [linearScanLoop_null_pages]
  · unfold GetPageIndexUnsorted
    simp only [unsortedScanLoop_null_pages]

/-! ## Index lists of different lengths (C15) -/

/-- The linear scan leaves the lists as soon as `min_values` or `max_values`
has no entry for a page it visits. -/
theorem linearScanLoop_outOfBounds (col_index : ColumnIndex Int) (v : Int) (size : Nat) :
    ∀ (fuel itemindex : Nat) (min_index count_pages_scanned : Int),
      itemindex + fuel = size →
      (∃ j, itemindex ≤ j ∧ j < size ∧
        (col_index.min_values[j]? = none ∨ col_index.max_values[j]? = none)) →
      linearScanLoop col_index v size fuel itemindex min_index count_pages_scanned
        = .outOfBounds := by
  intro fuel
  induction fuel with
  | zero =>
    intro itemindex _ _ hsum ⟨j, h1, h2, _⟩
    omega
  | succ fuel ih =>
    intro itemindex min_index count_pages_scanned hsum ⟨j, h1, h2, hnone⟩
    have hlt : itemindex < size := by omega
    unfold linearScanLoop
    simp only [hlt, if_true]
    cases hmin : col_index.min_values[itemindex]? with
    | none => rfl
    | some a =>
      cases hmax : col_index.max_values[itemindex]? with
      | none => rfl
      | some b =>
        have hne : j ≠ itemindex := by
          intro heq
          subst heq
          rcases hnone with h | h
          · rw [hmin] at h; exact Option.noConfusion h
          · rw [hmax] at h; exact Option.noConfusion h
        exact ih (itemindex + 1) _ _ (by omega) ⟨j, by omega, h2, hnone⟩

/-- C15 as stated fails: with `null_pages` and `null_counts` empty beside three
pages, the lookup returns a candidate (page 1, row 3) and no error; with
`max_values` shorter than `page_locations` the linear scan indexes
`max_values` out of range. -/
theorem length_mismatch_counterexample :
    exColShortNulls.null_pages.length ≠ exOffC.page_locations.length ∧
    (∃ r, GetColumnPageReaderWithIndex 8 (fun _ => true) (fun _ _ => true) 6 (-1) 0
        exColShortNulls exOffC false 0 false false [] [] = .ok r ∧
      r.min_index = 1 ∧ r.row_index = 3) ∧
    exColShortMax.max_values.length ≠ exOffC.page_locations.length ∧
    GetColumnPageReaderWithIndex 8 (fun _ => true) (fun _ _ => true) 6 (-1) 0
        exColShortMax exOffC false 0 false false [] [] = .outOfBounds := by
  refine ⟨by decide, ⟨_, rfl, by decide, by decide⟩, by decide, by decide⟩

/-- C15, amended: `GetPageIndex` checks no lengths and raises no error.  For a
chunk of `n` pages (`1 <= n < 2^31`, filter stages off, linear scan, caller's
`min_index` at `-1`) it returns a page in `[0, n)` whenever `min_values` and
`max_values` have at least `n` entries, whatever the lengths of `null_pages`
and `null_counts`; and it indexes `min_values` or `max_values` out of range
when one of them has fewer than `n` entries. -/
theorem GetPageIndex_no_length_check (fuel : Nat) (blf : Int → Bool)
    (loadPageFilter : Int → Int → Bool) (v : Int) (col_index : ColumnIndex Int)
    (offset_index : OffsetIndex) (sorted : Bool) (count_pages_scanned : Int)
    (hpos : 1 ≤ offset_index.page_locations.length)
    (hsmall : offset_index.page_locations.length < 2 ^ 31) :
    ((offset_index.page_locations.length ≤ col_index.min_values.length ∧
        offset_index.page_locations.length ≤ col_index.max_values.length) →
      ∃ r, GetPageIndex fuel blf loadPageFilter v (-1) col_index offset_index sorted false
          count_pages_scanned false false = .ok r ∧
        0 ≤ r.min_index ∧ r.min_index < offset_index.page_locations.length) ∧
    ((col_index.min_values.length < offset_index.page_locations.length ∨
        col_index.max_values.length < offset_index.page_locations.length) →
      GetPageIndex fuel blf loadPageFilter v (-1) col_index offset_index sorted false
          count_pages_scanned false false = .outOfBounds) := by
  have hwrap : wrap32 (offset_index.page_locations.length : Int)
      = (offset_index.page_locations.length : Int) := by
    unfold wrap32
    omega
  have hp : 0 < offset_index.page_locations.length := by omega
  constructor
  · rintro ⟨hmin, hmax⟩
    obtain ⟨mi, hrun, hcases⟩ :=
      linearScanLoop_spec col_index v offset_index.page_locations.length hmin hmax
        offset_index.page_locations.length 0 (-1) count_pages_scanned (by omega)
    have hsel : ∃ k : Nat, k < offset_index.page_locations.length ∧
        (if mi = -1 then (offset_index.page_locations.length : Int) - 1 else mi)
          = (k : Int) := by
      rcases hcases with ⟨hmi, -⟩ | ⟨j, a, b, -, hj, hmi, -⟩
      · refine ⟨offset_index.page_locations.length - 1, by omega, ?_⟩
        rw [if_pos hmi]
        omega
      · refine ⟨j, hj, ?_⟩
        rw [if_neg (by omega), hmi]
    obtain ⟨k, hk, hkeq⟩ := hsel
    obtain ⟨loc, hloc⟩ : ∃ loc, offset_index.page_locations[k]? = some loc :=
      ⟨_, List.getElem?_eq_getElem hk⟩
    refine ⟨{ min_index := k, row_index := loc.first_row_index,
              count_pages_scanned := (offset_index.page_locations.length : Int) - 1 }, ?_, ?_, ?_⟩
    · unfold GetPageIndex selectPage
      simp only [Bool.false_and, Bool.and_false, Bool.false_eq_true, if_false, hrun, hp,
        if_true, Outcome.bind, hwrap, true_and, hkeq, vecAt_natCast, hloc]
    · show (0 : Int) ≤ (k : Int)
      omega
    · show (k : Int) < _
      omega
  · intro hshort
    have hoob := linearScanLoop_outOfBounds col_index v offset_index.page_locations.length
      offset_index.page_locations.length 0 (-1) count_pages_scanned (by omega)
      (by
        rcases hshort with h | h
        · exact ⟨col_index.min_values.length, Nat.zero_le _, h,
            Or.inl (List.getElem?_eq_none (Nat.le_refl _))⟩
        · exact ⟨col_index.max_values.length, Nat.zero_le _, h,
            Or.inr (List.getElem?_eq_none (Nat.le_refl _))⟩)
    unfold GetPageIndex selectPage
    simp only [Bool.false_and, Bool.and_false, Bool.false_eq_true, if_false, hoob,
      Outcome.bind]

/-- Witness of `GetPageIndex_no_length_check`: three pages with `null_pages` and
`null_counts` empty. -/
theorem GetPageIndex_no_length_check_witness :
    exColShortNulls.null_pages.length ≠ exOffC.page_locations.length ∧
    ∃ r, GetPageIndex 0 (fun _ => true) (fun _ _ => true) 6 (-1) exColShortNulls exOffC
        true false 0 false false = .ok r ∧
      0 ≤ r.min_index ∧ r.min_index < exOffC.page_locations.length :=
  ⟨by decide,
   (GetPageIndex_no_length_check 0 (fun _ => true) (fun _ _ => true) 6 exColShortNulls
    exOffC true 0 (by decide) (by decide)).1 ⟨by decide, by decide⟩⟩

/-! ## The size check of the footer (C16) -/

/-- C16, the code at a failing input: the 12-byte file `exFileWrap` ends in the
magic and declares `metadata_len = 4294967292`, so `metadata_len + 8` exceeds the
file size; the `uint32_t` sum `kFooterSize + metadata_len` wraps to 4, the size
check passes, no exception is thrown, and `SliceBuffer` is called with a
negative offset. -/
theorem ParseMetaData_length_wraps :
    loadU32 exFileWrap 4 = 4294967292 ∧
    (exFileWrap.length : Int) < 4294967292 + 8 ∧
    (kFooterSize + 4294967292) % U32 = 4 ∧
    ParseMetaData exFileWrap = .outOfBounds := by
  decide

/-! ## Mini-batches of `WriteBatch` (C17) -/

/-- The loop of `WriteBatch` makes `fuel` calls of `write_batch_size` levels
each at the level offsets `round * b`, `(round + 1) * b`, ..., the value offset
of each call being the start value plus what the calls before it returned. -/
theorem writeBatchLoop_spec (write_batch_size : Int) (written : Int → Int → Int) :
    ∀ (fuel : Nat) (round value_offset : Int),
      (writeBatchLoop write_batch_size written fuel round value_offset).1.length = fuel ∧
      (∀ (k : Nat) (c : MiniBatchCall),
        (writeBatchLoop write_batch_size written fuel round value_offset).1[k]? = some c →
        c.num_values = write_batch_size ∧
        c.level_offset = (round + k) * write_batch_size ∧
        c.value_offset = value_offset +
          (((writeBatchLoop write_batch_size written fuel round value_offset).1.take k).map
            (fun c => written c.level_offset c.num_values)).sum) ∧
      (writeBatchLoop write_batch_size written fuel round value_offset).2
        = value_offset +
          ((writeBatchLoop write_batch_size written fuel round value_offset).1.map
            (fun c => written c.level_offset c.num_values)).sum ∧
      ((writeBatchLoop write_batch_size written fuel round value_offset).1.map
        (fun c => c.num_values)).sum = fuel * write_batch_size := by
  intro fuel
  induction fuel with
  | zero =>
    intro round value_offset
    simp [writeBatchLoop]
  | succ fuel ih =>
    intro round value_offset
    obtain ⟨ihlen, ihk, ihfin, ihsum⟩ :=
      ih (round + 1) (value_offset + written (round * write_batch_size) write_batch_size)
    refine ⟨?_, ?_, ?_, ?_⟩
    · simp [writeBatchLoop, ihlen]
    · intro k c hk
      cases k with
      | zero =>
        simp only [writeBatchLoop, List.getElem?_cons_zero, Option.some.injEq] at hk
        subst hk
        simp
      | succ k =>
        simp only [writeBatchLoop, List.getElem?_cons_succ] at hk
        obtain ⟨h1, h2, h3⟩ := ihk k c hk
        refine ⟨h1, ?_, ?_⟩
        · rw [h2]
          push_cast
          ring
        · rw [h3]
          simp only [writeBatchLoop, List.take_succ_cons, List.map_cons, List.sum_cons]
          ring
    · simp only [writeBatchLoop, List.map_cons, List.sum_cons]
      rw [ihfin]
      ring
    · simp only [writeBatchLoop, List.map_cons, List.sum_cons]
      rw [ihsum]
      push_cast
      ring

/-- C17 as stated fails: for `write_batch_size = 1` and 2147483648 levels the
quotient does not fit the `int` it is cast to, `num_batches` becomes
`-2147483648`, the loop makes no call, and the only mini-batch is the final one
with 0 levels at level offset `-2147483648`. -/
theorem WriteBatch_int_cast_counterexample :
    WriteBatch 1 2147483648 (fun _ n => n)
      = [{ num_values := 0, level_offset := -2147483648, value_offset := 0 }] := by
  decide

/-- C17, amended: for `write_batch_size = b > 0` and `num_values = n >= 0` with
`n / b < 2^31`, `WriteBatch` makes `n / b + 1` calls of `WriteMiniBatch`: call
`k < n / b` has `b` levels and the last one has `n mod b`; call `k` starts at
level offset `k * b`, which is the sum of the sizes of the calls before it, and
at the value offset that is the sum of what the calls before it returned; the
sizes sum to `n`. -/
theorem WriteBatch_partition (b n : Int) (written : Int → Int → Int)
    (hb : 0 < b) (hn : 0 ≤ n) (hq : n / b < 2 ^ 31) :
    (WriteBatch b n written).length = (n / b).toNat + 1 ∧
    (∀ (k : Nat) (c : MiniBatchCall), (WriteBatch b n written)[k]? = some c →
      c.num_values = (if (k : Int) < n / b then b else n % b) ∧
      c.num_values ≤ b ∧
      c.level_offset = k * b ∧
      c.level_offset = (((WriteBatch b n written).take k).map (fun c => c.num_values)).sum ∧
      c.value_offset = (((WriteBatch b n written).take k).map
        (fun c => written c.level_offset c.num_values)).sum) ∧
    ((WriteBatch b n written).map (fun c => c.num_values)).sum = n := by
  have hq0 : 0 ≤ n / b := Int.ediv_nonneg hn (by omega)
  have hdiv : Int.tdiv n b = n / b := Int.tdiv_eq_ediv hn (by omega)
  have hmod : Int.tmod n b = n % b := Int.tmod_eq_emod hn (by omega)
  have hwrap : wrap32 (n / b) = n / b := by
    unfold wrap32
    omega
  have hrem0 : 0 ≤ n % b := Int.emod_nonneg n (by omega)
  have hremb : n % b < b := Int.emod_lt_of_pos n hb
  have hcast : (((n / b).toNat : Nat) : Int) = n / b := Int.toNat_of_nonneg hq0
  obtain ⟨hlen, hk, hfin, hsum⟩ := writeBatchLoop_spec b written (n / b).toNat 0 0
  have hunfold : WriteBatch b n written
      = (writeBatchLoop b written (n / b).toNat 0 0).1 ++
        [{ num_values := n % b, level_offset := n / b * b,
           value_offset := (writeBatchLoop b written (n / b).toNat 0 0).2 }] := by
    unfold WriteBatch
    simp only [hdiv, hmod, hwrap]
  -- sizes of the first `k` calls, for `k` up to the number of full batches
  have hprefix : ∀ k, k ≤ (n / b).toNat →
      (((writeBatchLoop b written (n / b).toNat 0 0).1.take k).map
        (fun c => c.num_values)).sum = k * b := by
    intro k
    induction k with
    | zero => intro _; simp
    | succ k ihk =>
      intro hle
      obtain ⟨c, hc⟩ : ∃ c, (writeBatchLoop b written (n / b).toNat 0 0).1[k]? = some c :=
        ⟨_, List.getElem?_eq_getElem (by omega)⟩
      rw [List.take_succ, hc]
      simp only [Option.toList_some, List.map_append, List.map_cons, List.map_nil,
        List.sum_append, List.sum_cons, List.sum_nil]
      rw [ihk (by omega), (hk k c hc).1]
      push_cast
      ring
  rw [hunfold]
  refine ⟨?_, ?_, ?_⟩
  · simp [hlen]
  · intro k c hc
    by_cases hkq : k < (n / b).toNat
    · rw [List.getElem?_append_left (by omega)] at hc
      obtain ⟨h1, h2, h3⟩ := hk k c hc
      have hklt : (k : Int) < n / b := by omega
      rw [List.take_append_of_le_length (by omega)]
      refine ⟨by rw [if_pos hklt]; exact h1, by omega, by rw [h2]; ring, ?_, ?_⟩
      · rw [h2, hprefix k (by omega)]
        ring
      · rw [h3]
        ring
    · have hkeq : k = (n / b).toNat := by
        by_contra hne
        rw [List.getElem?_eq_none (by simp [hlen]; omega)] at hc
        exact Option.noConfusion hc
      subst hkeq
      rw [List.getElem?_append_right (by omega)] at hc
      simp only [hlen, Nat.sub_self, List.getElem?_cons_zero, Option.some.injEq] at hc
      subst hc
      have hnot : ¬ (((n / b).toNat : Nat) : Int) < n / b := by omega
      have htake : ((writeBatchLoop b written (n / b).toNat 0 0).1 ++
          [({ num_values := n % b, level_offset := n / b * b,
              value_offset := (writeBatchLoop b written (n / b).toNat 0 0).2 } :
            MiniBatchCall)]).take
            (n / b).toNat = (writeBatchLoop b written (n / b).toNat 0 0).1 := by
        rw [List.take_append_of_le_length (by omega), List.take_of_length_le (by omega)]
      rw [htake]
      refine ⟨by rw [if_neg hnot], by show n % b ≤ b; omega, by show n / b * b = _; rw [hcast],
        ?_, ?_⟩
      · show n / b * b = _
        rw [hsum, hcast]
      · show (writeBatchLoop b written (n / b).toNat 0 0).2 = _
        rw [hfin]
        ring
  · simp only [List.map_append, List.sum_append, List.map_cons, List.map_nil, List.sum_cons,
      List.sum_nil, hsum, hcast]
    have := Int.ediv_add_emod' n b
    omega

/-- Witness of `WriteBatch_partition`: 10 levels in batches of 3. -/
theorem WriteBatch_partition_witness :
    WriteBatch 3 10 (fun _ n => n)
      = [{ num_values := 3, level_offset := 0, value_offset := 0 },
         { num_values := 3, level_offset := 3, value_offset := 3 },
         { num_values := 3, level_offset := 6, value_offset := 6 },
         { num_values := 1, level_offset := 9, value_offset := 9 }] ∧
    ((WriteBatch 3 10 (fun _ n => n)).map (fun c => c.num_values)).sum = 10 :=
  ⟨by decide, (WriteBatch_partition 3 10 (fun _ n => n) (by decide) (by decide)
    (by decide)).2.2⟩


/-! ## Dictionary fallback (C18) -/

/-- Handing two lists of pages to the pager one after the other is handing it
their concatenation. -/
theorem writePages_append (hs : CompressedDataPage → Int) :
    ∀ (l1 l2 : List CompressedDataPage) (p : SerializedPageWriter),
      writePages hs (writePages hs p l1) l2 = writePages hs p (l1 ++ l2) := by
  intro l1
  induction l1 with
  | nil => intro l2 p; rfl
  | cons a l1 ih => intro l2 p; simp only [writePages, List.cons_append]; exact ih _ _

theorem writePagesWithIndex_append_fst (hs : CompressedDataPage → Int) :
    ∀ (l1 l2 : List CompressedDataPage) (p : SerializedPageWriter),
      (writePagesWithIndex hs (writePagesWithIndex hs p l1).1 l2).1
        = (writePagesWithIndex hs p (l1 ++ l2)).1 := by
  intro l1
  induction l1 with
  | nil => intro l2 p; rfl
  | cons a l1 ih => intro l2 p; simp only [writePagesWithIndex, List.cons_append]; exact ih _ _

theorem pagerAfter_append (with_index : Bool) (hs : CompressedDataPage → Int)
    (l1 l2 : List CompressedDataPage) (p : SerializedPageWriter) :
    pagerAfter with_index hs (pagerAfter with_index hs p l1) l2
      = pagerAfter with_index hs p (l1 ++ l2) := by
  cases with_index
  · simp only [pagerAfter, Bool.false_eq_true, if_false]; exact writePages_append hs l1 l2 p
  · simp only [pagerAfter, if_true]; exact writePagesWithIndex_append_fst hs l1 l2 p

/-- The loop over `data_pages_` of `FlushBufferedDataPages` hands the pages to
the pager in order and leaves the mode of the writer alone. -/
theorem foldl_WriteDataPage (env : WriterEnv) :
    ∀ (pages : List CompressedDataPage) (w : ColumnWriterImpl),
      (pages.foldl (fun acc page => acc.WriteDataPage env page) w).pager_
          = writePages env.headerSize w.pager_ pages ∧
      (pages.foldl (fun acc page => acc.WriteDataPage env page) w).fallback_ = w.fallback_ ∧
      (pages.foldl (fun acc page => acc.WriteDataPage env page) w).encoding_ = w.encoding_ ∧
      (pages.foldl (fun acc page => acc.WriteDataPage env page) w).has_dictionary_
          = w.has_dictionary_ := by
  intro pages
  induction pages with
  | nil => intro w; exact ⟨rfl, rfl, rfl, rfl⟩
  | cons a pages ih =>
    intro w
    simp only [List.foldl_cons, writePages]
    exact ih _

theorem foldl_writeAndLocate (env : WriterEnv) :
    ∀ (pages : List CompressedDataPage) (w : ColumnWriterImpl),
      (pages.foldl (fun acc page => acc.writeAndLocate env page) w).pager_
          = (writePagesWithIndex env.headerSize w.pager_ pages).1 ∧
      (pages.foldl (fun acc page => acc.writeAndLocate env page) w).fallback_ = w.fallback_ ∧
      (pages.foldl (fun acc page => acc.writeAndLocate env page) w).encoding_ = w.encoding_ ∧
      (pages.foldl (fun acc page => acc.writeAndLocate env page) w).has_dictionary_
          = w.has_dictionary_ := by
  intro pages
  induction pages with
  | nil => intro w; exact ⟨rfl, rfl, rfl, rfl⟩
  | cons a pages ih =>
    intro w
    simp only [List.foldl_cons, writePagesWithIndex]
    exact ih _

/-- Function `TruncateUp` returns whenever the string has `max_length` bytes. -/
theorem TruncateUp_total (s : List Nat) (n : Nat) (hlen : n + 1 ≤ s.length) :
    ∃ r, TruncateUp s (n + 1) = .ok r := by
  have hplen : (s.take (n + 1)).length = n + 1 := List.length_take_of_le hlen
  obtain ⟨l1, j, hrun, hjn, hl1len, -, -, -⟩ :=
    truncateUpCarry_spec n (s.take (n + 1)) (by omega)
  obtain ⟨c, hc⟩ : ∃ c, l1[j]? = some c := ⟨_, List.getElem?_eq_getElem (by omega)⟩
  unfold TruncateUp
  simp only [hrun, Outcome.bind, hc]
  split
  · exact ⟨_, rfl⟩
  · exact ⟨_, rfl⟩

/-- Function `AddPageStatsToColumnIndex` returns for statistics that are unset
or have a maximum of at least `PAGE_INDEX_MAX_STRING_LENGTH` bytes. -/
theorem AddPageStatsToColumnIndex_total (ci : ColumnIndex (List Nat)) (st : EncodedStatistics)
    (h : st.is_set = true → PAGE_INDEX_MAX_STRING_LENGTH ≤ st.max.length) :
    ∃ r, AddPageStatsToColumnIndex ci st = .ok r := by
  unfold AddPageStatsToColumnIndex
  by_cases hs : st.is_set = true
  · obtain ⟨r, hr⟩ := TruncateUp_total st.max 63 (h hs)
    have hr2 : TruncateUp st.max PAGE_INDEX_MAX_STRING_LENGTH = .ok r := hr
    simp only [hs, if_true, hr2, Outcome.bind]
    split
    · exact ⟨_, rfl⟩
    · split
      · exact ⟨_, rfl⟩
      · exact ⟨_, rfl⟩
  · simp only [hs, Bool.false_eq_true, if_false]
    exact ⟨_, rfl⟩

/-- What `AddDataPage` does to the mode, the buffer and the pager: in
dictionary mode the page is buffered, otherwise it goes to the pager. -/
theorem AddDataPage_spec (env : WriterEnv) (w : ColumnWriterImpl) :
    (w.AddDataPage env).fallback_ = w.fallback_ ∧
    (w.AddDataPage env).encoding_ = w.encoding_ ∧
    (w.AddDataPage env).has_dictionary_ = w.has_dictionary_ ∧
    (w.AddDataPage env).num_buffered_values_ = 0 ∧
    ((w.has_dictionary_ && !w.fallback_) = true →
      (w.AddDataPage env).pager_ = w.pager_ ∧
      (w.AddDataPage env).data_pages_ = w.data_pages_ ++ [w.builtPage env]) ∧
    ((w.has_dictionary_ && !w.fallback_) = false →
      (w.AddDataPage env).pager_ = writePages env.headerSize w.pager_ [w.builtPage env] ∧
      (w.AddDataPage env).data_pages_ = w.data_pages_) := by
  by_cases hmode : (w.has_dictionary_ && !w.fallback_) = true
  · simp [ColumnWriterImpl.AddDataPage, ColumnWriterImpl.builtPage, hmode]
  · simp only [Bool.not_eq_true] at hmode
    simp [ColumnWriterImpl.AddDataPage, ColumnWriterImpl.builtPage, hmode,
      ColumnWriterImpl.WriteDataPage, writePages]

theorem AddDataPageWithIndex_spec (env : WriterEnv) (w r : ColumnWriterImpl)
    (h : w.AddDataPageWithIndex env = .ok r) :
    r.fallback_ = w.fallback_ ∧
    r.encoding_ = w.encoding_ ∧
    r.has_dictionary_ = w.has_dictionary_ ∧
    r.num_buffered_values_ = 0 ∧
    ((w.has_dictionary_ && !w.fallback_) = true →
      r.pager_ = w.pager_ ∧ r.data_pages_ = w.data_pages_ ++ [w.builtPage env]) ∧
    ((w.has_dictionary_ && !w.fallback_) = false →
      r.pager_ = (writePagesWithIndex env.headerSize w.pager_ [w.builtPage env]).1 ∧
      r.data_pages_ = w.data_pages_) := by
  unfold ColumnWriterImpl.AddDataPageWithIndex at h
  dsimp only at h
  obtain ⟨st, -, hst⟩ := (Outcome.bind_eq_ok _ _ _).mp h
  by_cases hmode : (w.has_dictionary_ && !w.fallback_) = true
  · simp only [hmode, if_true, Outcome.ok.injEq] at hst
    subst hst
    simp [ColumnWriterImpl.builtPage, hmode]
  · simp only [Bool.not_eq_true] at hmode
    simp only [hmode, Bool.false_eq_true, if_false, Outcome.ok.injEq] at hst
    subst hst
    simp [ColumnWriterImpl.builtPage, hmode, ColumnWriterImpl.writeAndLocate,
      writePagesWithIndex]

theorem AddDataPageWithIndex_total (env : WriterEnv) (w : ColumnWriterImpl)
    (h : (env.build w.pages_cut).page_stats.is_set = true →
      PAGE_INDEX_MAX_STRING_LENGTH ≤ (env.build w.pages_cut).page_stats.max.length) :
    ∃ r, w.AddDataPageWithIndex env = .ok r := by
  obtain ⟨st, hst⟩ := AddPageStatsToColumnIndex_total w.column_index_ _ h
  unfold ColumnWriterImpl.AddDataPageWithIndex
  simp only [hst, Outcome.bind]
  exact ⟨_, rfl⟩

theorem FlushBufferedDataPages_spec (env : WriterEnv) (w : ColumnWriterImpl)
    (hmode : (w.has_dictionary_ && !w.fallback_) = true) :
    (w.FlushBufferedDataPages env).pager_
        = writePages env.headerSize w.pager_
            (w.data_pages_ ++ if w.num_buffered_values_ > 0 then [w.builtPage env] else []) ∧
    (w.FlushBufferedDataPages env).data_pages_ = [] ∧
    (w.FlushBufferedDataPages env).fallback_ = w.fallback_ ∧
    (w.FlushBufferedDataPages env).encoding_ = w.encoding_ ∧
    (w.FlushBufferedDataPages env).has_dictionary_ = w.has_dictionary_ := by
  obtain ⟨a1, a2, a3, -, a5, -⟩ := AddDataPage_spec env w
  obtain ⟨a5, a6⟩ := a5 hmode
  unfold ColumnWriterImpl.FlushBufferedDataPages
  dsimp only
  by_cases hb : w.num_buffered_values_ > 0
  · simp only [hb, if_true]
    obtain ⟨f1, f2, f3, f4⟩ := foldl_WriteDataPage env (w.AddDataPage env).data_pages_
      (w.AddDataPage env)
    refine ⟨?_, by first | rfl | trivial, ?_, ?_, ?_⟩
    · rw [f1, a5, a6]
    · rw [f2, a1]
    · rw [f3, a2]
    · rw [f4, a3]
  · simp only [hb, if_false, List.append_nil]
    obtain ⟨f1, f2, f3, f4⟩ := foldl_WriteDataPage env w.data_pages_ w
    exact ⟨f1, by first | rfl | trivial, f2, f3, f4⟩

theorem FlushBufferedDataPagesWithIndex_spec (env : WriterEnv) (w r : ColumnWriterImpl)
    (hmode : (w.has_dictionary_ && !w.fallback_) = true)
    (h : w.FlushBufferedDataPagesWithIndex env = .ok r) :
    r.pager_
        = (writePagesWithIndex env.headerSize w.pager_
            (w.data_pages_ ++ if w.num_buffered_values_ > 0 then [w.builtPage env] else [])).1 ∧
    r.data_pages_ = [] ∧ r.fallback_ = w.fallback_ ∧ r.encoding_ = w.encoding_ ∧
    r.has_dictionary_ = w.has_dictionary_ := by
  unfold ColumnWriterImpl.FlushBufferedDataPagesWithIndex at h
  dsimp only at h
  obtain ⟨w1, hw1, hr⟩ := (Outcome.bind_eq_ok _ _ _).mp h
  simp only [Outcome.ok.injEq] at hr
  subst hr
  obtain ⟨f1, f2, f3, f4⟩ := foldl_writeAndLocate env w1.data_pages_ w1
  by_cases hb : w.num_buffered_values_ > 0
  · simp only [hb, if_true] at hw1 ⊢
    obtain ⟨a1, a2, a3, -, a5, -⟩ := AddDataPageWithIndex_spec env w w1 hw1
    obtain ⟨a5, a6⟩ := a5 hmode
    refine ⟨?_, by first | rfl | trivial, ?_, ?_, ?_⟩
    · show (List.foldl _ w1 w1.data_pages_).pager_ = _
      rw [f1, a5, a6]
    · show (List.foldl _ w1 w1.data_pages_).fallback_ = _
      rw [f2, a1]
    · show (List.foldl _ w1 w1.data_pages_).encoding_ = _
      rw [f3, a2]
    · show (List.foldl _ w1 w1.data_pages_).has_dictionary_ = _
      rw [f4, a3]
  · simp only [hb, if_false, Outcome.ok.injEq] at hw1
    subst hw1
    simp only [hb, if_false, List.append_nil]
    exact ⟨f1, by first | rfl | trivial, f2, f3, f4⟩

/-- What `CheckDictionarySizeLimit` leaves behind when the dictionary is full. -/
theorem CheckDictionarySizeLimitOf_spec (env : WriterEnv) (w r : ColumnWriterImpl)
    (with_index : Bool) (hmode : (w.has_dictionary_ && !w.fallback_) = true)
    (h : w.CheckDictionarySizeLimitOf env with_index true = .ok r) :
    r.fallback_ = true ∧ r.encoding_ = .PLAIN ∧ r.data_pages_ = [] ∧
    r.has_dictionary_ = w.has_dictionary_ ∧
    r.pager_ = pagerAfter with_index env.headerSize (w.WriteDictionaryPage env).pager_
      (w.data_pages_ ++ if w.num_buffered_values_ > 0 then [w.builtPage env] else []) := by
  unfold ColumnWriterImpl.CheckDictionarySizeLimitOf at h
  simp only [if_true] at h
  obtain ⟨w1, hw1, hr⟩ := (Outcome.bind_eq_ok _ _ _).mp h
  simp only [Outcome.ok.injEq] at hr
  subst hr
  have hmode0 : ((w.WriteDictionaryPage env).has_dictionary_ &&
      !(w.WriteDictionaryPage env).fallback_) = true := hmode
  cases with_index
  · simp only [Bool.not_false, if_true, Outcome.ok.injEq] at hw1
    subst hw1
    obtain ⟨f1, f2, -, -, f5⟩ := FlushBufferedDataPages_spec env (w.WriteDictionaryPage env) hmode0
    refine ⟨rfl, rfl, f2, f5, ?_⟩
    simp only [pagerAfter, Bool.false_eq_true, if_false]
    exact f1
  · simp only [Bool.not_true, Bool.false_eq_true, if_false] at hw1
    obtain ⟨f1, f2, -, -, f5⟩ :=
      FlushBufferedDataPagesWithIndex_spec env (w.WriteDictionaryPage env) w1 hmode0 hw1
    refine ⟨rfl, rfl, f2, f5, ?_⟩
    simp only [pagerAfter, if_true]
    exact f1

theorem cut_fallback (env : WriterEnv) (with_index : Bool) (w1 w2 : ColumnWriterImpl)
    (hfb : w1.fallback_ = true)
    (h : (if (!with_index) = true then Outcome.ok (w1.AddDataPage env)
      else w1.AddDataPageWithIndex env) = .ok w2) :
    w2.fallback_ = true ∧ w2.encoding_ = w1.encoding_ ∧ w2.data_pages_ = w1.data_pages_ ∧
    ∃ page : CompressedDataPage, page.encoding = w1.encoding_ ∧
      w2.pager_ = pagerAfter with_index env.headerSize w1.pager_ [page] := by
  cases with_index
  · simp only [Bool.not_false, if_true, Outcome.ok.injEq] at h
    subst h
    obtain ⟨a1, a2, -, -, -, a6⟩ := AddDataPage_spec env w1
    obtain ⟨a6, a7⟩ := a6 (by simp [hfb])
    refine ⟨a1.trans hfb, a2, a7, w1.builtPage env, rfl, ?_⟩
    simp only [pagerAfter, Bool.false_eq_true, if_false]
    exact a6
  · simp only [Bool.not_true, Bool.false_eq_true, if_false] at h
    obtain ⟨a1, a2, -, -, -, a6⟩ := AddDataPageWithIndex_spec env w1 w2 h
    obtain ⟨a6, a7⟩ := a6 (by simp [hfb])
    refine ⟨a1.trans hfb, a2, a7, w1.builtPage env, rfl, ?_⟩
    simp only [pagerAfter, if_true]
    exact a6

/-- One `WriteMiniBatch` after the fallback: the mode stays, and a page that is
cut goes to the pager at once. -/
theorem WriteMiniBatchOf_fallback (env : WriterEnv) (with_index : Bool)
    (w r : ColumnWriterImpl) (b : MiniBatch) (hfb : w.fallback_ = true)
    (hdp : w.data_pages_ = []) (h : w.WriteMiniBatchOf env with_index b = .ok r) :
    r.fallback_ = true ∧ r.encoding_ = w.encoding_ ∧ r.data_pages_ = [] ∧
    ∃ pages : List CompressedDataPage,
      pages.length = (if b.page_full then 1 else 0) ∧
      (∀ p ∈ pages, p.encoding = w.encoding_) ∧
      r.pager_ = pagerAfter with_index env.headerSize w.pager_ pages := by
  unfold ColumnWriterImpl.WriteMiniBatchOf at h
  dsimp only at h
  obtain ⟨w2, hw2, hr⟩ := (Outcome.bind_eq_ok _ _ _).mp h
  have key : w2.fallback_ = true ∧ w2.encoding_ = w.encoding_ ∧ w2.data_pages_ = [] ∧
      ∃ pages : List CompressedDataPage,
        pages.length = (if b.page_full then 1 else 0) ∧
        (∀ p ∈ pages, p.encoding = w.encoding_) ∧
        w2.pager_ = pagerAfter with_index env.headerSize w.pager_ pages := by
    by_cases hfull : b.page_full = true
    · simp only [hfull, if_true] at hw2 ⊢
      have hcut := fun hh => cut_fallback env with_index _ w2 hh hw2
      obtain ⟨a1, a2, a3, page, a4, a5⟩ := hcut hfb
      refine ⟨a1, a2, a3.trans hdp, [page], rfl, ?_, a5⟩
      intro p hp
      rw [List.mem_singleton] at hp
      subst hp
      exact a4
    · simp only [hfull, Bool.false_eq_true, if_false, Outcome.ok.injEq] at hw2 ⊢
      subst hw2
      refine ⟨hfb, rfl, hdp, [], rfl, ?_, ?_⟩
      · intro p hp; cases hp
      · cases with_index <;> rfl
  obtain ⟨k1, k2, k3, k4⟩ := key
  simp only [k1, Bool.not_true, Bool.and_false, Bool.false_eq_true, if_false,
    Outcome.ok.injEq] at hr
  subst hr
  exact ⟨k1, k2, k3, k4⟩

theorem writeMiniBatches_fallback (env : WriterEnv) (with_index : Bool) :
    ∀ (batches : List MiniBatch) (w r : ColumnWriterImpl), w.fallback_ = true →
      w.data_pages_ = [] → w.writeMiniBatches env with_index batches = .ok r →
      r.fallback_ = true ∧ r.encoding_ = w.encoding_ ∧ r.data_pages_ = [] ∧
      ∃ pages : List CompressedDataPage,
        pages.length = (batches.filter (fun b => b.page_full)).length ∧
        (∀ p ∈ pages, p.encoding = w.encoding_) ∧
        r.pager_ = pagerAfter with_index env.headerSize w.pager_ pages := by
  intro batches
  induction batches with
  | nil =>
    intro w r hfb hdp h
    simp only [ColumnWriterImpl.writeMiniBatches, Outcome.ok.injEq] at h
    subst h
    refine ⟨hfb, rfl, hdp, [], rfl, ?_, ?_⟩
    · intro p hp; cases hp
    · cases with_index <;> rfl
  | cons b rest ih =>
    intro w r hfb hdp h
    simp only [ColumnWriterImpl.writeMiniBatches] at h
    obtain ⟨w1, hw1, hr⟩ := (Outcome.bind_eq_ok _ _ _).mp h
    obtain ⟨s1, s2, s3, p1, hl1, he1, hp1⟩ :=
      WriteMiniBatchOf_fallback env with_index w w1 b hfb hdp hw1
    obtain ⟨t1, t2, t3, p2, hl2, he2, hp2⟩ := ih w1 r s1 s3 hr
    refine ⟨t1, t2.trans s2, t3, p1 ++ p2, ?_, ?_, ?_⟩
    · rw [List.length_append, hl1, hl2, List.filter_cons]
      by_cases hfull : b.page_full = true
      · simp only [hfull, if_true, List.length_cons]; omega
      · simp only [hfull, Bool.false_eq_true, if_false]; omega
    · intro p hp
      rcases List.mem_append.mp hp with hp | hp
      · exact he1 p hp
      · exact (he2 p hp).trans s2
    · rw [hp2, hp1, pagerAfter_append]

theorem FlushBufferedDataPagesWithIndex_total (env : WriterEnv) (w : ColumnWriterImpl)
    (hstats : ∀ k, (env.build k).page_stats.is_set = true →
      PAGE_INDEX_MAX_STRING_LENGTH ≤ (env.build k).page_stats.max.length) :
    ∃ r, w.FlushBufferedDataPagesWithIndex env = .ok r := by
  unfold ColumnWriterImpl.FlushBufferedDataPagesWithIndex
  dsimp only
  by_cases hb : w.num_buffered_values_ > 0
  · obtain ⟨w1, hw1⟩ := AddDataPageWithIndex_total env w (hstats _)
    simp only [hb, if_true, hw1, Outcome.bind]
    exact ⟨_, rfl⟩
  · simp only [hb, if_false, Outcome.bind]
    exact ⟨_, rfl⟩

theorem CheckDictionarySizeLimitOf_total (env : WriterEnv) (w : ColumnWriterImpl)
    (with_index dict_full : Bool)
    (hstats : with_index = true → ∀ k, (env.build k).page_stats.is_set = true →
      PAGE_INDEX_MAX_STRING_LENGTH ≤ (env.build k).page_stats.max.length) :
    ∃ r, w.CheckDictionarySizeLimitOf env with_index dict_full = .ok r := by
  unfold ColumnWriterImpl.CheckDictionarySizeLimitOf
  cases dict_full
  · exact ⟨w, rfl⟩
  · cases with_index
    · exact ⟨_, rfl⟩
    · obtain ⟨w1, hw1⟩ :=
        FlushBufferedDataPagesWithIndex_total env (w.WriteDictionaryPage env) (hstats rfl)
      simp only [if_true, Bool.not_true, Bool.false_eq_true, if_false, hw1, Outcome.bind]
      exact ⟨_, rfl⟩

theorem WriteMiniBatchOf_total (env : WriterEnv) (w : ColumnWriterImpl)
    (with_index : Bool) (b : MiniBatch)
    (hstats : with_index = true → ∀ k, (env.build k).page_stats.is_set = true →
      PAGE_INDEX_MAX_STRING_LENGTH ≤ (env.build k).page_stats.max.length) :
    ∃ r, w.WriteMiniBatchOf env with_index b = .ok r := by
  unfold ColumnWriterImpl.WriteMiniBatchOf
  dsimp only
  have hcut : ∀ w1 : ColumnWriterImpl, ∃ w2,
      (if b.page_full = true then
        if (!with_index) = true then Outcome.ok (w1.AddDataPage env)
        else w1.AddDataPageWithIndex env
       else Outcome.ok w1) = .ok w2 := by
    intro w1
    by_cases hfull : b.page_full = true
    · cases with_index
      · simp only [hfull, if_true, Bool.not_false]; exact ⟨_, rfl⟩
      · obtain ⟨w2, hw2⟩ := AddDataPageWithIndex_total env w1 (hstats rfl _)
        simp only [hfull, if_true, Bool.not_true, Bool.false_eq_true, if_false, hw2]
        exact ⟨_, rfl⟩
    · simp only [hfull, Bool.false_eq_true, if_false]; exact ⟨_, rfl⟩
  obtain ⟨w2, hw2⟩ := hcut _
  rw [hw2]
  simp only [Outcome.bind]
  split
  · exact CheckDictionarySizeLimitOf_total env w2 with_index b.dict_full hstats
  · exact ⟨_, rfl⟩

theorem writeMiniBatches_total (env : WriterEnv) (with_index : Bool)
    (hstats : with_index = true → ∀ k, (env.build k).page_stats.is_set = true →
      PAGE_INDEX_MAX_STRING_LENGTH ≤ (env.build k).page_stats.max.length) :
    ∀ (batches : List MiniBatch) (w : ColumnWriterImpl),
      ∃ r, w.writeMiniBatches env with_index batches = .ok r := by
  intro batches
  induction batches with
  | nil => intro w; exact ⟨w, rfl⟩
  | cons b rest ih =>
    intro w
    obtain ⟨w1, hw1⟩ := WriteMiniBatchOf_total env w with_index b hstats
    obtain ⟨r, hr⟩ := ih w1
    refine ⟨r, ?_⟩
    simp only [ColumnWriterImpl.writeMiniBatches, hw1, Outcome.bind]
    exact hr

/-- The stream position after a run of data pages: every page moves it by the
bytes of its header and of its payload. -/
theorem pagerAfter_sink_pos (with_index : Bool) (hs : CompressedDataPage → Int) :
    ∀ (pages : List CompressedDataPage) (p : SerializedPageWriter),
      (pagerAfter with_index hs p pages).sink_pos
        = p.sink_pos + (pages.map fun page => hs page + page.size).sum := by
  intro pages
  induction pages with
  | nil =>
    intro p
    cases with_index <;> simp [pagerAfter, writePages, writePagesWithIndex]
  | cons page rest ih =>
    intro p
    cases with_index
    · have h := ih (p.WriteDataPage page (hs page)).1
      simp only [pagerAfter, Bool.false_eq_true, if_false] at h ⊢
      rw [writePages, h]
      simp only [SerializedPageWriter.WriteDataPage, List.map_cons, List.sum_cons]
      omega
    · have h := ih (WriteDataPagesWithIndex p page (hs page)).1
      simp only [pagerAfter, if_true] at h ⊢
      rw [writePagesWithIndex]
      simp only []
      rw [h]
      simp only [WriteDataPagesWithIndex, List.map_cons, List.sum_cons]
      omega

/-- Data pages leave `dictionary_page_offset_` as it is. -/
theorem pagerAfter_dictionary_page_offset (with_index : Bool) (hs : CompressedDataPage → Int) :
    ∀ (pages : List CompressedDataPage) (p : SerializedPageWriter),
      (pagerAfter with_index hs p pages).dictionary_page_offset_ = p.dictionary_page_offset_ := by
  intro pages
  induction pages with
  | nil =>
    intro p
    cases with_index <;> simp [pagerAfter, writePages, writePagesWithIndex]
  | cons page rest ih =>
    intro p
    cases with_index
    · have h := ih (p.WriteDataPage page (hs page)).1
      simp only [pagerAfter, Bool.false_eq_true, if_false] at h ⊢
      rw [writePages, h]
      simp only [SerializedPageWriter.WriteDataPage]
    · have h := ih (WriteDataPagesWithIndex p page (hs page)).1
      simp only [pagerAfter, if_true] at h ⊢
      rw [writePagesWithIndex]
      simp only []
      rw [h]
      simp only [WriteDataPagesWithIndex]

/-- The loop over `data_pages_` of `FlushBufferedDataPages` adds the bytes of
every page to `total_bytes_written_`. -/
theorem foldl_WriteDataPage_bytes (env : WriterEnv) :
    ∀ (pages : List CompressedDataPage) (w : ColumnWriterImpl),
      (pages.foldl (fun acc page => acc.WriteDataPage env page) w).total_bytes_written_
        = w.total_bytes_written_ + (pages.map fun page => env.headerSize page + page.size).sum := by
  intro pages
  induction pages with
  | nil => intro w; simp
  | cons page rest ih =>
    intro w
    rw [List.foldl_cons, ih]
    simp only [List.map_cons, List.sum_cons, ColumnWriterImpl.WriteDataPage,
      SerializedPageWriter.WriteDataPage]
    omega

/-- The loop over `data_pages_` of `FlushBufferedDataPagesWithIndex` adds the
bytes of every page to `total_bytes_written_`. -/
theorem foldl_writeAndLocate_bytes (env : WriterEnv) :
    ∀ (pages : List CompressedDataPage) (w : ColumnWriterImpl),
      (pages.foldl (fun acc page => acc.writeAndLocate env page) w).total_bytes_written_
        = w.total_bytes_written_ + (pages.map fun page => env.headerSize page + page.size).sum := by
  intro pages
  induction pages with
  | nil => intro w; simp
  | cons page rest ih =>
    intro w
    rw [List.foldl_cons, ih]
    simp only [List.map_cons, List.sum_cons, ColumnWriterImpl.writeAndLocate,
      WriteDataPagesWithIndex]
    omega

/-- In dictionary mode `AddDataPage` buffers the page and writes no byte. -/
theorem AddDataPage_bytes (env : WriterEnv) (w : ColumnWriterImpl)
    (hmode : (w.has_dictionary_ && !w.fallback_) = true) :
    (w.AddDataPage env).total_bytes_written_ = w.total_bytes_written_ := by
  simp [ColumnWriterImpl.AddDataPage, hmode]

/-- In dictionary mode `AddDataPageWithIndex` buffers the page and writes no
byte. -/
theorem AddDataPageWithIndex_bytes (env : WriterEnv) (w r : ColumnWriterImpl)
    (hmode : (w.has_dictionary_ && !w.fallback_) = true)
    (h : w.AddDataPageWithIndex env = .ok r) :
    r.total_bytes_written_ = w.total_bytes_written_ := by
  unfold ColumnWriterImpl.AddDataPageWithIndex at h
  dsimp only at h
  obtain ⟨st, -, hst⟩ := (Outcome.bind_eq_ok _ _ _).mp h
  simp only [hmode, if_true, Outcome.ok.injEq] at hst
  subst hst
  rfl

/-- The bytes `FlushBufferedDataPages` adds to `total_bytes_written_` in
dictionary mode: those of every buffered page and of the page cut from the
open buffers. -/
theorem FlushBufferedDataPages_bytes (env : WriterEnv) (w : ColumnWriterImpl)
    (hmode : (w.has_dictionary_ && !w.fallback_) = true) :
    (w.FlushBufferedDataPages env).total_bytes_written_
      = w.total_bytes_written_ +
        ((w.data_pages_ ++ if w.num_buffered_values_ > 0 then [w.builtPage env] else []).map
          fun page => env.headerSize page + page.size).sum := by
  obtain ⟨-, -, -, -, a5, -⟩ := AddDataPage_spec env w
  obtain ⟨-, a6⟩ := a5 hmode
  have hb := AddDataPage_bytes env w hmode
  unfold ColumnWriterImpl.FlushBufferedDataPages
  dsimp only
  by_cases hbuf : w.num_buffered_values_ > 0
  · simp only [hbuf, if_true]
    rw [foldl_WriteDataPage_bytes env _ (w.AddDataPage env), a6, hb]
  · simp only [hbuf, if_false, List.append_nil]
    rw [foldl_WriteDataPage_bytes env _ w]

/-- The bytes `FlushBufferedDataPagesWithIndex` adds to `total_bytes_written_`
in dictionary mode. -/
theorem FlushBufferedDataPagesWithIndex_bytes (env : WriterEnv) (w r : ColumnWriterImpl)
    (hmode : (w.has_dictionary_ && !w.fallback_) = true)
    (h : w.FlushBufferedDataPagesWithIndex env = .ok r) :
    r.total_bytes_written_
      = w.total_bytes_written_ +
        ((w.data_pages_ ++ if w.num_buffered_values_ > 0 then [w.builtPage env] else []).map
          fun page => env.headerSize page + page.size).sum := by
  unfold ColumnWriterImpl.FlushBufferedDataPagesWithIndex at h
  dsimp only at h
  obtain ⟨w1, hw1, hr⟩ := (Outcome.bind_eq_ok _ _ _).mp h
  simp only [Outcome.ok.injEq] at hr
  subst hr
  have hfold := foldl_writeAndLocate_bytes env w1.data_pages_ w1
  by_cases hbuf : w.num_buffered_values_ > 0
  · simp only [hbuf, if_true] at hw1 ⊢
    obtain ⟨-, -, -, -, a5, -⟩ := AddDataPageWithIndex_spec env w w1 hw1
    obtain ⟨-, a6⟩ := a5 hmode
    have hb := AddDataPageWithIndex_bytes env w w1 hmode hw1
    show (List.foldl _ w1 w1.data_pages_).total_bytes_written_ = _
    rw [hfold, a6, hb]
  · simp only [hbuf, if_false, Outcome.ok.injEq] at hw1
    subst hw1
    simp only [hbuf, if_false, List.append_nil]
    exact hfold

/-- The bytes `CheckDictionarySizeLimit` adds to `total_bytes_written_` when
the dictionary is full: those of the dictionary page and of every data page
flushed. -/
theorem CheckDictionarySizeLimitOf_bytes (env : WriterEnv) (w r : ColumnWriterImpl)
    (with_index : Bool) (hmode : (w.has_dictionary_ && !w.fallback_) = true)
    (h : w.CheckDictionarySizeLimitOf env with_index true = .ok r) :
    r.total_bytes_written_
      = w.total_bytes_written_ + (env.dict_header_size + env.dict_size) +
        ((w.data_pages_ ++ if w.num_buffered_values_ > 0 then [w.builtPage env] else []).map
          fun page => env.headerSize page + page.size).sum := by
  unfold ColumnWriterImpl.CheckDictionarySizeLimitOf at h
  simp only [if_true] at h
  obtain ⟨w1, hw1, hr⟩ := (Outcome.bind_eq_ok _ _ _).mp h
  simp only [Outcome.ok.injEq] at hr
  subst hr
  have hmode0 : ((w.WriteDictionaryPage env).has_dictionary_ &&
      !(w.WriteDictionaryPage env).fallback_) = true := hmode
  have hdict : (w.WriteDictionaryPage env).total_bytes_written_
      = w.total_bytes_written_ + (env.dict_header_size + env.dict_size) := by
    simp only [ColumnWriterImpl.WriteDictionaryPage, SerializedPageWriter.WriteDictionaryPage]
    omega
  have hpages : (w.WriteDictionaryPage env).data_pages_ ++
      (if (w.WriteDictionaryPage env).num_buffered_values_ > 0 then
        [(w.WriteDictionaryPage env).builtPage env] else [])
      = w.data_pages_ ++ if w.num_buffered_values_ > 0 then [w.builtPage env] else [] := rfl
  cases with_index
  · simp only [Bool.not_false, if_true, Outcome.ok.injEq] at hw1
    subst hw1
    have hf := FlushBufferedDataPages_bytes env (w.WriteDictionaryPage env) hmode0
    rw [hpages, hdict] at hf
    exact hf
  · simp only [Bool.not_true, Bool.false_eq_true, if_false] at hw1
    have hf := FlushBufferedDataPagesWithIndex_bytes env (w.WriteDictionaryPage env) w1 hmode0 hw1
    rw [hpages, hdict] at hf
    exact hf

/-- C18: in dictionary mode (`has_dictionary_` set, `fallback_` clear),
for either value of the flag `with_index`: below the size limit
`CheckDictionarySizeLimit` leaves the writer as it is; at the limit, whenever
it returns, `fallback_` is true, `encoding_` is `PLAIN`, `data_pages_` is
empty, and the pager has received the dictionary page followed by every
buffered data page and the page cut from the open buffers, in order: the
dictionary page starts at the old stream position, which becomes
`dictionary_page_offset_` when that was 0, the stream has moved by the header
and payload of the dictionary page and of every data page, the pager totals
have grown by the dictionary page, and `total_bytes_written_` has grown by the
same bytes.  After any further run of `WriteMiniBatch` calls `fallback_` is
still true, `encoding_` still `PLAIN`, `data_pages_` still empty, and the pager
has received one page with encoding `PLAIN` for each call that cut a page, the
stream moving by their bytes.  Both steps return a result without index, and
with index whenever every page carries statistics the index can take (unset,
or a maximum of at least `PAGE_INDEX_MAX_STRING_LENGTH` bytes). -/
theorem dictionary_fallback (env : WriterEnv) (with_index : Bool) (w : ColumnWriterImpl)
    (hdict : w.has_dictionary_ = true) (hfb : w.fallback_ = false) :
    w.CheckDictionarySizeLimitOf env with_index false = .ok w ∧
    (∀ w1, w.CheckDictionarySizeLimitOf env with_index true = .ok w1 →
      w1.fallback_ = true ∧ w1.encoding_ = .PLAIN ∧ w1.data_pages_ = [] ∧
      w1.pager_ = pagerAfter with_index env.headerSize
        { w.pager_ with
          sink_pos := w.pager_.sink_pos + env.dict_header_size + env.dict_size
          dictionary_page_offset_ :=
            if w.pager_.dictionary_page_offset_ = 0 then w.pager_.sink_pos
            else w.pager_.dictionary_page_offset_
          total_uncompressed_size_ :=
            w.pager_.total_uncompressed_size_ + (env.dict_uncompressed_size + env.dict_header_size)
          total_compressed_size_ :=
            w.pager_.total_compressed_size_ + (env.dict_size + env.dict_header_size) }
        (w.data_pages_ ++ if w.num_buffered_values_ > 0 then [w.builtPage env] else []) ∧
      w1.pager_.sink_pos
        = w.pager_.sink_pos + env.dict_header_size + env.dict_size +
          ((w.data_pages_ ++ if w.num_buffered_values_ > 0 then [w.builtPage env] else []).map
            fun page => env.headerSize page + page.size).sum ∧
      w1.pager_.dictionary_page_offset_
        = (if w.pager_.dictionary_page_offset_ = 0 then w.pager_.sink_pos
           else w.pager_.dictionary_page_offset_) ∧
      w1.total_bytes_written_
        = w.total_bytes_written_ + (env.dict_header_size + env.dict_size) +
          ((w.data_pages_ ++ if w.num_buffered_values_ > 0 then [w.builtPage env] else []).map
            fun page => env.headerSize page + page.size).sum ∧
      ∀ batches w2, w1.writeMiniBatches env with_index batches = .ok w2 →
        w2.fallback_ = true ∧ w2.encoding_ = .PLAIN ∧ w2.data_pages_ = [] ∧
        ∃ pages : List CompressedDataPage,
          pages.length = (batches.filter (fun b => b.page_full)).length ∧
          (∀ p ∈ pages, p.encoding = .PLAIN) ∧
          w2.pager_ = pagerAfter with_index env.headerSize w1.pager_ pages ∧
          w2.pager_.sink_pos
            = w1.pager_.sink_pos + (pages.map fun page => env.headerSize page + page.size).sum) ∧
    ((with_index = true → ∀ k, (env.build k).page_stats.is_set = true →
        PAGE_INDEX_MAX_STRING_LENGTH ≤ (env.build k).page_stats.max.length) →
      ∃ w1, w.CheckDictionarySizeLimitOf env with_index true = .ok w1 ∧
        ∀ batches, ∃ w2, w1.writeMiniBatches env with_index batches = .ok w2) := by
  have hmode : (w.has_dictionary_ && !w.fallback_) = true := by simp [hdict, hfb]
  refine ⟨rfl, ?_, ?_⟩
  · intro w1 h1
    obtain ⟨c1, c2, c3, -, c5⟩ := CheckDictionarySizeLimitOf_spec env w w1 with_index hmode h1
    have c6 : w1.pager_ = pagerAfter with_index env.headerSize
        { w.pager_ with
          sink_pos := w.pager_.sink_pos + env.dict_header_size + env.dict_size
          dictionary_page_offset_ :=
            if w.pager_.dictionary_page_offset_ = 0 then w.pager_.sink_pos
            else w.pager_.dictionary_page_offset_
          total_uncompressed_size_ :=
            w.pager_.total_uncompressed_size_ + (env.dict_uncompressed_size + env.dict_header_size)
          total_compressed_size_ :=
            w.pager_.total_compressed_size_ + (env.dict_size + env.dict_header_size) }
        (w.data_pages_ ++ if w.num_buffered_values_ > 0 then [w.builtPage env] else []) := c5
    refine ⟨c1, c2, c3, c6, ?_, ?_, CheckDictionarySizeLimitOf_bytes env w w1 with_index hmode h1,
      ?_⟩
    · rw [c6, pagerAfter_sink_pos]
    · rw [c6, pagerAfter_dictionary_page_offset]
    · intro batches w2 h2
      obtain ⟨r1, r2, r3, pages, r4, r5, r6⟩ :=
        writeMiniBatches_fallback env with_index batches w1 w2 c1 c3 h2
      refine ⟨r1, r2.trans c2, r3, pages, r4, fun p hp => (r5 p hp).trans c2, r6, ?_⟩
      rw [r6, pagerAfter_sink_pos]
  · intro hstats
    obtain ⟨w1, h1⟩ := CheckDictionarySizeLimitOf_total env w with_index true hstats
    exact ⟨w1, h1, fun batches => writeMiniBatches_total env with_index hstats batches w1⟩

/-- Witness of `dictionary_fallback`: a writer with index at stream position 4
that holds one buffered page and two buffered values; the dictionary page of
10 + 30 bytes and two data pages of 20 + 70 bytes move the stream to 224. -/
theorem dictionary_fallback_witness :
    exWriterDict.has_dictionary_ = true ∧ exWriterDict.fallback_ = false ∧
    (∃ w1, exWriterDict.CheckDictionarySizeLimitOf exEnvDict true true = .ok w1 ∧
      w1.pager_.sink_pos = 224 ∧ w1.pager_.dictionary_page_offset_ = 4 ∧
      w1.pager_.data_page_offset_ = 44 ∧ w1.total_bytes_written_ = 220 ∧
      w1.fallback_ = true ∧ w1.encoding_ = .PLAIN ∧ w1.data_pages_ = []) ∧
    (exWriterDict.CheckDictionarySizeLimitOf exEnvDict true false = .ok exWriterDict ∧
    (∀ w1, exWriterDict.CheckDictionarySizeLimitOf exEnvDict true true = .ok w1 →
      w1.fallback_ = true ∧ w1.encoding_ = .PLAIN ∧ w1.data_pages_ = [] ∧
      w1.pager_ = pagerAfter true exEnvDict.headerSize
        { exWriterDict.pager_ with
          sink_pos := exWriterDict.pager_.sink_pos + exEnvDict.dict_header_size
            + exEnvDict.dict_size
          dictionary_page_offset_ :=
            if exWriterDict.pager_.dictionary_page_offset_ = 0 then exWriterDict.pager_.sink_pos
            else exWriterDict.pager_.dictionary_page_offset_
          total_uncompressed_size_ :=
            exWriterDict.pager_.total_uncompressed_size_
              + (exEnvDict.dict_uncompressed_size + exEnvDict.dict_header_size)
          total_compressed_size_ :=
            exWriterDict.pager_.total_compressed_size_
              + (exEnvDict.dict_size + exEnvDict.dict_header_size) }
        (exWriterDict.data_pages_ ++
          if exWriterDict.num_buffered_values_ > 0 then [exWriterDict.builtPage exEnvDict]
          else []) ∧
      w1.pager_.sink_pos
        = exWriterDict.pager_.sink_pos + exEnvDict.dict_header_size + exEnvDict.dict_size +
          ((exWriterDict.data_pages_ ++
              if exWriterDict.num_buffered_values_ > 0 then [exWriterDict.builtPage exEnvDict]
              else []).map
            fun page => exEnvDict.headerSize page + page.size).sum ∧
      w1.pager_.dictionary_page_offset_
        = (if exWriterDict.pager_.dictionary_page_offset_ = 0 then exWriterDict.pager_.sink_pos
           else exWriterDict.pager_.dictionary_page_offset_) ∧
      w1.total_bytes_written_
        = exWriterDict.total_bytes_written_
          + (exEnvDict.dict_header_size + exEnvDict.dict_size) +
          ((exWriterDict.data_pages_ ++
              if exWriterDict.num_buffered_values_ > 0 then [exWriterDict.builtPage exEnvDict]
              else []).map
            fun page => exEnvDict.headerSize page + page.size).sum ∧
      ∀ batches w2, w1.writeMiniBatches exEnvDict true batches = .ok w2 →
        w2.fallback_ = true ∧ w2.encoding_ = .PLAIN ∧ w2.data_pages_ = [] ∧
        ∃ pages : List CompressedDataPage,
          pages.length = (batches.filter (fun b => b.page_full)).length ∧
          (∀ p ∈ pages, p.encoding = .PLAIN) ∧
          w2.pager_ = pagerAfter true exEnvDict.headerSize w1.pager_ pages ∧
          w2.pager_.sink_pos
            = w1.pager_.sink_pos
              + (pages.map fun page => exEnvDict.headerSize page + page.size).sum) ∧
    ((true = true → ∀ k, (exEnvDict.build k).page_stats.is_set = true →
        PAGE_INDEX_MAX_STRING_LENGTH ≤ (exEnvDict.build k).page_stats.max.length) →
      ∃ w1, exWriterDict.CheckDictionarySizeLimitOf exEnvDict true true = .ok w1 ∧
        ∀ batches, ∃ w2, w1.writeMiniBatches exEnvDict true batches = .ok w2)) :=
  ⟨by decide, by decide,
    ⟨_, rfl, by decide, by decide, by decide, by decide, by decide, by decide, by decide⟩,
    dictionary_fallback exEnvDict true exWriterDict (by decide) (by decide)⟩

/-! ## `isSorted` over the stored bytes (C14) -/

/-- The read through the cast pointer is the little-endian signed decoding of
the first bytes of the string. -/
theorem derefInt_eq (type_num : PhysicalType) (s : List Nat) (hbytes : ∀ b ∈ s, b < 256)
    (hw : type_num.width ≤ s.length) :
    derefInt type_num s = .ok (littleEndianSigned type_num.width s) := by
  cases type_num
  · match s, hw, hbytes with
    | a :: b :: c :: d :: rest, _, hbytes =>
      have ha : a < 256 := hbytes a (by simp)
      have hb : b < 256 := hbytes b (by simp)
      have hc : c < 256 := hbytes c (by simp)
      have hd : d < 256 := hbytes d (by simp)
      simp only [derefInt, PhysicalType.width, littleEndianSigned, List.cons_append,
        List.length_cons, List.take_succ_cons, List.take_zero, loadLE]
      have hr : List.range 4 = [0, 1, 2, 3] := by decide
      rw [hr]
      simp only [List.map_cons, List.map_nil, List.sum_cons, List.sum_nil, List.getD_cons_zero,
        List.getD_cons_succ]
      rw [if_neg (by omega)]
      simp only [Outcome.ok.injEq]
      unfold wrap32
      norm_num
      split <;> omega
  · match s, hw, hbytes with
    | a :: b :: c :: d :: e :: f :: g :: h :: rest, _, hbytes =>
      have ha : a < 256 := hbytes a (by simp)
      have hb : b < 256 := hbytes b (by simp)
      have hc : c < 256 := hbytes c (by simp)
      have hd : d < 256 := hbytes d (by simp)
      have he : e < 256 := hbytes e (by simp)
      have hf : f < 256 := hbytes f (by simp)
      have hg : g < 256 := hbytes g (by simp)
      have hh : h < 256 := hbytes h (by simp)
      simp only [derefInt, PhysicalType.width, littleEndianSigned, List.cons_append,
        List.length_cons, List.take_succ_cons, List.take_zero, loadLE]
      have hr : List.range 8 = [0, 1, 2, 3, 4, 5, 6, 7] := by decide
      rw [hr]
      simp only [List.map_cons, List.map_nil, List.sum_cons, List.sum_nil, List.getD_cons_zero,
        List.getD_cons_succ]
      rw [if_neg (by omega)]
      simp only [Outcome.ok.injEq]
      unfold wrap64
      norm_num
      split <;> omega

/-- The loop of `isSorted` returns, and returns true exactly when no minimum is
above its successor, given that the pairs before `itemindex` ascend. -/
theorem isSortedTypedLoop_spec (type_num : PhysicalType) (mins : List (List Nat))
    (hbytes : ∀ s ∈ mins, ∀ b ∈ s, b < 256)
    (hwidth : ∀ s ∈ mins, type_num.width ≤ s.length) :
    ∀ (fuel itemindex : Nat) (page_min_prev : List Nat), 1 ≤ itemindex →
      itemindex ≤ mins.length → mins.length ≤ itemindex + fuel →
      mins[itemindex - 1]? = some page_min_prev →
      (∀ (i : Nat) (a c : List Nat), i + 1 < itemindex → mins[i]? = some a →
        mins[i + 1]? = some c →
        littleEndianSigned type_num.width a ≤ littleEndianSigned type_num.width c) →
      ∃ b, isSortedTypedLoop type_num mins mins.length fuel itemindex page_min_prev = .ok b ∧
        (b = true ↔ ∀ (i : Nat) (a c : List Nat), mins[i]? = some a → mins[i + 1]? = some c →
          littleEndianSigned type_num.width a ≤ littleEndianSigned type_num.width c) := by
  have hdone : ∀ itemindex : Nat, ¬ itemindex < mins.length →
      (∀ (i : Nat) (a c : List Nat), i + 1 < itemindex → mins[i]? = some a →
        mins[i + 1]? = some c →
        littleEndianSigned type_num.width a ≤ littleEndianSigned type_num.width c) →
      (true = true ↔ ∀ (i : Nat) (a c : List Nat), mins[i]? = some a → mins[i + 1]? = some c →
          littleEndianSigned type_num.width a ≤ littleEndianSigned type_num.width c) := by
    intro itemindex hge hsorted
    refine ⟨fun _ i a c ha hc => ?_, fun _ => rfl⟩
    have hi : i + 1 < mins.length := by
      by_contra hcon
      rw [List.getElem?_eq_none (by omega)] at hc
      cases hc
    exact hsorted i a c (by omega) ha hc
  intro fuel
  induction fuel with
  | zero =>
    intro itemindex prev h1 hle hfuel hprev hsorted
    have hge : ¬ itemindex < mins.length := by omega
    refine ⟨true, ?_, hdone itemindex hge hsorted⟩
    simp only [isSortedTypedLoop, hge, if_false]
  | succ fuel ih =>
    intro itemindex prev h1 hle hfuel hprev hsorted
    by_cases hlt : itemindex < mins.length
    · obtain ⟨curr, hcurr⟩ : ∃ c, mins[itemindex]? = some c :=
        ⟨_, List.getElem?_eq_getElem hlt⟩
      have hpm := List.getElem?_mem hprev
      have hcm := List.getElem?_mem hcurr
      have hdp := derefInt_eq type_num prev (hbytes prev hpm) (hwidth prev hpm)
      have hdc := derefInt_eq type_num curr (hbytes curr hcm) (hwidth curr hcm)
      unfold isSortedTypedLoop
      simp only [hlt, if_true, hcurr, hdp, hdc, Outcome.bind]
      by_cases hcmp : littleEndianSigned type_num.width prev
          ≤ littleEndianSigned type_num.width curr
      · simp only [hcmp, if_true]
        refine ih (itemindex + 1) curr (by omega) (by omega) (by omega) ?_ ?_
        · simpa using hcurr
        · intro i a c hi ha hc
          by_cases hi2 : i + 1 < itemindex
          · exact hsorted i a c hi2 ha hc
          · have hie : i = itemindex - 1 := by omega
            have hie2 : i + 1 = itemindex := by omega
            rw [hie, hprev] at ha
            rw [hie2, hcurr] at hc
            cases ha
            cases hc
            exact hcmp
      · simp only [hcmp, if_false]
        refine ⟨false, rfl, ?_⟩
        constructor
        · intro h; cases h
        · intro hall
          exfalso
          apply hcmp
          have hcurr2 : mins[itemindex - 1 + 1]? = some curr := by
            rw [Nat.sub_add_cancel h1]; exact hcurr
          exact hall (itemindex - 1) prev curr hprev hcurr2
    · refine ⟨true, ?_, hdone itemindex hlt hsorted⟩
      unfold isSortedTypedLoop
      simp only [hlt, if_false]

/-- C14: for an INT32 or INT64 chunk with `n ≥ 1` pages, `min_values`
and `page_locations` both of length `n` and every minimum stored in at least
the width of the column type, `isSorted` returns, and it returns true exactly
when the minima, decoded as little-endian signed integers of that width, do
not decrease from any page to the next. -/
theorem isSorted_iff_minima_ascend (type_num : PhysicalType)
    (col_index : ColumnIndex (List Nat)) (offset_index : OffsetIndex) (n : Nat)
    (hn : 1 ≤ n) (hmins : col_index.min_values.length = n)
    (hlocs : offset_index.page_locations.length = n)
    (hbytes : ∀ s ∈ col_index.min_values, ∀ b ∈ s, b < 256)
    (hwidth : ∀ s ∈ col_index.min_values, type_num.width ≤ s.length) :
    ∃ b, isSortedTyped type_num col_index offset_index = .ok b ∧
      (b = true ↔ ∀ (i : Nat) (a c : List Nat), i + 1 < n →
        col_index.min_values[i]? = some a → col_index.min_values[i + 1]? = some c →
        littleEndianSigned type_num.width a ≤ littleEndianSigned type_num.width c) := by
  obtain ⟨p0, hp0⟩ : ∃ p, col_index.min_values[0]? = some p :=
    ⟨_, List.getElem?_eq_getElem (by omega)⟩
  obtain ⟨b, hb, hiff⟩ := isSortedTypedLoop_spec type_num col_index.min_values hbytes hwidth
    n 1 p0 (Nat.le_refl 1) (by omega) (by omega) hp0 (fun i a c hi _ _ => by omega)
  refine ⟨b, ?_, ?_⟩
  · unfold isSortedTyped
    simp only [hp0, hlocs]
    rw [hmins] at hb
    exact hb
  · rw [hiff]
    constructor
    · intro h i a c _ ha hc
      exact h i a c ha hc
    · intro h i a c ha hc
      have hi : i + 1 < n := by
        by_contra hcon
        rw [List.getElem?_eq_none (by omega)] at hc
        cases hc
      exact h i a c hi ha hc

/-- Witness of `isSorted_iff_minima_ascend`: the INT32 minima `-2`, `3`, `3`,
`1000`. -/
theorem isSorted_iff_minima_ascend_witness :
    1 ≤ 4 ∧ exMinsLE.min_values.length = 4 ∧ exOffLE.page_locations.length = 4 ∧
    ∃ b, isSortedTyped .INT32 exMinsLE exOffLE = .ok b ∧
      (b = true ↔ ∀ (i : Nat) (a c : List Nat), i + 1 < 4 →
        exMinsLE.min_values[i]? = some a → exMinsLE.min_values[i + 1]? = some c →
        littleEndianSigned PhysicalType.INT32.width a
          ≤ littleEndianSigned PhysicalType.INT32.width c) :=
  ⟨by decide, by decide, by decide,
    isSorted_iff_minima_ascend .INT32 exMinsLE exOffLE 4 (by decide) (by decide) (by decide)
      (by decide) (by decide)⟩

/-! ## The scan after the lookup (C11, C20) -/

theorem wrap32_add_wrap32 (x y : Int) : wrap32 (wrap32 x + y) = wrap32 (x + y) := by
  unfold wrap32
  omega

theorem wrap32_of_range (x : Int) (h0 : -(2 ^ 31) ≤ x) (h1 : x < 2 ^ 31) : wrap32 x = x := by
  unfold wrap32
  omega

/-- A scan over rows none of which makes `printVal` return true reads every
row from its start to the end of the chunk. -/
theorem scanLoop_no_match (rows : List Int) (equal_to predicate : Int)
    (hno : ∀ x ∈ rows, printVal equal_to true (some x) predicate = .ok false) :
    ∀ (fuel pos : Nat) (ind : Int) (examined : List Nat), pos < rows.length →
      rows.length - pos ≤ fuel →
      scanLoop rows equal_to predicate fuel pos ind examined
        = .ok { examined := examined ++ List.range' pos (rows.length - pos), printed := none,
                ind := wrap32 (ind + ((rows.length - pos : Nat) : Int)), pos := rows.length } := by
  intro fuel
  induction fuel with
  | zero => intro pos ind examined hpos hfuel; omega
  | succ fuel ih =>
    intro pos ind examined hpos hfuel
    obtain ⟨x, hx⟩ : ∃ x, rows[pos]? = some x := ⟨_, List.getElem?_eq_getElem hpos⟩
    have hp := hno x (List.getElem?_mem hx)
    unfold scanLoop
    simp only [hx, hp, Outcome.bind, hpos, if_true, Bool.false_eq_true, if_false]
    by_cases hnext : pos + 1 < rows.length
    · simp only [hnext, if_true]
      rw [ih (pos + 1) _ _ hnext (by omega), wrap32_add_wrap32]
      have hsplit : rows.length - pos = (rows.length - (pos + 1)) + 1 := by omega
      have hr : List.range' pos (rows.length - pos)
          = pos :: List.range' (pos + 1) (rows.length - (pos + 1)) := by
        rw [hsplit, List.range'_succ]
      rw [hr, List.append_assoc, List.singleton_append]
      have hcast : ind + 1 + ((rows.length - (pos + 1) : Nat) : Int)
          = ind + ((rows.length - pos : Nat) : Int) := by omega
      rw [hcast]
    · simp only [hnext, if_false]
      have hlen : rows.length - pos = 1 := by omega
      have hpos1 : pos + 1 = rows.length := by omega
      rw [hlen, hpos1]
      rfl

/-- A scan that starts at or before the first row that makes `printVal`
return true reads up to that row and prints it. -/
theorem scanLoop_match (rows : List Int) (equal_to predicate : Int) (j : Nat) (x : Int)
    (hj : rows[j]? = some x) (hmatch : printVal equal_to true (some x) predicate = .ok true)
    (hbefore : ∀ (k : Nat) (y : Int), k < j → rows[k]? = some y →
      printVal equal_to true (some y) predicate = .ok false) :
    ∀ (fuel pos : Nat) (ind : Int) (examined : List Nat), pos ≤ j → j - pos < fuel →
      scanLoop rows equal_to predicate fuel pos ind examined
        = .ok { examined := examined ++ List.range' pos (j - pos + 1),
                printed := some (wrap32 (ind + ((j - pos + 1 : Nat) : Int)), x),
                ind := wrap32 (ind + ((j - pos + 1 : Nat) : Int)), pos := j + 1 } := by
  have hjlen : j < rows.length := (List.getElem?_eq_some_iff.mp hj).1
  intro fuel
  induction fuel with
  | zero => intro pos ind examined hpos hfuel; omega
  | succ fuel ih =>
    intro pos ind examined hpos hfuel
    have hplen : pos < rows.length := by omega
    by_cases hpj : pos = j
    · subst hpj
      unfold scanLoop
      simp only [hj, hmatch, Outcome.bind, hplen, if_true, Option.map_some', Nat.sub_self,
        Nat.zero_add]
      rfl
    · have hlt : pos < j := by omega
      obtain ⟨y, hy⟩ : ∃ y, rows[pos]? = some y := ⟨_, List.getElem?_eq_getElem hplen⟩
      have hp := hbefore pos y hlt hy
      have hnext : pos + 1 < rows.length := by omega
      unfold scanLoop
      simp only [hy, hp, Outcome.bind, hplen, if_true, Bool.false_eq_true, if_false, hnext]
      rw [ih (pos + 1) _ _ (by omega) (by omega), wrap32_add_wrap32]
      have hsplit : j - pos + 1 = (j - (pos + 1) + 1) + 1 := by omega
      have hr : List.range' pos (j - pos + 1)
          = pos :: List.range' (pos + 1) (j - (pos + 1) + 1) := by
        rw [hsplit, List.range'_succ]
      rw [hr, List.append_assoc, List.singleton_append]
      have hcast : ind + 1 + ((j - (pos + 1) + 1 : Nat) : Int)
          = ind + ((j - pos + 1 : Nat) : Int) := by omega
      rw [hcast]

theorem isSortedLoop_of_pairwise (mins : List Int) (size : Nat)
    (hsorted : mins.Pairwise (fun a b => a ≤ b)) (hsize : size ≤ mins.length) :
    ∀ (fuel itemindex : Nat) (page_min_prev : Int), 1 ≤ itemindex →
      mins[itemindex - 1]? = some page_min_prev → size ≤ itemindex + fuel →
      isSortedLoop mins size fuel itemindex page_min_prev = .ok true := by
  intro fuel
  induction fuel with
  | zero =>
    intro itemindex prev h1 hprev hfuel
    have hge : ¬ itemindex < size := by omega
    simp only [isSortedLoop, hge, if_false]
  | succ fuel ih =>
    intro itemindex prev h1 hprev hfuel
    unfold isSortedLoop
    by_cases hlt : itemindex < size
    · obtain ⟨curr, hcurr⟩ : ∃ c, mins[itemindex]? = some c :=
        ⟨_, List.getElem?_eq_getElem (by omega)⟩
      have hle : prev ≤ curr :=
        pairwise_le_getElem_opt mins hsorted (itemindex - 1) itemindex prev curr (by omega)
          hprev hcurr
      simp only [hlt, if_true, hcurr, hle]
      exact ih (itemindex + 1) curr (by omega) (by simpa using hcurr) (by omega)
    · simp only [hlt, if_false]

/-- Function `isSorted` returns true on ascending minima. -/
theorem isSorted_of_pairwise (col_index : ColumnIndex Int) (offset_index : OffsetIndex)
    (hsorted : col_index.min_values.Pairwise (fun a b => a ≤ b))
    (h1 : 1 ≤ offset_index.page_locations.length)
    (hmin : offset_index.page_locations.length ≤ col_index.min_values.length) :
    isSorted col_index offset_index = .ok true := by
  obtain ⟨p0, hp0⟩ : ∃ p, col_index.min_values[0]? = some p :=
    ⟨_, List.getElem?_eq_getElem (by omega)⟩
  unfold isSorted
  simp only [hp0]
  exact isSortedLoop_of_pairwise col_index.min_values _ hsorted hmin _ 1 p0 (Nat.le_refl 1)
    hp0 (by omega)

/-- The lookup of `first_pass_for_predicate_only` on a sorted chunk, by linear
scan and without filters: the scan starts at the first row of the last page
whose range holds `v`. -/
theorem first_pass_linear_lookup (fuel : Nat) (blf : Int → Bool)
    (loadPageFilter : Int → Int → Bool) (v : Int) (col_index : ColumnIndex Int)
    (offset_index : OffsetIndex) (i : Nat) (a b : Int) (loc : PageLocation)
    (hsorted : col_index.min_values.Pairwise (fun a b => a ≤ b))
    (hlen : offset_index.page_locations.length < 2 ^ 63)
    (hmin : offset_index.page_locations.length ≤ col_index.min_values.length)
    (hmax : offset_index.page_locations.length ≤ col_index.max_values.length)
    (hloc : offset_index.page_locations[i]? = some loc)
    (hia : col_index.min_values[i]? = some a) (hib : col_index.max_values[i]? = some b)
    (ha : a ≤ v) (hb : v ≤ b)
    (hlast : ∀ k a1 b1, i < k → col_index.min_values[k]? = some a1 →
      col_index.max_values[k]? = some b1 → ¬ (a1 ≤ v ∧ v ≤ b1))
    (hrow : loc.first_row_index ≠ -1) :
    first_pass_for_predicate_only fuel blf loadPageFilter col_index offset_index v
      false false false = .ok (.scanFrom loc.first_row_index) := by
  have hi : i < offset_index.page_locations.length :=
    (List.getElem?_eq_some_iff.mp hloc).1
  have hidx : (offset_index.page_locations.length + U64 - 1) % U64
      = offset_index.page_locations.length - 1 := by
    unfold U64
    omega
  obtain ⟨last, hlastloc⟩ : ∃ l,
      offset_index.page_locations[offset_index.page_locations.length - 1]? = some l :=
    ⟨_, List.getElem?_eq_getElem (by omega)⟩
  have hs := isSorted_of_pairwise col_index offset_index hsorted (by omega) hmin
  have hg := GetPageIndex_linear_spec fuel blf loadPageFilter v (-1) col_index offset_index
    true 0 i a b loc hmin hmax hloc hia hib ha hb hlast
  unfold first_pass_for_predicate_only GetColumnPageReaderWithIndex
  simp only [hidx, hlastloc, hs, Outcome.bind, if_true, hg, List.length_nil, hrow, ne_eq,
    not_false_eq_true]

/-- C11 as stated fails: on the sorted pages `[1,3]`, `[5,7]`, `[10,12]`, three
rows each, the LT query for `v = 8` decodes the rows 3 to 8 only; row 0 holds
`1 < 8` in a page of minimum `1 < 8` and is not examined. -/
theorem lt_scan_skips_earlier_page_counterexample :
    isSorted exColC exOffC = .ok true ∧
    exColC.min_values[0]? = some 1 ∧ exRowsC[0]? = some 1 ∧ (1 : Int) < 8 ∧
    first_pass_scan 8 (fun _ => true) (fun _ _ => true) exColC exOffC exRowsC 8 (-1)
        true false false
      = .ok (.scanned { examined := [3, 4, 5, 6, 7, 8], printed := none, ind := 9, pos := 9 }) ∧
    0 ∉ [3, 4, 5, 6, 7, 8] := by
  decide

/-- C11, amended: for a sorted INT32 chunk and an LT predicate `v`
(`equal_to = -1`), the lookup does not see the comparator; whenever it selects
a starting row `f` inside the chunk, the reader decodes exactly the rows from
`f` to the end of the chunk, in order, and reports no match, so no row before
`f` is examined whatever the minimum of its page; without page filters `f` is
the `first_row_index` of a page of the offset index. -/
theorem lt_scan_from_selected_row (fuel : Nat) (blf : Int → Bool)
    (loadPageFilter : Int → Int → Bool) (col_index : ColumnIndex Int)
    (offset_index : OffsetIndex) (rows : List Int) (v : Int)
    (binary_search with_bloom_filter with_page_bf : Bool) (f : Int)
    (hsorted : isSorted col_index offset_index = .ok true)
    (hlookup : first_pass_for_predicate_only fuel blf loadPageFilter col_index offset_index v
      binary_search with_bloom_filter with_page_bf = .ok (.scanFrom f))
    (hf0 : 0 ≤ f) (hf : f < rows.length) (hrows : rows.length < 2 ^ 31) :
    first_pass_scan fuel blf loadPageFilter col_index offset_index rows v (-1)
        binary_search with_bloom_filter with_page_bf
      = .ok (.scanned { examined := List.range' f.toNat (rows.length - f.toNat),
                        printed := none, ind := rows.length, pos := rows.length }) ∧
    (with_page_bf = false → ∃ loc ∈ offset_index.page_locations, f = loc.first_row_index) := by
  constructor
  · have hskip : readerSkip rows 0 f = f.toNat := by
      unfold readerSkip
      omega
    have hno : ∀ x ∈ rows, printVal (-1) true (some x) v = .ok false := by
      intro x _
      simp [printVal]
    have hscan := scanLoop_no_match rows (-1) v hno (rows.length + 1) f.toNat (wrap32 f) []
      (by omega) (by omega)
    have hind : wrap32 (wrap32 f + ((rows.length - f.toNat : Nat) : Int)) = rows.length := by
      rw [wrap32_add_wrap32]
      have hcast : f + ((rows.length - f.toNat : Nat) : Int) = rows.length := by omega
      rw [hcast]
      exact wrap32_of_range _ (by omega) (by exact_mod_cast hrows)
    unfold first_pass_scan
    simp only [hlookup, Outcome.bind, hskip, hscan, hind, List.nil_append]
  · intro hpbf
    subst hpbf
    unfold first_pass_for_predicate_only GetColumnPageReaderWithIndex at hlookup
    dsimp only at hlookup
    split at hlookup
    · simp [Outcome.bind] at hlookup
    · simp only [hsorted, Outcome.bind, if_true] at hlookup
      cases hg : GetPageIndex fuel blf loadPageFilter v (-1) col_index offset_index true
          binary_search 0 with_bloom_filter false with
      | ok r =>
        simp only [hg, List.length_nil, if_true] at hlookup
        split at hlookup
        · simp only [Outcome.ok.injEq, Report.scanFrom.injEq] at hlookup
          rcases GetPageIndex_row_index _ _ _ _ _ _ _ _ _ _ _ _ r hg with
            ⟨h1, -, -⟩ | ⟨_, _, -, h2, -⟩ | h3
          · omega
          · cases h2
          · rw [← hlookup]
            exact h3
        · simp at hlookup
      | outOfBounds => simp [hg] at hlookup
      | outOfFuel => simp [hg] at hlookup

/-- Witness of `lt_scan_from_selected_row`: the LT query for `v = 8` on the
pages `[1,3]`, `[5,7]`, `[10,12]`, where the lookup selects row 3. -/
theorem lt_scan_from_selected_row_witness :
    isSorted exColC exOffC = .ok true ∧
    first_pass_for_predicate_only 8 (fun _ => true) (fun _ _ => true) exColC exOffC 8
      true false false = .ok (.scanFrom 3) ∧
    (0 : Int) ≤ 3 ∧ (3 : Int) < exRowsC.length ∧ exRowsC.length < 2 ^ 31 ∧
    (first_pass_scan 8 (fun _ => true) (fun _ _ => true) exColC exOffC exRowsC 8 (-1)
        true false false
      = .ok (.scanned { examined := List.range' (3 : Int).toNat
                          (exRowsC.length - (3 : Int).toNat),
                        printed := none, ind := exRowsC.length, pos := exRowsC.length }) ∧
    (false = false → ∃ loc ∈ exOffC.page_locations, (3 : Int) = loc.first_row_index)) :=
  ⟨by decide, by decide, by decide, by decide, by decide,
    lt_scan_from_selected_row 8 (fun _ => true) (fun _ _ => true) exColC exOffC exRowsC 8
      true false false 3 (by decide) (by decide) (by decide) (by decide) (by decide)⟩

/-- C20 as stated fails: for `n = 20` and `v = 7` the scan prints row number 8
beside the value 7, not row index 7. -/
theorem eq_scan_row_number_counterexample :
    first_pass_scan 8 (fun _ => true) (fun _ _ => true) exCol20 exOff20 (rowNumberColumn 20)
        7 0 true false false
      = .ok (.scanned { examined := [0, 1, 2, 3, 4, 5, 6, 7], printed := some (8, 7),
                        ind := 8, pos := 8 }) := by
  decide

/-- C20, amended: for a required INT32 column holding the value `i` in
row `i` for `i` in `[0, n)`, `n < 2^31`, and an EQ query for `v < n`, whenever
the lookup selects a starting row `f` with `0 ≤ f ≤ v`, the scan decodes the
rows `f` to `v` and reports the match with row value `v` and row number
`v + 1`: the counter `ind` starts at `f` and is incremented before each read,
so it counts rows from one. -/
theorem eq_scan_reports_row_number (fuel : Nat) (blf : Int → Bool)
    (loadPageFilter : Int → Int → Bool) (col_index : ColumnIndex Int)
    (offset_index : OffsetIndex) (n v : Nat)
    (binary_search with_bloom_filter with_page_bf : Bool) (f : Int)
    (hlookup : first_pass_for_predicate_only fuel blf loadPageFilter col_index offset_index v
      binary_search with_bloom_filter with_page_bf = .ok (.scanFrom f))
    (hf0 : 0 ≤ f) (hfv : f ≤ v) (hvn : v < n) (hn : n < 2 ^ 31) :
    first_pass_scan fuel blf loadPageFilter col_index offset_index (rowNumberColumn n) v 0
        binary_search with_bloom_filter with_page_bf
      = .ok (.scanned { examined := List.range' f.toNat (v - f.toNat + 1),
                        printed := some ((v : Int) + 1, (v : Int)),
                        ind := (v : Int) + 1, pos := v + 1 }) := by
  have hlen : (rowNumberColumn n).length = n := by simp [rowNumberColumn]
  have hget : ∀ (k : Nat) (y : Int), (rowNumberColumn n)[k]? = some y → y = (k : Int) := by
    intro k y hk
    have hkn : k < n := by
      by_contra hcon
      rw [List.getElem?_eq_none (by rw [hlen]; omega)] at hk
      cases hk
    simp only [rowNumberColumn, List.getElem?_map, List.getElem?_range hkn, Option.map_some',
      Option.some.injEq] at hk
    rw [← hk]
    rfl
  have hv : (rowNumberColumn n)[v]? = some (v : Int) := by
    simp only [rowNumberColumn, List.getElem?_map, List.getElem?_range hvn, Option.map_some']
    rfl
  have hskip : readerSkip (rowNumberColumn n) 0 f = f.toNat := by
    unfold readerSkip
    rw [hlen]
    omega
  have hmatch : printVal 0 true (some (v : Int)) (v : Int) = .ok true := by
    simp [printVal]
  have hbefore : ∀ (k : Nat) (y : Int), k < v → (rowNumberColumn n)[k]? = some y →
      printVal 0 true (some y) (v : Int) = .ok false := by
    intro k y hk hy
    have hyk := hget k y hy
    subst hyk
    have hne : ¬ ((k : Int) = (v : Int)) := by omega
    simp [printVal, hne]
  have hscan := scanLoop_match (rowNumberColumn n) 0 v v v hv hmatch hbefore
    ((rowNumberColumn n).length + 1) f.toNat (wrap32 f) [] (by omega) (by rw [hlen]; omega)
  have hind : wrap32 (wrap32 f + ((v - f.toNat + 1 : Nat) : Int)) = (v : Int) + 1 := by
    rw [wrap32_add_wrap32]
    have hcast : f + ((v - f.toNat + 1 : Nat) : Int) = (v : Int) + 1 := by omega
    rw [hcast]
    exact wrap32_of_range _ (by omega) (by omega)
  unfold first_pass_scan
  simp only [hlookup, Outcome.bind, hskip, hscan, hind, List.nil_append]

/-- Witness of `eq_scan_reports_row_number`: `n = 20` and `v = 7` on a chunk of
one page. -/
theorem eq_scan_reports_row_number_witness :
    first_pass_for_predicate_only 8 (fun _ => true) (fun _ _ => true) exCol20 exOff20
      ((7 : Nat) : Int) true false false = .ok (.scanFrom 0) ∧
    (0 : Int) ≤ 0 ∧ (0 : Int) ≤ ((7 : Nat) : Int) ∧ 7 < 20 ∧ 20 < 2 ^ 31 ∧
    first_pass_scan 8 (fun _ => true) (fun _ _ => true) exCol20 exOff20 (rowNumberColumn 20)
        ((7 : Nat) : Int) 0 true false false
      = .ok (.scanned { examined := List.range' (0 : Int).toNat (7 - (0 : Int).toNat + 1),
                        printed := some (((7 : Nat) : Int) + 1, ((7 : Nat) : Int)),
                        ind := ((7 : Nat) : Int) + 1, pos := 7 + 1 }) :=
  ⟨by decide, by decide, by decide, by decide, by decide,
    eq_scan_reports_row_number 8 (fun _ => true) (fun _ _ => true) exCol20 exOff20 20 7
      true false false 0 (by decide) (by decide) (by decide) (by decide) (by decide)⟩

/-! ## Cost, termination and bounds of the binary search (C21, C28, C29) -/

/-- One iteration of the binary search: while `begin_index <= last_index` the
loop goes on from the state the body leaves. -/
theorem binarySearchLoop_succ (min_values : List Int) (v : Int) (fuel : Nat)
    (s s1 : SearchState) (hle : s.begin_index ≤ s.last_index)
    (hstep : binarySearchStep min_values v s = .ok s1) :
    binarySearchLoop min_values v (fuel + 1) s = binarySearchLoop min_values v fuel s1 := by
  rw [binarySearchLoop]
  simp only [hle, if_true, hstep]

/-- The binary search for `v = 85` on the minima `10, 20, .., 80` moves
`begin_index` from 0 to 8 in eight iterations. -/
theorem binarySearchLoop_eight_pages :
    binarySearchLoop [10, 20, 30, 40, 50, 60, 70, 80] 85 8
        { begin_index := 0, last_index := 7, itemindex := 3, count_pages_scanned := 0 }
      = .ok { begin_index := 8, last_index := 7, itemindex := 7,
              count_pages_scanned := 8 } := by
  rw [binarySearchLoop_succ _ _ _ _ ({ begin_index := 1, last_index := 7, itemindex := 3, count_pages_scanned := 1 })
    (by decide) (by decide)]
  rw [binarySearchLoop_succ _ _ _ _ ({ begin_index := 2, last_index := 7, itemindex := 4, count_pages_scanned := 2 })
    (by decide) (by decide)]
  rw [binarySearchLoop_succ _ _ _ _ ({ begin_index := 3, last_index := 7, itemindex := 4, count_pages_scanned := 3 })
    (by decide) (by decide)]
  rw [binarySearchLoop_succ _ _ _ _ ({ begin_index := 4, last_index := 7, itemindex := 5, count_pages_scanned := 4 })
    (by decide) (by decide)]
  rw [binarySearchLoop_succ _ _ _ _ ({ begin_index := 5, last_index := 7, itemindex := 5, count_pages_scanned := 5 })
    (by decide) (by decide)]
  rw [binarySearchLoop_succ _ _ _ _ ({ begin_index := 6, last_index := 7, itemindex := 6, count_pages_scanned := 6 })
    (by decide) (by decide)]
  rw [binarySearchLoop_succ _ _ _ _ ({ begin_index := 7, last_index := 7, itemindex := 6, count_pages_scanned := 7 })
    (by decide) (by decide)]
  rw [binarySearchLoop_succ _ _ _ _ ({ begin_index := 8, last_index := 7, itemindex := 7, count_pages_scanned := 8 })
    (by decide) (by decide)]
  rfl

/-- The sorted overload without filter stages returns the page the selection
names, with the first row of that page. -/
theorem GetPageIndex_of_selectPage (fuel : Nat) (blf : Int → Bool)
    (loadPageFilter : Int → Int → Bool) (v min_index : Int) (col_index : ColumnIndex Int)
    (offset_index : OffsetIndex) (sorted with_binarysearch : Bool)
    (count_pages_scanned : Int) (sel : Int × Int) (loc : PageLocation)
    (hsel : selectPage fuel v min_index col_index offset_index sorted with_binarysearch
      count_pages_scanned = .ok sel)
    (hloc : vecAt offset_index.page_locations sel.1 = .ok loc) :
    GetPageIndex fuel blf loadPageFilter v min_index col_index offset_index sorted
        with_binarysearch count_pages_scanned false false
      = .ok { min_index := sel.1, row_index := loc.first_row_index,
              count_pages_scanned := sel.2 } := by
  unfold GetPageIndex
  simp only [Bool.false_and, Bool.false_eq_true, if_false, hsel, Outcome.bind, hloc]

/-- The selection of a sorted chunk of at least two pages with binary search
is the counter and the last probe of the loop. -/
theorem selectPage_of_binarySearchLoop (fuel : Nat) (v min_index : Int)
    (col_index : ColumnIndex Int) (offset_index : OffsetIndex) (count_pages_scanned : Int)
    (s : SearchState) (h2 : col_index.min_values.length ≥ 2)
    (hloop : binarySearchLoop col_index.min_values v fuel
      { begin_index := 0, last_index := col_index.min_values.length - 1,
        itemindex := (0 + (col_index.min_values.length - 1)) / 2,
        count_pages_scanned := count_pages_scanned } = .ok s) :
    selectPage fuel v min_index col_index offset_index true true count_pages_scanned
      = .ok ((s.itemindex : Int), s.count_pages_scanned) := by
  unfold selectPage
  simp only [Bool.and_self, if_true, h2, hloop, Outcome.bind]

/-- C21, the code at a failing input: on eight sorted pages with the minima
`10, 20, .., 80` the binary search for `v = 85` finishes on page 7 after
counting 8 entries, one for every page, while `ceil(log2(8)) + 1 = 4`: the
search probes the midpoint but moves `begin_index` and `last_index` by one
entry per iteration. -/
theorem binary_search_counts_every_page :
    isSorted exCol8 exOff8 = .ok true ∧
    GetPageIndex 8 (fun _ => true) (fun _ _ => true) 85 (-1) exCol8 exOff8 true true 0
        false false
      = .ok { min_index := 7, row_index := 70, count_pages_scanned := 8 } ∧
    Nat.clog 2 exCol8.min_values.length + 1 = 4 := by
  refine ⟨by decide, ?_, ?_⟩
  · have hsel := selectPage_of_binarySearchLoop 8 85 (-1) exCol8 exOff8 0 _ (by decide)
      binarySearchLoop_eight_pages
    exact GetPageIndex_of_selectPage 8 _ _ 85 (-1) exCol8 exOff8 true true 0 _
      { offset := 424, compressed_page_size := 60, first_row_index := 70 } hsel (by decide)
  · show Nat.clog 2 8 + 1 = 4
    have h : Nat.clog 2 8 = 3 := by
      have := Nat.clog_pow 2 3 (by decide)
      simpa using this
    rw [h]

/-- The body of the binary search leaves the state as it is when `v` equals
the minimum of the probed page `[1, ..]` of the chunk `[1, 5]`. -/
theorem binarySearchLoop_stalls : ∀ fuel : Nat,
    binarySearchLoop [1, 5] 1 fuel
      { begin_index := 0, last_index := 1, itemindex := 0, count_pages_scanned := 0 }
      = .outOfFuel := by
  intro fuel
  induction fuel with
  | zero => rfl
  | succ fuel ih =>
    unfold binarySearchLoop
    have hstep : binarySearchStep [1, 5] 1
        { begin_index := 0, last_index := 1, itemindex := 0, count_pages_scanned := 0 }
        = .ok { begin_index := 0, last_index := 1, itemindex := 0,
                count_pages_scanned := 0 } := by decide
    simp only [hstep]
    exact ih

/-- C28, the code at a failing input: on the sorted minima `[1, 5]` and
`v = 1`, the minimum of page 0, one execution of the loop body changes neither
`begin_index` nor `last_index`, so the condition `begin_index <= last_index`
holds for ever: the binary search returns for no number of iterations. -/
theorem binary_search_stalls_on_minimum :
    isSorted exColB exOffB = .ok true ∧
    binarySearchStep exColB.min_values 1
        { begin_index := 0, last_index := 1, itemindex := 0, count_pages_scanned := 0 }
      = .ok { begin_index := 0, last_index := 1, itemindex := 0, count_pages_scanned := 0 } ∧
    ∀ fuel : Nat,
      GetPageIndex fuel (fun _ => true) (fun _ _ => true) 1 (-1) exColB exOffB true true 0
        false false = .outOfFuel := by
  refine ⟨by decide, by decide, ?_⟩
  intro fuel
  have h := binarySearchLoop_stalls fuel
  unfold GetPageIndex selectPage
  simp only [exColB, Bool.and_self, Bool.false_and, Bool.false_eq_true, if_false, if_true,
    List.length_cons, List.length_nil]
  simp only [Nat.reduceAdd, Nat.reduceSub, ge_iff_le, Nat.le_refl, if_true, Nat.reduceDiv, h,
    Outcome.bind]

/-- C29, the code at a failing input: on the sorted minima `[1, 5]` and
`v = 0`, below every minimum, the second iteration decrements `last_index`
from 0 to `2^64 - 1`, the loop goes on, and the third probe reads
`min_values[9223372036854775807]`. -/
theorem binary_search_last_index_wraps :
    isSorted exColB exOffB = .ok true ∧
    binarySearchStep exColB.min_values 0
        { begin_index := 0, last_index := 0, itemindex := 0, count_pages_scanned := 1 }
      = .ok { begin_index := 0, last_index := 18446744073709551615, itemindex := 0,
              count_pages_scanned := 2 } ∧
    (0 + 18446744073709551615) % U64 / 2 = 9223372036854775807 ∧
    binarySearchStep exColB.min_values 0
        { begin_index := 0, last_index := 18446744073709551615, itemindex := 0,
          count_pages_scanned := 2 } = .outOfBounds ∧
    GetPageIndex 8 (fun _ => true) (fun _ _ => true) 0 (-1) exColB exOffB true true 0
        false false = .outOfBounds := by
  decide

/-! ## Page sizes and offsets the pager records (C22, C30) -/

/-- C22, the code at a failing input: a page of 100 payload bytes behind a
header of 20 bytes, written at position 4, occupies 120 bytes (the value
returned) and the next page starts at 124, but its `PageLocation` records
`compressed_page_size = 220`: the payload is counted twice. -/
theorem compressed_page_size_counts_payload_twice :
    (WriteDataPagesWithIndex (SerializedPageWriter.new 4)
        { size := 100, num_values := 5, encoding := .PLAIN, uncompressed_size := 100,
          statistics := { is_set := false, min := [], max := [], null_count := 0 } } 20).2
      = ({ offset := 4, compressed_page_size := 220, first_row_index := 0 }, 120) ∧
    (writePagesWithIndex (fun _ => 20) (SerializedPageWriter.new 4) exPagesTwo).2
      = [{ offset := 4, compressed_page_size := 220, first_row_index := 0 },
         { offset := 124, compressed_page_size := 120, first_row_index := 5 }] ∧
    (4 : Int) + 220 ≠ 124 := by
  decide

/-- C30, the code at a failing input: a pager whose stream starts at position
0 writes two pages; the first begins at 0, the second at 120.  After the first
page `data_page_offset_` is 0, which the test `data_page_offset_ == 0` takes
for unset, so the second page overwrites it with 120, through `WriteDataPage`
and through `WriteDataPagesWithIndex` alike. -/
theorem data_page_offset_reset_at_zero :
    (writePages (fun _ => 20) (SerializedPageWriter.new 0) (exPagesTwo.take 1)).data_page_offset_
      = 0 ∧
    (writePages (fun _ => 20) (SerializedPageWriter.new 0) exPagesTwo).data_page_offset_
      = 120 ∧
    (writePagesWithIndex (fun _ => 20) (SerializedPageWriter.new 0)
      exPagesTwo).1.data_page_offset_ = 120 ∧
    (writePagesWithIndex (fun _ => 20) (SerializedPageWriter.new 0) exPagesTwo).2
      = [{ offset := 0, compressed_page_size := 220, first_row_index := 0 },
         { offset := 120, compressed_page_size := 120, first_row_index := 5 }] := by
  decide

/-! ## The chunk filter stage (C23) -/

/-- C23: for an INT32 or INT64 predicate `v`, if `with_bloom_filter` is set and
the chunk filter answers that `v` is absent, `GetPageIndex` returns with
`row_index = -1` and with `min_index` and `count_pages_scanned` as they were on
entry, whatever the column index, the offset index and the other flags are. -/
theorem chunk_filter_rejects (type_num : PhysicalType) (fuel : Nat) (blf : Int → Bool)
    (loadPageFilter : Int → Int → Bool) (v min_index : Int) (col_index : ColumnIndex Int)
    (offset_index : OffsetIndex) (sorted with_binarysearch : Bool)
    (count_pages_scanned : Int) (with_page_bf : Bool) (hblf : blf v = false) :
    GetPageIndexTyped type_num fuel blf loadPageFilter v min_index col_index offset_index
        sorted with_binarysearch count_pages_scanned true with_page_bf
      = .ok { min_index := min_index, row_index := -1,
              count_pages_scanned := count_pages_scanned } := by
  cases type_num <;> simp [GetPageIndexTyped, GetPageIndex, hblf]

/-- Witness of `chunk_filter_rejects`: an INT64 query for 6 on the pages of
`exColC`, with a chunk filter that holds 5 only and the counter at 0. -/
theorem chunk_filter_rejects_witness :
    (fun x : Int => decide (x = 5)) 6 = false ∧
    GetPageIndexTyped .INT64 8 (fun x => decide (x = 5)) (fun _ _ => true) 6 (-1) exColC
        exOffC true true 0 true true
      = .ok { min_index := -1, row_index := -1, count_pages_scanned := 0 } :=
  ⟨by decide,
    chunk_filter_rejects .INT64 8 (fun x => decide (x = 5)) (fun _ _ => true) 6 (-1) exColC
      exOffC true true 0 true (by decide)⟩

/-! ## Presence of the page index (C27) -/

/-- C27: `HasPageIndex` returns false whenever `column_index_length` or
`offset_index_length` is 0; and for non-negative offsets and lengths whose sums
stay below `2^63` it returns true exactly when the two offsets and the two
lengths are all non-zero. -/
theorem HasPageIndex_iff (column_index_offset offset_index_offset column_index_length
    offset_index_length : Int) :
    ((column_index_length = 0 ∨ offset_index_length = 0) →
      HasPageIndex column_index_offset offset_index_offset column_index_length
        offset_index_length = false) ∧
    (0 ≤ column_index_offset → 0 ≤ offset_index_offset → 0 ≤ column_index_length →
      0 ≤ offset_index_length → column_index_offset + column_index_length < 2 ^ 63 →
      offset_index_offset + offset_index_length < 2 ^ 63 →
      (HasPageIndex column_index_offset offset_index_offset column_index_length
          offset_index_length = true ↔
        column_index_offset ≠ 0 ∧ column_index_length ≠ 0 ∧ offset_index_offset ≠ 0 ∧
          offset_index_length ≠ 0)) := by
  constructor
  · rintro (h | h)
    · simp [HasPageIndex, h]
    · simp [HasPageIndex, h]
  · intro h1 h2 h3 h4 h5 h6
    have hc : wrap64 (column_index_offset + column_index_length)
        = column_index_offset + column_index_length :=
      wrap64_of_range _ (by omega) h5
    have ho : wrap64 (offset_index_offset + offset_index_length)
        = offset_index_offset + offset_index_length :=
      wrap64_of_range _ (by omega) h6
    unfold HasPageIndex
    simp only [hc, ho, Bool.and_eq_true, decide_eq_true_eq]
    by_cases hco : column_index_offset = 0
    · simp [hco]
    · by_cases hcl : column_index_length = 0
      · simp [hcl]
      · by_cases hoo : offset_index_offset = 0
        · simp [hoo]
        · by_cases hol : offset_index_length = 0
          · simp [hol]
          · simp only [ne_eq, hco, not_false_eq_true, hcl, and_self, if_true, hoo, hol,
              iff_true]
            constructor <;> omega

/-- Witness of `HasPageIndex_iff`: a column index of 60 bytes at offset 1000
and an offset index of 40 bytes at offset 1060. -/
theorem HasPageIndex_iff_witness :
    HasPageIndex 1000 1060 60 40 = true ↔
      (1000 : Int) ≠ 0 ∧ (60 : Int) ≠ 0 ∧ (1060 : Int) ≠ 0 ∧ (40 : Int) ≠ 0 :=
  (HasPageIndex_iff 1000 1060 60 40).2 (by decide) (by decide) (by decide) (by decide)
    (by decide) (by decide)

/-! ## Values and nulls of a mini-batch (C25) -/

/-- The loop of the example writer stores one character per iteration. -/
theorem helloDigits_length : ∀ (fuel startnumber : Nat) (acc : List Nat),
    (helloDigits fuel startnumber acc).length = fuel + acc.length := by
  intro fuel
  induction fuel with
  | zero => intro startnumber acc; simp [helloDigits]
  | succ fuel ih =>
    intro startnumber acc
    unfold helloDigits
    rw [ih, List.length_cons]
    omega

/-- The two loops that fill `dest` write the padding and then the predicate
without its leading zeros. -/
theorem byteArrayKey_eq (FIXED_LENGTH : Nat) (predicate : List Nat)
    (hfit : (stripLeadingZeros predicate).length ≤ FIXED_LENGTH) :
    byteArrayKey FIXED_LENGTH predicate
      = .ok (List.replicate (FIXED_LENGTH - (stripLeadingZeros predicate).length) 48
          ++ stripLeadingZeros predicate) := by
  unfold byteArrayKey
  generalize stripLeadingZeros predicate = p at hfit ⊢
  have hlen : (List.replicate (FIXED_LENGTH - p.length) 48 ++ p).length = FIXED_LENGTH := by
    rw [List.length_append, List.length_replicate]; omega
  simp only [Nat.not_lt.mpr hfit, if_false, Outcome.ok.injEq]
  apply List.ext_getElem?
  intro i
  by_cases hi : i < FIXED_LENGTH
  · rw [List.getElem?_map, List.getElem?_range hi, Option.map_some']
    by_cases hpad : i < FIXED_LENGTH - p.length
    · rw [List.getElem?_append_left (by rw [List.length_replicate]; exact hpad)]
      simp only [hpad, if_true, List.getElem?_replicate, if_pos hpad]
    · rw [List.getElem?_append_right (by rw [List.length_replicate]; omega),
        List.length_replicate]
      have hidx : i - (FIXED_LENGTH - p.length) < p.length := by omega
      simp only [hpad, if_false, List.getD_eq_getElem?_getD,
        List.getElem?_eq_getElem hidx, Option.getD_some]
  · rw [List.getElem?_eq_none (by simp; omega), List.getElem?_eq_none (by rw [hlen]; omega)]

/-- C24 as stated fails: the key has the width of the constant `FIXED_LENGTH`,
not of the stored values.  With the constant at 10 the key of `017` is
`0000000017`, 10 bytes, also for the values of 124 bytes the example writer
stores; with the constant at 124 the key of `017` has 124 bytes and is not
`0000000017`. -/
theorem byteArrayKey_fixed_width_counterexample :
    (hello 124 17).length = 124 ∧
    byteArrayKey 10 exPredicate017 = .ok [48, 48, 48, 48, 48, 48, 48, 48, 49, 55] ∧
    [48, 48, 48, 48, 48, 48, 48, 48, 49, 55].length ≠ 124 ∧
    byteArrayKey 124 exPredicate017 = .ok (List.replicate 122 48 ++ [49, 55]) ∧
    (List.replicate 122 48 ++ [49, 55]).length ≠
      [48, 48, 48, 48, 48, 48, 48, 48, 49, 55].length := by
  refine ⟨?_, by decide, by decide, ?_, ?_⟩
  · exact (helloDigits_length 124 (17 * 124) []).trans rfl
  · exact byteArrayKey_eq 124 exPredicate017 (by decide)
  · rw [List.length_append, List.length_replicate]
    decide

/-- C24, amended: the key that `GetPageIndex` compares against `min_values` and
`max_values` is the predicate without its leading `'0'` characters, left-padded
with `'0'` to `FIXED_LENGTH` bytes, whenever that many bytes hold it; its width
is the constant `FIXED_LENGTH` and does not follow the width of the stored
values. -/
theorem byteArrayKey_pads_to_FIXED_LENGTH (FIXED_LENGTH : Nat) (predicate : List Nat)
    (hfit : (stripLeadingZeros predicate).length ≤ FIXED_LENGTH) :
    byteArrayKey FIXED_LENGTH predicate
      = .ok (List.replicate (FIXED_LENGTH - (stripLeadingZeros predicate).length) 48
          ++ stripLeadingZeros predicate) ∧
    (List.replicate (FIXED_LENGTH - (stripLeadingZeros predicate).length) 48
      ++ stripLeadingZeros predicate).length = FIXED_LENGTH := by
  refine ⟨byteArrayKey_eq FIXED_LENGTH predicate hfit, ?_⟩
  rw [List.length_append, List.length_replicate]
  omega

/-- Witness of `byteArrayKey_pads_to_FIXED_LENGTH`: the predicate `017` and the
constant at 10. -/
theorem byteArrayKey_pads_to_FIXED_LENGTH_witness :
    (stripLeadingZeros exPredicate017).length ≤ 10 ∧
    byteArrayKey 10 exPredicate017
      = .ok (List.replicate (10 - (stripLeadingZeros exPredicate017).length) 48
          ++ stripLeadingZeros exPredicate017) ∧
    List.replicate (10 - (stripLeadingZeros exPredicate017).length) 48
      ++ stripLeadingZeros exPredicate017 = [48, 48, 48, 48, 48, 48, 48, 48, 49, 55] :=
  ⟨by decide, (byteArrayKey_pads_to_FIXED_LENGTH 10 exPredicate017 (by decide)).1, by decide⟩

end Parquet
